import Mathlib

/-!
# hpp-rbprm: contact-transition engine

A shallow embedding of the interpolation loop and the state filters of
`src/src/interpolation/rbprm-path-interpolation.cc`, of the contact
maintenance / generation / repositioning algorithms of
`src/src/contact_generation/contact_generation.cc` and of the projection
helpers of `src/src/projection/projection.cc`, followed by theorems about them.

Conventions of the embedding:

* `double` values (time stamps, robustness, joint values) are exact rationals;
* `std::map<std::string, T>` is an association list read with `List.lookup`,
  `std::queue` and `std::vector` are lists (front of the queue = head);
* everything the sources call but do not define (the robot model, the
  projector, the collision validators, the stability test, the octree query,
  `State::contactBreaks`, ...) is a parameter of the definitions;
* loops that may run forever take a `fuel : Nat` and return `none` when it
  runs out; exceptions are values of `Except String`.
-/

set_option autoImplicit false

namespace hpp.rbprm

/-! ## Data model -/

/-- A configuration vector (`core::Configuration_t`). -/
abbrev Config := List ℚ

/-- A 3-vector (`fcl::Vec3f`). -/
abbrev Vec3 := ℚ × ℚ × ℚ

/-- A 3x3 matrix (`fcl::Matrix3f`), as its three rows. -/
abbrev Matrix3 := Vec3 × Vec3 × Vec3

/-- The whole-body snapshot `hpp::rbprm::State`: the members the sources under
`src/` read and write. -/
structure State where
  configuration : Config
  contacts : List (String × Bool)
  contactPositions : List (String × Vec3)
  contactNormals : List (String × Vec3)
  contactRotation : List (String × Matrix3)
  contactOrder : List String
  stable : Bool
  nbContacts : Nat
deriving DecidableEq, Repr

/-- The default-constructed `State`, whose constructor is not part of the
sources: no contact, and no value the theorems depend on. -/
def State.empty : State :=
  { configuration := [], contacts := [], contactPositions := [], contactNormals := [],
    contactRotation := [], contactOrder := [], stable := false, nbContacts := 0 }

/-! ## State filters (`rbprm-path-interpolation.cc`, lines 211-371) -/

/-- The three tests the filters make on a pair of states; their code is not part
of the sources, so they are parameters:
`cfgDiffers cur prev` is `(cur.configuration_ - prev.configuration_).norm() > epsilon`,
`contactBreaks cur prev` is `cur.contactBreaks(prev)` and
`contactCreations cur prev` is `cur.contactCreations(prev)`. -/
structure FilterOps (σ : Type) where
  cfgDiffers : σ → σ → Bool
  contactBreaks : σ → σ → List String
  contactCreations : σ → σ → List String

/-- The function `EqStringVec`: same size and `std::equal`. -/
def EqStringVec (v1 v2 : List String) : Bool :=
  v1.length == v2.length && v1 == v2

/-- Test of `FilterRepositioning(from, to, res)` on `current_m1`, `current`, `current_p1`. -/
def repositioningCond {σ : Type} (ops : FilterOps σ) (m1 cur p1 : σ) : Bool :=
  EqStringVec (ops.contactBreaks cur m1) (ops.contactBreaks p1 m1) &&
  EqStringVec (ops.contactCreations cur m1) (ops.contactCreations p1 cur)

/-- Test of `FilterBreakCreate(from, to, res)` on `current_m1`, `current`, `current_p1`. -/
def breakCreateCond {σ : Type} (ops : FilterOps σ) (m1 cur p1 : σ) : Bool :=
  (ops.contactCreations cur m1).isEmpty &&
  (ops.contactBreaks p1 cur).isEmpty &&
  EqStringVec (ops.contactCreations p1 cur) (ops.contactBreaks cur m1)

/-- The recursive procedure shared by `FilterRepositioning(from, to, res)` and
`FilterBreakCreate(from, to, res)`, which differ only in their test `cond`.
The list argument holds the frames from `from` up to and including `to`
(`to` is the last frame of the sequence), `m1` is the state at `from - 1`, and
the value is what the call appends to `res`. -/
def filterTripleRec {τ σ : Type} (cond : σ → σ → σ → Bool) (m1 : σ) :
    List (τ × σ) → List (τ × σ)
  | [] => []
  | [_] => []                                    -- from == to
  | cur :: p1 :: rest =>
    if cond m1 cur.2 p1.2 then
      if rest.isEmpty then []                    -- from + 1 == to
      else p1 :: filterTripleRec cond p1.2 rest
    else
      cur :: filterTripleRec cond cur.2 (p1 :: rest)

/-- The wrapper shared by `FilterRepositioning(originStates)` and
`FilterBreakCreate(originStates)`. -/
def filterTriple {τ σ : Type} (cond : σ → σ → σ → Bool) (originStates : List (τ × σ)) :
    List (τ × σ) :=
  if originStates.length < 3 then originStates
  else
    match originStates with
    | [] => []
    | front :: tl =>
      match tl.getLast? with
      | none => [front]
      | some back => front :: (filterTripleRec cond front.2 tl ++ [back])

/-- The function `T_StateFrame FilterRepositioning(const T_StateFrame&)`. -/
def FilterRepositioning {τ σ : Type} (ops : FilterOps σ) (originStates : List (τ × σ)) :
    List (τ × σ) :=
  filterTriple (repositioningCond ops) originStates

/-- The function `T_StateFrame FilterBreakCreate(const T_StateFrame&)`. -/
def FilterBreakCreate {τ σ : Type} (ops : FilterOps σ) (originStates : List (τ × σ)) :
    List (τ × σ) :=
  filterTriple (breakCreateCond ops) originStates

/-- The test under which the first loop of `FilterObsolete` keeps `current`. -/
def obsoleteKeep {σ : Type} (ops : FilterOps σ) (m1 cur : σ) : Bool :=
  ops.cfgDiffers cur m1 &&
  !((ops.contactBreaks cur m1).isEmpty && (ops.contactCreations cur m1).isEmpty)

/-- The first loop of `FilterObsolete`: the list holds the frames from `cit2` to
the last one, `m1` is the state at `cit`; the loop stops at `end() - 1`. -/
def filterObsoleteLoop {τ σ : Type} (ops : FilterOps σ) (m1 : σ) :
    List (τ × σ) → List (τ × σ)
  | [] => []
  | [_] => []                                    -- cit2 == end() - 1
  | cur :: p1 :: rest =>
    if obsoleteKeep ops m1 cur.2 then cur :: filterObsoleteLoop ops cur.2 (p1 :: rest)
    else filterObsoleteLoop ops cur.2 (p1 :: rest)

/-- The function `T_StateFrame FilterObsolete(const T_StateFrame&)`; its second loop only
prints and is left out. -/
def FilterObsolete {τ σ : Type} (ops : FilterOps σ) (originStates : List (τ × σ)) :
    List (τ × σ) :=
  if originStates.length < 3 then originStates
  else
    match originStates with
    | [] => []
    | front :: tl =>
      match tl.getLast? with
      | none => [front]
      | some back => front :: (filterObsoleteLoop ops front.2 tl ++ [back])

/-- The function `FilterStatesRec`. -/
def FilterStatesRec {τ σ : Type} (ops : FilterOps σ) (originStates : List (τ × σ)) :
    List (τ × σ) :=
  FilterObsolete ops (FilterBreakCreate ops (FilterRepositioning ops originStates))

/-- The `do ... while(res.size() != previousSize)` loop of `FilterStates`. -/
def filterStatesLoop {τ σ : Type} (ops : FilterOps σ) : Nat → List (τ × σ) → Option (List (τ × σ))
  | 0, _ => none
  | fuel + 1, res =>
    let res1 := FilterStatesRec ops res
    if res1.length != res.length then filterStatesLoop ops fuel res1 else some res1

/-- The function `T_StateFrame FilterStates(const T_StateFrame&, const bool deep)`. Its first
loop only prints; it reads `begin() + 1` and `end() - 1`, so the function is
defined for sequences of at least two frames. -/
def FilterStates {τ σ : Type} (ops : FilterOps σ) (fuel : Nat) (originStates : List (τ × σ))
    (deep : Bool) : Option (List (τ × σ)) :=
  if deep then filterStatesLoop ops fuel originStates
  else some (FilterObsolete ops originStates)

/-! ## The interpolation loop (`rbprm-path-interpolation.cc`, lines 47-195) -/

/-- A timed sequence of states (`rbprm::T_StateFrame`). -/
abbrev T_StateFrame := List (ℚ × State)

/-- The report `contact::ContactReport` returned by `contact::ComputeContacts`. -/
structure ContactReport where
  success : Bool
  result : State
  contactMaintained : Bool
  multipleBreaks : Bool
  repositionedInPlace : Bool
deriving DecidableEq, Repr

/-- The function `contact::ComputeContacts` is not part of the sources: it is an
oracle. Its arguments are the number of calls made before this one (the robot it
works on is mutable), the previous state and the target configuration; the
affordances, the filters and the robustness threshold are fixed during a run
and the direction and the acceleration are computed from the other two. -/
abbrev ComputeContactsOracle := Nat → State → Config → ContactReport

/-- The variables of the loop of `Interpolate`: `cit` is the position of the
iterator in `configs`, `calls` counts the calls of `ComputeContacts`. -/
structure InterpolateVars where
  cit : Nat
  currentVal : ℚ
  states : T_StateFrame
  nbFailures : Nat
  nbRecontacts : Nat
  repos : Nat
  allowFailure : Bool
  calls : Nat
deriving DecidableEq, Repr

/-- What one turn of the loop of `Interpolate` does: it goes on with new
variables, or it returns early with the states gathered so far, or it reads
outside `configs` or `states`. -/
inductive InterpolateStep where
  | next (vars : InterpolateVars)
  | aborted (states : T_StateFrame)
  | undefinedBehaviour
deriving DecidableEq, Repr

/-- The body of the `for` loop of `Interpolate` (lines 100-181), followed by the
increment `++cit, currentVal += timeStep` of the loop header. -/
def interpolateBody (cc : ComputeContactsOracle) (configs : List Config) (timeStep : ℚ)
    (v : InterpolateVars) : InterpolateStep :=
  match v.states.getLast?, configs.get? v.cit with
  | some previous, some configuration =>
    let rep := cc v.calls previous.2 configuration
    let sameAsPrevious := rep.success && rep.contactMaintained
    let multipleBreaks := rep.multipleBreaks
    let respositioned := rep.repositionedInPlace
    -- if(allowFailure && (!rep.success_ || rep.multipleBreaks_))
    let failed := v.allowFailure && (!rep.success || rep.multipleBreaks)
    let nbFailures := if failed then v.nbFailures + 1 else v.nbFailures
    let cit := if failed && decide (v.cit + 1 ≠ configs.length) then v.cit + 1 else v.cit
    let currentVal := if failed then v.currentVal + timeStep else v.currentVal
    if failed && decide (nbFailures > 1) then .aborted v.states
    else
      -- if(multipleBreaks && !allowFailure) ... else if(!multipleBreaks && respositioned) ...
      let stepBack := (multipleBreaks && !v.allowFailure) || (!multipleBreaks && respositioned)
      let nbRecontacts := if stepBack then v.nbRecontacts + 1 else 0
      let cit := if stepBack then cit - 1 else cit
      let currentVal := if stepBack then currentVal - timeStep else currentVal
      let repos := if respositioned then v.repos + 1 else v.repos
      if respositioned && decide (repos > 20) then .aborted v.states
      else
        let states :=
          if sameAsPrevious && !multipleBreaks && !respositioned then v.states.dropLast
          else v.states
        let newState : State := { rep.result with nbContacts := rep.result.contactNormals.length }
        .next { cit := cit + 1
                currentVal := currentVal + timeStep
                states := states ++ [(currentVal, newState)]
                nbFailures := nbFailures
                nbRecontacts := nbRecontacts
                repos := repos
                allowFailure := decide (nbRecontacts < 2)
                calls := v.calls + 1 }
  | _, _ => .undefinedBehaviour

/-- The `for` loop of `Interpolate`. The value is `some (true, states)` when the
loop ends because `cit == configs.end()`, `some (false, states)` when the body
returns early, `none` when the fuel runs out or the behaviour is undefined. -/
def interpolateLoop (cc : ComputeContactsOracle) (configs : List Config) (timeStep : ℚ) :
    Nat → InterpolateVars → Option (Bool × T_StateFrame)
  | 0, _ => none
  | fuel + 1, v =>
    if v.cit = configs.length then some (true, v.states)
    else
      match interpolateBody cc configs timeStep v with
      | .next v1 => interpolateLoop cc configs timeStep fuel v1
      | .aborted states => some (false, states)
      | .undefinedBehaviour => none

/-- The variables of `Interpolate` when its loop starts. -/
def interpolateInit (start : State) (initValue : ℚ) : InterpolateVars :=
  { cit := 1, currentVal := initValue, states := [(initValue, start)], nbFailures := 0,
    nbRecontacts := 0, repos := 0, allowFailure := true, calls := 0 }

/-- The function `RbPrmInterpolation::Interpolate(affordances, affFilters, configs,
robustnessTreshold, timeStep, initValue, filterStates)` (lines 78-195).
`start` and `end_` are the members `start_` and `end_`, `pathEnd` is
`path_->timeRange().second`. -/
def Interpolate (ops : FilterOps State) (cc : ComputeContactsOracle) (start end_ : State)
    (pathEnd : ℚ) (configs : List Config) (timeStep initValue : ℚ) (filterStates : Bool)
    (fuel : Nat) : Option T_StateFrame :=
  match interpolateLoop cc configs timeStep fuel (interpolateInit start initValue) with
  | none => none
  | some (true, states) => FilterStates ops fuel (states ++ [(pathEnd, end_)]) filterStates
  | some (false, states) => FilterStates ops fuel states filterStates

/-- The assignment `vector[i] = vector[i] + d`. -/
def addAt (d : ℚ) : Nat → Config → Config
  | _, [] => []
  | 0, x :: xs => (x + d) :: xs
  | i + 1, x :: xs => x :: addAt d i xs

/-- The function `RbPrmInterpolation::configPosition(previous, path, i)`: `path` is the guide
path as a function of time, `pathEnd` the end of its time range, `extraDim` the
dimension of the extra configuration space. -/
def configPosition (path : ℚ → Config) (pathEnd : ℚ) (extraDim : Nat) (previous : Config)
    (i : ℚ) : Config :=
  let configPosition := path (min i pathEnd)
  let pathConfigSize := configPosition.length - extraDim
  -- configuration.head(pathConfigSize) = configPosition.head(pathConfigSize)
  let configuration := configPosition.take pathConfigSize ++ previous.drop pathConfigSize
  -- configuration.tail(extraDim) = configPosition.tail(extraDim)
  let configuration := configuration.take (configuration.length - extraDim) ++
    configPosition.drop (configPosition.length - extraDim)
  addAt (1 / 10) 2 configuration

/-- The loop `for(double i = range.first; i < range.second; i += timeStep)` of the
path overload of `Interpolate`, which appends one configuration per sample. -/
def sampleConfigs (path : ℚ → Config) (pathEnd : ℚ) (extraDim : Nat) (timeStep : ℚ) :
    Nat → ℚ → List Config → Option (List Config)
  | 0, _, _ => none
  | fuel + 1, i, configs =>
    if i < pathEnd then
      sampleConfigs path pathEnd extraDim timeStep fuel (i + timeStep)
        (configs ++ [configPosition path pathEnd extraDim (configs.getLastD []) i])
    else some configs

/-- The function `RbPrmInterpolation::Interpolate(affordances, affFilters, timeStep,
robustnessTreshold, filterStates)` (lines 61-76), for a path that is given;
`range` is `path_->timeRange()`. -/
def InterpolatePath (ops : FilterOps State) (cc : ComputeContactsOracle) (start end_ : State)
    (path : ℚ → Config) (range : ℚ × ℚ) (extraDim : Nat) (timeStep : ℚ) (filterStates : Bool)
    (fuel : Nat) : Option T_StateFrame :=
  match sampleConfigs path range.2 extraDim timeStep fuel range.1 [start.configuration] with
  | none => none
  | some configs =>
    let configs := configs ++ [configPosition path range.2 extraDim (configs.getLastD []) range.2]
    Interpolate ops cc start end_ range.2 configs timeStep range.1 filterStates fuel

/-! ## Maps, states and the robot (`contact_generation.cc`, `projection.cc`) -/

/-- The assignment `map[k] = v` on a `std::map<std::string, T>`: the value of an existing key
is replaced, a new key is inserted at its place in the order of the keys. -/
def mapSet {α : Type} (k : String) (v : α) : List (String × α) → List (String × α)
  | [] => [(k, v)]
  | (k1, v1) :: rest =>
    if k1 = k then (k, v) :: rest
    else if k < k1 then (k, v) :: (k1, v1) :: rest
    else (k1, v1) :: mapSet k v rest

/-- The call `map.erase(k)`. -/
def mapErase {α : Type} (k : String) (m : List (String × α)) : List (String × α) :=
  m.filter (fun kv => kv.1 != k)

/-- The call `map.at(k)`, which throws `std::out_of_range` when `k` is not a key. -/
def mapAt {α : Type} (m : List (String × α)) (k : String) : Except String α :=
  match m.lookup k with
  | some v => pure v
  | none => throw "map::at"

/-- Modelled from the spec: `State::RemoveContact`, whose code is not part of the
sources. It takes the limb out of `contacts`, `contactPositions`,
`contactNormals`, `contactRotation` and `contactOrder` (the other limbs keep
their relative order); `nbContacts` is the size of `contactNormals`. -/
def State.RemoveContact (s : State) (contactId : String) : State :=
  { s with
    contacts := mapErase contactId s.contacts
    contactPositions := mapErase contactId s.contactPositions
    contactNormals := mapErase contactId s.contactNormals
    contactRotation := mapErase contactId s.contactRotation
    contactOrder := s.contactOrder.filter (fun l => l != contactId)
    nbContacts := (mapErase contactId s.contactNormals).length }

/-- Modelled from the spec: `rbprm::freeEffectors`, whose code is not part of the
sources: the limbs among `effNames` that are not in contact in the state. -/
def freeEffectors (s : State) (effNames : List String) : List String :=
  effNames.filter (fun l => s.contacts.lookup l != some true)

/-- Modelled from the spec: `tools::insertIfNew`, whose code is not part of the
sources: the value is appended when it is absent, and the result tells whether
it was. -/
def insertIfNew (v : List String) (x : String) : Bool × List String :=
  if v.contains x then (false, v) else (true, v ++ [x])

/-- An environment object (`model::CollisionObjectPtr_t`), by its identifier. -/
abbrev CollisionObject := Nat

/-- A sample of a limb database (`sampling::Sample`), by its identifier. -/
abbrev Sample := Nat

/-- A candidate contact (`sampling::OctreeReport`), by its identifier. -/
abbrev OctreeReport := Nat

/-- The enumeration `ContactComputationStatus`. -/
inductive ContactComputationStatus where
  | NO_CONTACT
  | STABLE_CONTACT
  | UNSTABLE_CONTACT
deriving DecidableEq, Repr

open ContactComputationStatus

/-- The structure `projection::ProjectionReport`. -/
structure ProjectionReport where
  success : Bool
  status : ContactComputationStatus
  result : State
deriving DecidableEq, Repr

/-- The default-constructed `ProjectionReport`. Its constructor is not part of
the sources: the loops of `maintain_contacts` and `gen_contacts` test
`!rep.success_` on it before any assignment, so `success_` starts false; the
status is taken to start at `NO_CONTACT` and the state to be the default one. -/
def ProjectionReport.default : ProjectionReport :=
  { success := false, status := NO_CONTACT, result := State.empty }

/-- A constraint added to the projector by `CreateContactConstraints`: the
effector, the pinned position and, for a 6-DOF limb, the pinned rotation. -/
abbrev ContactConstraint := String × Vec3 × Option Matrix3

/-- The robot `RbPrmFullBody` and the services the sources call on it, none of
which is defined in the sources:
* `limbs`: the keys of `GetLimbs()`, in the order of the map;
* `limbGroupName l`: `GetLimbs().at(l)->limb_->name()`;
* `groups g`: `GetGroups().at(g)`;
* `requiredLimbs`: `getRequiredLimbs()`;
* `is6DOF l`: `GetLimbs().at(l)->contactType_ == _6_DOF`;
* `validate`: `GetCollisionValidation()->validate`;
* `limbValidate l`: `GetLimbCollisionValidation().at(l)->validate`;
* `samples l`: `GetLimbs().at(l)->sampleContainer_.samples_`;
* `load`: `sampling::Load`;
* `isStable`: `stability::IsStable(fullBody, state)`;
* `applyProjector cs conf q`: `proj->apply(q)` for the projector holding the
  contact constraints `cs` and the root locked at `conf`;
* `getCandidates l q dir o`: `sampling::GetCandidates` for limb `l` of the robot
  at configuration `q`, direction `dir` and object `o`;
* `mergeReports`: the insertion of all the reports in one `T_OctreeReport` set;
* `projectSampleToObstacle l r q current`: the report and the new value of the
  configuration `q`, which is passed by reference;
* `effectorPosition l q`, `effectorRotation l q`: the translation and the
  rotation of `limb->effector_->currentTransformation()` once the robot is at `q`.
-/
structure FullBody where
  limbs : List String
  limbGroupName : String → String
  groups : String → List String
  requiredLimbs : List String
  is6DOF : String → Bool
  validate : Config → Bool
  limbValidate : String → Config → Bool
  samples : String → List Sample
  load : Sample → Config → Config
  isStable : State → ℚ
  applyProjector : List ContactConstraint → Config → Config → Bool × Config
  getCandidates : String → Config → Vec3 → CollisionObject → List OctreeReport
  mergeReports : List (List OctreeReport) → List OctreeReport
  projectSampleToObstacle : String → OctreeReport → Config → State → ProjectionReport × Config
  effectorPosition : String → Config → Vec3
  effectorRotation : String → Config → Matrix3

/-- The structure `ContactGenHelper`: the members set by its constructor and the queue
`candidates_`. -/
structure ContactGenHelper where
  fullBody : FullBody
  previousState : State
  checkStabilityMaintain : Bool
  contactIfFails : Bool
  stableForOneContact : Bool
  acceleration : Vec3
  direction : Vec3
  robustnessTreshold : ℚ
  maxContactBreaks : Nat
  maxContactCreations : Nat
  affordances : List (String × List CollisionObject)
  affFilters : List (String × List String)
  workingState : State
  checkStabilityGenerate : Bool
  candidates : List State

/-- The constructor `ContactGenHelper::ContactGenHelper` (lines 30-56). -/
def ContactGenHelper.create (fb : FullBody) (ps : State) (configuration : Config)
    (affordances : List (String × List CollisionObject))
    (affFilters : List (String × List String)) (robustnessTreshold : ℚ)
    (maxContactBreaks maxContactCreations : Nat)
    (checkStabilityMaintain checkStabilityGenerate : Bool) (direction acceleration : Vec3)
    (contactIfFails stableForOneContact : Bool) : ContactGenHelper :=
  { fullBody := fb
    previousState := ps
    checkStabilityMaintain := checkStabilityMaintain
    contactIfFails := contactIfFails
    stableForOneContact := stableForOneContact
    acceleration := acceleration
    direction := direction
    robustnessTreshold := robustnessTreshold
    maxContactBreaks := maxContactBreaks
    maxContactCreations := maxContactCreations
    affordances := affordances
    affFilters := affFilters
    workingState := { ps with configuration := configuration, stable := false }
    checkStabilityGenerate := checkStabilityGenerate
    candidates := [] }

/-! ## Projection (`projection.cc`) -/

/-- The function `CreateContactConstraints`: one constraint per limb of `contactOrder_`, read
with `contactPositions_.at` and, for a 6-DOF limb, `contactRotation_.at`. -/
def CreateContactConstraints (fb : FullBody) (currentState : State) :
    List String → Except String (List ContactConstraint)
  | [] => pure []
  | effector :: fixed => do
    let ppos ← mapAt currentState.contactPositions effector
    let rot ← if fb.is6DOF effector then
                (mapAt currentState.contactRotation effector).map some
              else pure none
    let others ← CreateContactConstraints fb currentState fixed
    pure ((effector, ppos, rot) :: others)

/-- The function `projectToRootConfiguration(fullBody, conf, currentState)` (lines 99-111). -/
def projectToRootConfiguration (fb : FullBody) (conf : Config) (currentState : State) :
    Except String ProjectionReport := do
  let constraints ← CreateContactConstraints fb currentState currentState.contactOrder
  let (ok, configuration) := fb.applyProjector constraints conf currentState.configuration
  pure { success := ok, status := NO_CONTACT,
         result := { currentState with configuration := configuration } }

/-- The loop of `setCollisionFree`: `acc` is `res` and the local `configuration`. -/
def setCollisionFreeLoop (load : Sample → Config → Config) (validation : Config → Bool) :
    List Sample → ProjectionReport × Config → ProjectionReport × Config
  | [], acc => acc
  | sample :: rest, (res, configuration) =>
    let res :=
      if validation configuration then
        { res with result := { res.result with configuration := configuration }, success := true }
      else res
    -- load after to test the current configuration
    setCollisionFreeLoop load validation rest (res, load sample configuration)

/-- The function `setCollisionFree` (lines 113-132), with the collision validator of the limb
as the argument `validation` that its callers pass and its body reads. -/
def setCollisionFree (fb : FullBody) (validation : Config → Bool) (limbName : String)
    (currentState : State) : ProjectionReport :=
  (setCollisionFreeLoop fb.load validation (fb.samples limbName)
    ({ ProjectionReport.default with result := currentState }, currentState.configuration)).1

/-! ## Contact maintenance (`contact_generation.cc`, lines 58-134, 180-211, 268-294) -/

/-- The function `push_if_new`: the new list and whether the state was appended. -/
def push_if_new (states : List State) (currentState : State) : Bool × List State :=
  if states.any (fun s => currentState.contactOrder == s.contactOrder) then (false, states)
  else (true, states ++ [currentState])

/-- The function `maintain_contacts_combinatorial_rec(currentState, depth, maxBrokenContacts, res)`.
The recursion is on `remaining = maxBrokenContacts - depth`, so that the test
`depth >= maxBrokenContacts` reads `remaining = 0`; the value is the new `res`. -/
def maintain_contacts_combinatorial_rec (currentState : State) (depth : Nat) :
    Nat → List (List State) → List (List State)
  | remaining, res =>
    let pushed := push_if_new (res.getD depth []) currentState
    if !pushed.1 then res
    else
      let res := res.set depth pushed.2
      match remaining with
      | 0 => res
      | remaining + 1 =>
        currentState.contactOrder.foldl
          (fun acc contactRemoved =>
            maintain_contacts_combinatorial_rec (currentState.RemoveContact contactRemoved)
              (depth + 1) remaining acc)
          res

/-- The function `flatten`. -/
def flatten (depthstates : List (List State)) : List State :=
  depthstates.foldl (fun res level => res ++ level) []

/-- The function `maintain_contacts_combinatorial(currentState, maxBrokenContacts)`. -/
def maintain_contacts_combinatorial (currentState : State) (maxBrokenContacts : Nat) :
    List State :=
  flatten (maintain_contacts_combinatorial_rec currentState 0 maxBrokenContacts
    (List.replicate (maxBrokenContacts + 1) []))

/-- The function `maintain_contacts_stability_rec` (lines 106-134): the value is the returned
boolean with the new values of `candidates` and `currentRep`, both passed by
reference. -/
def maintain_contacts_stability_rec (fb : FullBody) (targetRootConfiguration : Config)
    (contactLength : Nat) (robustness : ℚ) :
    List State → ProjectionReport → Except String (Bool × List State × ProjectionReport)
  | candidates, currentRep =>
    if fb.isStable currentRep.result > robustness then
      pure (true, candidates, { currentRep with result := { currentRep.result with stable := true } })
    else
      let currentRep := { currentRep with result := { currentRep.result with stable := false } }
      match candidates with
      | [] => pure (false, [], currentRep)
      | cState :: candidates =>
        -- removed more contacts, cannot be stable if previous state was not
        if cState.contactOrder.length < contactLength then pure (false, candidates, currentRep)
        else do
          let rep ← projectToRootConfiguration fb targetRootConfiguration cState
          let (ok, copy_candidates, rep) ←
            maintain_contacts_stability_rec fb targetRootConfiguration contactLength robustness
              candidates rep
          if ok then pure (true, copy_candidates, rep)
          else pure (false, candidates, currentRep)

/-- The function `maintain_contacts_stability` (lines 180-190): the returned report and the
helper with its new queue of candidates. -/
def maintain_contacts_stability (contactGenHelper : ContactGenHelper)
    (currentRep : ProjectionReport) : Except String (ProjectionReport × ContactGenHelper) := do
  let contactLength := currentRep.result.contactOrder.length
  let (_, candidates, currentRep) ←
    maintain_contacts_stability_rec contactGenHelper.fullBody
      contactGenHelper.workingState.configuration contactLength
      contactGenHelper.robustnessTreshold contactGenHelper.candidates currentRep
  pure (currentRep, { contactGenHelper with candidates := candidates })

/-- The function `extractEffectorsName`. -/
def extractEffectorsName (fb : FullBody) : List String := fb.limbs

/-- The loop of `genColFree` over the free limbs, which stops when `res.success_`
is false. -/
def genColFreeLoop (fb : FullBody) : List String → ProjectionReport → ProjectionReport
  | [], res => res
  | limb :: rest, res =>
    if res.success then
      genColFreeLoop fb rest (setCollisionFree fb (fb.limbValidate limb) limb res.result)
    else res

/-- The function `genColFree` (lines 201-211). -/
def genColFree (contactGenHelper : ContactGenHelper) (currentRep : ProjectionReport) :
    ProjectionReport :=
  let effNames := extractEffectorsName contactGenHelper.fullBody
  let freeLimbs := freeEffectors currentRep.result effNames
  genColFreeLoop contactGenHelper.fullBody freeLimbs currentRep

/-- The `while(!candidates.empty() && !rep.success_)` loop of `maintain_contacts`:
the new values of `candidates` and `rep`. -/
def maintain_contacts_loop (contactGenHelper : ContactGenHelper) :
    List State → ProjectionReport → Except String (List State × ProjectionReport)
  | [], rep => pure ([], rep)
  | cState :: candidates, rep =>
    if rep.success then pure (cState :: candidates, rep)
    else do
      let rep ← projectToRootConfiguration contactGenHelper.fullBody
        contactGenHelper.workingState.configuration cState
      let rep := if rep.success then genColFree contactGenHelper rep else rep
      let rep :=
        if rep.success then
          { rep with success := contactGenHelper.fullBody.validate rep.result.configuration }
        else rep
      maintain_contacts_loop contactGenHelper candidates rep

/-- The function `maintain_contacts` (lines 268-294): the returned report and the helper with
its new queue of candidates. -/
def maintain_contacts (contactGenHelper : ContactGenHelper) :
    Except String (ProjectionReport × ContactGenHelper) := do
  let candidates :=
    if contactGenHelper.candidates.isEmpty then
      maintain_contacts_combinatorial contactGenHelper.workingState
        contactGenHelper.maxContactBreaks
    else contactGenHelper.candidates.tail       -- first candidate already treated
  let (candidates, rep) ← maintain_contacts_loop contactGenHelper candidates ProjectionReport.default
  let contactGenHelper := { contactGenHelper with candidates := candidates }
  if rep.success && contactGenHelper.checkStabilityMaintain then
    maintain_contacts_stability contactGenHelper rep
  else pure (rep, contactGenHelper)

/-! ## Contact generation (`contact_generation.cc`, lines 137-178, 213-265, 297-541) -/

/-- The test `fIt->first.find(limb) != std::string::npos`. -/
def containsSubstring (s limb : String) : Bool :=
  decide (limb.data <:+: s.data)

/-- The second loop of `getAffObjectsForLimb`: `affordances.find(type)` is
dereferenced without a test, which is undefined for a type that is not a key. -/
def copyAffTypes (affordances : List (String × List CollisionObject)) :
    List String → List CollisionObject → Except String (List CollisionObject)
  | [], affs => pure affs
  | affType :: rest, affs =>
    match affordances.lookup affType with
    | some objs => copyAffTypes affordances rest (affs ++ objs)
    | none => throw "undefined behaviour: affordances.end() dereferenced"

/-- The function `getAffObjectsForLimb` (lines 137-178). -/
def getAffObjectsForLimb (limb : String) (affordances : List (String × List CollisionObject))
    (affFilters : List (String × List String)) : Except String (List CollisionObject) := do
  let affs ←
    match affFilters.find? (fun f => containsSubstring f.1 limb) with
    | none =>
      -- Use all AFF OBJECTS as default if no filter setting exists
      pure (affordances.foldl (fun affs a => affs ++ a.2) [])
    | some f => copyAffTypes affordances f.2 []
  if affs.isEmpty then throw ("No aff objects found for limb " ++ limb)
  else pure affs

/-- The function `CollideOctree` (lines 297-327), with the heuristic of the limb. -/
def CollideOctree (contactGenHelper : ContactGenHelper) (limbName : String) :
    Except String (List OctreeReport) := do
  let affordances ← getAffObjectsForLimb limbName contactGenHelper.affordances
    contactGenHelper.affFilters
  if affordances.isEmpty then throw "No aff objects found!!!"
  else
    let reports := affordances.map
      (contactGenHelper.fullBody.getCandidates limbName
        contactGenHelper.workingState.configuration contactGenHelper.direction)
    pure (contactGenHelper.fullBody.mergeReports reports)

/-- The local variables of `findValidCandidate` that its loop changes; `maxRob`
is `none` for its first value `-std::numeric_limits<double>::max()`. -/
structure CandidateSearch where
  configuration : Config
  moreRobust : Config
  maxRob : Option ℚ
  position : Vec3
  normal : Vec3
  rotation : Matrix3
  found_sample : Bool
  unstableContact : Bool
deriving DecidableEq, Repr

/-- The test `robustness > maxRob`. -/
def aboveMaxRob (robustness : ℚ) : Option ℚ → Bool
  | none => true
  | some m => decide (robustness > m)

/-- The value `std::max(robustness, maxRob)`. -/
def maxWithRob (robustness : ℚ) : Option ℚ → Option ℚ
  | none => some robustness
  | some m => some (max robustness m)

/-- The loop `for(; !found_sample && it != finalSet.end(); ++it)` of
`findValidCandidate` (lines 343-372). -/
def findValidCandidateLoop (contactGenHelper : ContactGenHelper) (limbId : String)
    (current : State) : List OctreeReport → CandidateSearch → Except String CandidateSearch
  | [], s => pure s
  | bestReport :: rest, s =>
    if s.found_sample then pure s
    else
      let fb := contactGenHelper.fullBody
      let projected := fb.projectSampleToObstacle limbId bestReport s.configuration current
      let rep := projected.1
      let s := { s with configuration := projected.2 }
      if rep.success then
        let robustness := fb.isStable rep.result
        if !contactGenHelper.checkStabilityGenerate
            || (rep.result.nbContacts == 1 && !contactGenHelper.stableForOneContact)
            || decide (robustness ≥ contactGenHelper.robustnessTreshold) then do
          let normal ← mapAt rep.result.contactNormals limbId
          findValidCandidateLoop contactGenHelper limbId current rest
            { s with maxRob := maxWithRob robustness s.maxRob
                     position := fb.effectorPosition limbId s.configuration
                     rotation := fb.effectorRotation limbId s.configuration
                     normal := normal
                     found_sample := true }
        -- if no stable candidate is found, select best contact anyway
        else if aboveMaxRob robustness s.maxRob && contactGenHelper.contactIfFails then do
          let normal ← mapAt rep.result.contactNormals limbId
          findValidCandidateLoop contactGenHelper limbId current rest
            { s with moreRobust := s.configuration
                     maxRob := some robustness
                     position := fb.effectorPosition limbId s.configuration
                     rotation := fb.effectorRotation limbId s.configuration
                     normal := normal
                     unstableContact := true }
        else findValidCandidateLoop contactGenHelper limbId current rest s
      else findValidCandidateLoop contactGenHelper limbId current rest s

/-- The function `findValidCandidate` (lines 329-392): the returned state and the new values
of `found_sample` and `unstableContact`, both passed by reference. -/
def findValidCandidate (contactGenHelper : ContactGenHelper) (limbId : String)
    (found_sample unstableContact : Bool) : Except String (State × Bool × Bool) := do
  let current : State := { contactGenHelper.workingState with stable := false }
  let finalSet ← CollideOctree contactGenHelper limbId
  let s ← findValidCandidateLoop contactGenHelper limbId current finalSet
    { configuration := current.configuration, moreRobust := [], maxRob := none,
      position := (0, 0, 0), normal := (0, 0, 0),
      rotation := ((0, 0, 0), (0, 0, 0), (0, 0, 0)),
      found_sample := found_sample, unstableContact := unstableContact }
  let current : State :=
    if s.found_sample || s.unstableContact then
      { current with
        contacts := mapSet limbId true current.contacts
        contactNormals := mapSet limbId s.normal current.contactNormals
        contactPositions := mapSet limbId s.position current.contactPositions
        contactRotation := mapSet limbId s.rotation current.contactRotation
        contactOrder := current.contactOrder ++ [limbId] }
    else current
  let current : State :=
    if s.found_sample then { current with configuration := s.configuration, stable := true }
    else current
  let current : State :=
    if s.unstableContact then { current with configuration := s.moreRobust, stable := false }
    else current
  pure (current, s.found_sample, s.unstableContact)

/-- The function `generate_contact` (lines 394-437), with the heuristic of the limb. -/
def generate_contact (contactGenHelper : ContactGenHelper) (limbName : String) :
    Except String ProjectionReport := do
  let validation := contactGenHelper.fullBody.limbValidate limbName
  -- pick first sample which is collision free
  let (result, found_sample, unstableContact) ←
    findValidCandidate contactGenHelper limbName false false
  if found_sample then
    pure { result := result, status := STABLE_CONTACT, success := true }
  else if unstableContact then
    pure { result := result, status := UNSTABLE_CONTACT,
           success := !contactGenHelper.checkStabilityGenerate }
  else
    let rep := setCollisionFree contactGenHelper.fullBody validation limbName result
    pure { rep with status := NO_CONTACT, success := false }

/-- The function `stringCombinatorialRec(res, candidates, depth)`: the new value of `res`. -/
def stringCombinatorialRec (candidates : List String) :
    Nat → List (List String) → List (List String)
  | 0, res => res
  | depth + 1, res =>
    let newStates := res.foldl
      (fun acc contacts =>
        candidates.foldl
          (fun acc c =>
            let inserted := insertIfNew contacts c
            if inserted.1 then acc ++ [inserted.2] else acc)
          acc)
      []
    res ++ stringCombinatorialRec candidates depth newStates

/-- The function `stringCombinatorial(candidates, maxDepth)`. -/
def stringCombinatorial (candidates : List String) (maxDepth : Nat) : List (List String) :=
  stringCombinatorialRec candidates maxDepth [[]]

/-- A creation plan `ContactState`: a state and the limbs to create. -/
abbrev ContactState := State × List String

/-- The function `gen_contacts_combinatorial(freeEffectors, previous, maxCreatedContacts)`. -/
def gen_contacts_combinatorial_of (freeEffectors : List String) (previous : State)
    (maxCreatedContacts : Nat) : List ContactState :=
  (stringCombinatorial freeEffectors maxCreatedContacts).map (fun plan => (previous, plan))

/-- The function `gen_contacts_combinatorial(contactGenHelper)` (lines 259-265). -/
def gen_contacts_combinatorial (contactGenHelper : ContactGenHelper) : List ContactState :=
  let cState := contactGenHelper.workingState
  let effNames := extractEffectorsName contactGenHelper.fullBody
  let freeLimbs := freeEffectors cState effNames
  gen_contacts_combinatorial_of freeLimbs cState contactGenHelper.maxContactCreations

/-- The test `reqLimValid` of `gen_contacts` in mode 0 (lines 455-478): every
required limb is among the keys of `current.first.contacts_` whose value is true. -/
def reqLimValid (contactGenHelper : ContactGenHelper) (current : ContactState) : Bool :=
  let activesContacts := (current.1.contacts.filter (fun c => c.2 == true)).map (fun c => c.1)
  contactGenHelper.fullBody.requiredLimbs.all (fun r => activesContacts.any (fun a => r == a))

/-- The `for` loop of `gen_contacts` over the limbs of a plan (lines 526-538). -/
def gen_contacts_plan (checkStability : Bool) :
    List String → ContactGenHelper → ProjectionReport →
      Except String (ProjectionReport × ContactGenHelper)
  | [], contactGenHelper, rep => pure (rep, contactGenHelper)
  | limb :: rest, contactGenHelper, _ => do
    let contactGenHelper :=
      if rest.isEmpty then { contactGenHelper with checkStabilityGenerate := checkStability }
      else contactGenHelper
    let rep ← generate_contact contactGenHelper limb
    let contactGenHelper :=
      if rep.success then { contactGenHelper with workingState := rep.result }
      else contactGenHelper
    gen_contacts_plan checkStability rest contactGenHelper rep

/-- The `while(!candidates.empty() && !rep.success_)` loop of `gen_contacts`
(lines 509-539). -/
def gen_contacts_loop :
    List ContactState → ContactGenHelper → ProjectionReport →
      Except String (ProjectionReport × ContactGenHelper)
  | [], contactGenHelper, rep => pure (rep, contactGenHelper)
  | cState :: candidates, contactGenHelper, rep =>
    if rep.success then pure (rep, contactGenHelper)
    else
      let checkStability := contactGenHelper.checkStabilityGenerate
      if cState.2.isEmpty &&
          (contactGenHelper.workingState.stable ||
            decide (contactGenHelper.fullBody.isStable contactGenHelper.workingState >
              contactGenHelper.robustnessTreshold)) then
        pure ({ result := contactGenHelper.workingState, status := NO_CONTACT, success := true },
              contactGenHelper)
      else do
        let (rep, contactGenHelper) ← gen_contacts_plan checkStability cState.2 contactGenHelper rep
        gen_contacts_loop candidates contactGenHelper rep

/-- The function `gen_contacts` (lines 439-541): the returned report and the helper, whose
working state it changes. -/
def gen_contacts (contactGenHelper : ContactGenHelper) :
    Except String (ProjectionReport × ContactGenHelper) :=
  let candidates := gen_contacts_combinatorial contactGenHelper
  -- remove candidates which not respect the required limbs in contact
  let candidates := candidates.filter (reqLimValid contactGenHelper)
  gen_contacts_loop candidates contactGenHelper ProjectionReport.default

/-! ## Repositioning (`contact_generation.cc`, lines 543-610) -/

/-- The variables the loops of `repositionContacts` change: the helper, `result`,
the stack `poppedContacts` (top = head), `nContactName` and `notFound`. -/
structure RepositionVars where
  helper : ContactGenHelper
  result : State
  poppedContacts : List String
  nContactName : String
  notFound : Bool

/-- The loop `for(cit = group.begin(); notFound && cit != group.end(); ++cit)`
of `repositionContacts` (lines 565-582). -/
def repositionGroupLoop (previous : State) :
    List String → RepositionVars → Except String RepositionVars
  | [], v => pure v
  | cit :: rest, v =>
    if !v.notFound then pure v
    else do
      let result := v.result.RemoveContact cit
      let helper := { v.helper with workingState := result }
      let rep ← generate_contact helper cit
      if rep.status = STABLE_CONTACT then
        repositionGroupLoop previous rest
          { v with helper := helper, result := rep.result, nContactName := cit, notFound := false }
      else
        repositionGroupLoop previous rest { v with helper := helper, result := previous }

/-- The loop `while(!result.stable && !oldOrder.empty())` of `repositionContacts`
(lines 557-590): what is left of `oldOrder` and the new variables. -/
def repositionLoop (previous : State) (savedConfig : Config) :
    List String → RepositionVars → Except String (List String × RepositionVars)
  | [], v => pure ([], v)
  | previousContactName :: oldOrder, v =>
    if v.result.stable then pure (previousContactName :: oldOrder, v)
    else do
      let fb := v.helper.fullBody
      let group := fb.groups (fb.limbGroupName previousContactName)
      let v ← repositionGroupLoop previous group { v with notFound := true }
      let v :=
        if v.notFound then
          { v with result := { v.result with configuration := savedConfig }
                   poppedContacts := previousContactName :: v.poppedContacts }
        else v
      repositionLoop previous savedConfig oldOrder v

/-- The function `repositionContacts` (lines 543-610): the returned report and the helper,
whose working state it changes. -/
def repositionContacts (helper : ContactGenHelper) :
    Except String (ProjectionReport × ContactGenHelper) := do
  let result : State := { helper.workingState with stable := false }
  let previous := result
  let savedConfig := helper.previousState.configuration
  let (oldOrder, v) ← repositionLoop previous savedConfig result.contactOrder
    { helper := helper, result := result, poppedContacts := [], nContactName := "",
      notFound := true }
  let newOrder := v.poppedContacts ++ oldOrder
  let newOrder := if v.result.stable then newOrder ++ [v.nContactName] else newOrder
  let resultReport : ProjectionReport :=
    if v.result.stable then
      { ProjectionReport.default with status := STABLE_CONTACT, success := true }
    else ProjectionReport.default
  pure ({ resultReport with result := { v.result with contactOrder := newOrder } }, v.helper)


/-! ## The tests of the filters on `State` -/

/-- Modelled from the spec: `State::contactBreaks`, whose code is not part of the
sources: the limbs in contact in `previous` that are not in contact in `cur`. -/
def State.contactBreaks (cur previous : State) : List String :=
  ((previous.contacts.filter (fun c => c.2)).map (fun c => c.1)).filter
    (fun l => cur.contacts.lookup l != some true)

/-- Modelled from the spec: `State::contactCreations`, whose code is not part of
the sources: the limbs in contact in `cur` that are not in contact in `previous`. -/
def State.contactCreations (cur previous : State) : List String :=
  previous.contactBreaks cur

/-- The squared norm of `a - b`. -/
def configDistSq (a b : Config) : ℚ :=
  (List.zipWith (fun x y => (x - y) ^ 2) a b).sum

/-- The constant `std::numeric_limits<double>::epsilon()`. -/
def epsilon : ℚ := 1 / 2 ^ 52

/-- The filter tests on `State`: `(cur - prev).norm() > epsilon`, read on exact
rationals as a comparison of squares, `contactBreaks` and `contactCreations`. -/
def stateFilterOps : FilterOps State :=
  { cfgDiffers := fun cur prev => decide (configDistSq cur.configuration prev.configuration > epsilon ^ 2)
    contactBreaks := State.contactBreaks
    contactCreations := State.contactCreations }

/-- The property of claim C5 on a sequence: no frame has a predecessor with the
same configuration and the same contacts. -/
def NoObsoletePair {τ σ : Type} (ops : FilterOps σ) (R : List (τ × σ)) : Prop :=
  List.Chain' (fun A B => ¬ (ops.cfgDiffers B.2 A.2 = false ∧
    ops.contactBreaks B.2 A.2 = [] ∧ ops.contactCreations B.2 A.2 = [])) R

/-- The test under which the loop of `Interpolate` pops the last state before it
appends the new one: `sameAsPrevious && !multipleBreaks && !respositioned`. -/
def supersedes (rep : ContactReport) : Bool :=
  (rep.success && rep.contactMaintained) && !rep.multipleBreaks && !rep.repositionedInPlace

/-- A state with the given configuration and the given limbs in contact, for
examples. -/
def exampleStateAt (q : Config) (limbs : List String) : State :=
  { configuration := q
    contacts := limbs.map (fun l => (l, true))
    contactPositions := limbs.map (fun l => (l, (0, 0, 0)))
    contactNormals := limbs.map (fun l => (l, (0, 0, 1)))
    contactRotation := limbs.map (fun l => (l, ((1, 0, 0), (0, 1, 0), (0, 0, 1))))
    contactOrder := limbs
    stable := false
    nbContacts := limbs.length }

/-- An oracle for examples: every call succeeds and makes or breaks the contact
of limb `a` in turn, without any flag set. -/
def alternatingOracle : ComputeContactsOracle :=
  fun n _ c =>
    { success := true
      result := exampleStateAt c (if n % 2 = 0 then ["a"] else [])
      contactMaintained := false
      multipleBreaks := false
      repositionedInPlace := false }

/-- An oracle for examples: the first call succeeds with the contacts
maintained, every later call fails. -/
def maintainThenFailOracle : ComputeContactsOracle :=
  fun n _ c =>
    { success := decide (n = 0)
      result := exampleStateAt c ["a"]
      contactMaintained := decide (n = 0)
      multipleBreaks := false
      repositionedInPlace := false }

/-- A guide path for examples: the root moves along the first axis; three root
coordinates and an extra configuration of dimension six. -/
def examplePath : ℚ → Config :=
  fun t => [t, 0, 0, 0, 0, 0, 0, 0, 0]

/-- A sequence of two equal states, for examples. -/
def exampleTwoFrames : T_StateFrame :=
  [(0, exampleStateAt [0] []), (1, exampleStateAt [0] [])]

/-- A sequence of six frames, for examples: limb `a` comes into contact, limb `b`
comes and goes while the configuration moves away and back. -/
def exampleFrames : T_StateFrame :=
  [(0, exampleStateAt [0] []), (1, exampleStateAt [1] ["a"]), (2, exampleStateAt [1] ["a", "b"]),
    (3, exampleStateAt [2] ["a", "b"]), (4, exampleStateAt [1] ["a"]), (5, exampleStateAt [9] [])]

/-- The start state of the examples of `InterpolatePath`. -/
def examplePathStart : State := exampleStateAt [0, 0, 0, 0, 0, 0, 0, 0, 0] []

/-- The end state of the examples of `InterpolatePath`. -/
def examplePathEnd : State := exampleStateAt [1, 0, 0, 0, 0, 0, 0, 0, 0] []

/-- What `InterpolatePath` returns on `examplePath` over `[0, 1]` with time step
`3/5` and `alternatingOracle`. -/
def examplePathRun : T_StateFrame :=
  [(0, examplePathStart),
    (0, exampleStateAt [0, 0, 1 / 10, 0, 0, 0, 0, 0, 0] ["a"]),
    (3 / 5, exampleStateAt [3 / 5, 0, 1 / 10, 0, 0, 0, 0, 0, 0] []),
    (6 / 5, exampleStateAt [1, 0, 1 / 10, 0, 0, 0, 0, 0, 0] ["a"]),
    (1, examplePathEnd)]

/-- What `Interpolate` returns on the configurations `[0], [1], [2]` with time
step 1 and `alternatingOracle`. -/
def exampleRun : T_StateFrame :=
  [(0, exampleStateAt [0] []), (0, exampleStateAt [1] ["a"]), (1, exampleStateAt [2] []),
    (3, exampleStateAt [9] [])]


/-! ## The invariant of `State` and examples of robots -/

/-- The limbs `l` with `contacts[l] = true`. -/
def activeContacts (s : State) : List String :=
  (s.contacts.filter (fun c => c.2)).map (fun c => c.1)

/-- Two lists of limbs with the same members. -/
def SameLimbs (a b : List String) : Prop :=
  (∀ l ∈ a, l ∈ b) ∧ (∀ l ∈ b, l ∈ a)

instance (a b : List String) : Decidable (SameLimbs a b) :=
  inferInstanceAs (Decidable ((∀ l ∈ a, l ∈ b) ∧ (∀ l ∈ b, l ∈ a)))

/-- The invariant of `State`: `contactOrder` holds each limb once, and its
members are the limbs in contact and the keys of the three contact maps. -/
def StateInvariant (s : State) : Prop :=
  s.contactOrder.Nodup ∧
  SameLimbs (activeContacts s) s.contactOrder ∧
  SameLimbs (s.contactPositions.map Prod.fst) s.contactOrder ∧
  SameLimbs (s.contactNormals.map Prod.fst) s.contactOrder ∧
  SameLimbs (s.contactRotation.map Prod.fst) s.contactOrder

instance (s : State) : Decidable (StateInvariant s) :=
  inferInstanceAs (Decidable (_ ∧ _ ∧ _ ∧ _ ∧ _))

/-- Two states with the same `contactOrder` and the same contact maps. -/
def SameContacts (a b : State) : Prop :=
  a.contactOrder = b.contactOrder ∧ a.contacts = b.contacts ∧
  a.contactPositions = b.contactPositions ∧ a.contactNormals = b.contactNormals ∧
  a.contactRotation = b.contactRotation

/-- The report of a call that returns a report and a helper, if it returns. -/
def reportOf (r : Except String (ProjectionReport × ContactGenHelper)) :
    Option ProjectionReport :=
  r.toOption.map Prod.fst

/-- A robot for examples, with two limbs `a` and `b` in one group. The projector
onto a root configuration succeeds for at most one contact and gives the
configuration `[2]` for a contact of `a`, `[1]` for a contact of `b`; the
whole-body validator rejects `[2]`; there is no candidate contact for `a` and
there are the candidates `10` and `20` for `b`, whose projections give the
configurations `[10]` and `[20]`; the robustness of a state is its first joint
value. -/
def exampleRobot : FullBody :=
  { limbs := ["a", "b"]
    limbGroupName := fun _ => "legs"
    groups := fun _ => ["a", "b"]
    requiredLimbs := []
    is6DOF := fun _ => false
    validate := fun q => q != [2]
    limbValidate := fun _ _ => true
    samples := fun _ => [0]
    load := fun _ q => q
    isStable := fun s => s.configuration.headD 0
    applyProjector := fun cs _ q =>
      match cs with
      | [] => (true, q)
      | [c] => (true, if c.1 = "a" then [2] else [1])
      | _ => (false, q)
    getCandidates := fun l _ _ _ => if l = "a" then [] else [10, 20]
    mergeReports := fun reports => reports.foldl (fun acc r => acc ++ r) []
    projectSampleToObstacle := fun l r _ current =>
      ({ success := true, status := ContactComputationStatus.NO_CONTACT,
         result := { current with
           configuration := [(r : ℚ)]
           contactNormals := mapSet l (0, 0, 1) current.contactNormals
           nbContacts := (mapSet l ((0 : ℚ), (0 : ℚ), (1 : ℚ)) current.contactNormals).length } },
       [(r : ℚ)])
    effectorPosition := fun _ q => (q.headD 0, 0, 0)
    effectorRotation := fun _ _ => ((1, 0, 0), (0, 1, 0), (0, 0, 1)) }

/-- A helper on `exampleRobot` for examples: the previous state has the given
limbs in contact at configuration `[0]`, one support object is known and no
filter is set. -/
def exampleHelper (limbs : List String) (robustnessTreshold : ℚ) (maxContactBreaks : Nat)
    (checkStabilityMaintain checkStabilityGenerate contactIfFails : Bool) : ContactGenHelper :=
  ContactGenHelper.create exampleRobot (exampleStateAt [0] limbs) [0] [("Support", [0])] []
    robustnessTreshold maxContactBreaks 1 checkStabilityMaintain checkStabilityGenerate
    (0, 0, 1) (0, 0, 0) contactIfFails true

/-- The test of `findValidCandidate` on the candidate `r` projected from the
configuration `q`: the projection succeeds and stability is not required
(`checkStabilityGenerate` is false, or the state has one contact and
`stableForOneContact` is false) or the robustness reaches the threshold. -/
def sampleAccepted (contactGenHelper : ContactGenHelper) (limbId : String) (current : State)
    (r : OctreeReport) (q : Config) : Prop :=
  let rep := (contactGenHelper.fullBody.projectSampleToObstacle limbId r q current).1
  rep.success = true ∧
    (contactGenHelper.checkStabilityGenerate = false ∨
      (rep.result.nbContacts = 1 ∧ contactGenHelper.stableForOneContact = false) ∨
      contactGenHelper.robustnessTreshold ≤ contactGenHelper.fullBody.isStable rep.result)

/-! ## The objects offered to a limb -/

/-- The filter entry `getAffObjectsForLimb` reads for a limb: the first entry, in
the order of the keys, whose key contains the name of the limb. -/
def limbFilter (limb : String) (affFilters : List (String × List String)) :
    Option (String × List String) :=
  affFilters.find? (fun f => containsSubstring f.1 limb)

/-- The concatenation, in the order listed, of the object lists of the given
affordance types. -/
def objectsOfTypes (affordances : List (String × List CollisionObject))
    (types : List String) : List CollisionObject :=
  (types.map (fun t => (affordances.lookup t).getD [])).flatten

/-- The object list the claims on `getAffObjectsForLimb` speak of: the objects of
the types of the filter entry read for the limb, or every object of the map
when there is no such entry. -/
def collectedObjects (limb : String) (affordances : List (String × List CollisionObject))
    (affFilters : List (String × List String)) : List CollisionObject :=
  match limbFilter limb affFilters with
  | none => (affordances.map Prod.snd).flatten
  | some f => objectsOfTypes affordances f.2

/-- The precondition of the claims on `getAffObjectsForLimb`: every affordance
type named by a filter entry is a key of the affordance map. -/
def FilterTypesKnown (affordances : List (String × List CollisionObject))
    (affFilters : List (String × List String)) : Prop :=
  ∀ f ∈ affFilters, ∀ t ∈ f.2, (affordances.lookup t).isSome = true

/-- Affordances and filters for examples: one support object, no lean object,
and limb `b` filtered to the lean type. -/
def exampleAffordances : List (String × List CollisionObject) :=
  [("Lean", []), ("Support", [0])]

/-- A filter map for examples in which the key `ab`, which contains the name of
limb `b`, comes before the key `b`. -/
def exampleFilters : List (String × List String) :=
  [("ab", ["Lean"]), ("b", ["Support"])]

/-- The frames the loop of `Interpolate` leaves after one turn on the start
state with the given report, when the report has no `repositionedInPlace`. -/
def singleTurnFrames (start end_ : State) (range : ℚ × ℚ) (timeStep : ℚ)
    (rep : ContactReport) : T_StateFrame :=
  (if supersedes rep then [] else [(range.1, start)]) ++
    [(if !rep.success || rep.multipleBreaks then range.1 + timeStep else range.1,
        { rep.result with nbContacts := rep.result.contactNormals.length }),
      (range.2, end_)]

/-- A helper for examples on the robot of the examples with limb `b` required. -/
def exampleRequiredHelper : ContactGenHelper :=
  { exampleHelper [] 15 1 false false false with
    fullBody := { exampleRobot with requiredLimbs := ["b"] } }

/-! ## The levels of the enumeration of candidates -/

/-- The contact orders of the states of level `j` of a `T_DepthState`. -/
def levelOrders (res : List (List State)) (j : Nat) : List (List String) :=
  (res.getD j []).map (fun s => s.contactOrder)

/-- The sequence `o` is `base` with `k` entries deleted. -/
def IsDrop (k : Nat) (o base : List String) : Prop :=
  o.Sublist base ∧ o.length + k = base.length

/-- Every state of the levels `d` to `d + r` has all its sequences with deleted
entries in the levels below it, down to level `d + r`. -/
def DropClosed (d r : Nat) (res : List (List State)) : Prop :=
  ∀ j i, d ≤ j → j + i ≤ d + r → ∀ o ∈ levelOrders res j, ∀ o1, IsDrop i o1 o →
    o1 ∈ levelOrders res (j + i)

/-! ## The checks on a candidate of `maintain_contacts` -/

/-- The body of the loop of `maintain_contacts` (lines 279-290) for the
candidate `cState`: the report after the projection on the target root, the
sweep of the free limbs for a collision-free configuration and the validation
of the whole body. -/
def checkCandidate (contactGenHelper : ContactGenHelper) (cState : State) :
    Except String ProjectionReport := do
  let rep ← projectToRootConfiguration contactGenHelper.fullBody
    contactGenHelper.workingState.configuration cState
  let rep := if rep.success then genColFree contactGenHelper rep else rep
  let rep :=
    if rep.success then
      { rep with success := contactGenHelper.fullBody.validate rep.result.configuration }
    else rep
  pure rep

/-- A candidate passes the three checks of `maintain_contacts` when the body of
the loop ends with `success_` set. -/
def passesChecks (contactGenHelper : ContactGenHelper) (cState : State) : Prop :=
  ∃ rep, checkCandidate contactGenHelper cState = Except.ok rep ∧ rep.success = true

/-- A candidate fails the checks of `maintain_contacts` when the body of the
loop ends with `success_` not set. -/
def failsChecks (contactGenHelper : ContactGenHelper) (cState : State) : Prop :=
  ∃ rep, checkCandidate contactGenHelper cState = Except.ok rep ∧ rep.success = false

/-! ## Runs of the loop of `Interpolate` -/

/-- The variables of the loop of `Interpolate` after `n` more turns, when the
loop is still running then: no turn found `cit == configs.end()`, returned early
or read outside `configs` or `states`. -/
def interpolateVarsAfter (cc : ComputeContactsOracle) (configs : List Config) (timeStep : ℚ) :
    Nat → InterpolateVars → Option InterpolateVars
  | 0, v => some v
  | n + 1, v =>
    if v.cit = configs.length then none
    else
      match interpolateBody cc configs timeStep v with
      | .next v1 => interpolateVarsAfter cc configs timeStep n v1
      | _ => none

/-- The test `allowFailure && (!rep.success_ || rep.multipleBreaks_)` of the loop
of `Interpolate` on a report. -/
def countsAsFailure (allowFailure : Bool) (rep : ContactReport) : Bool :=
  allowFailure && (!rep.success || rep.multipleBreaks)

/-- The frame the loop of `Interpolate` appends for a report: its state, with
`nbContacts` set to the size of `contactNormals_`. -/
def reportState (rep : ContactReport) : State :=
  { rep.result with nbContacts := rep.result.contactNormals.length }

/-- An oracle for examples: every call fails but the second one, and no flag
is set. -/
def failAroundOracle : ComputeContactsOracle :=
  fun n _ c =>
    { success := decide (n = 1)
      result := exampleStateAt c []
      contactMaintained := false
      multipleBreaks := false
      repositionedInPlace := false }

/-- An oracle for examples: the first two calls succeed with a contact
repositioned in place, every later call fails with `multipleBreaks` set. -/
def stuckOracle : ComputeContactsOracle :=
  fun n _ c =>
    { success := decide (n < 2)
      result := exampleStateAt c []
      contactMaintained := false
      multipleBreaks := decide (2 ≤ n)
      repositionedInPlace := decide (n < 2) }

/-- The variables of the loop of `Interpolate` after two turns on the
configurations `[0]` to `[5]` with `failAroundOracle`: the first call failed and
the second succeeded. -/
def exampleFailureVars : InterpolateVars :=
  { cit := 4, currentVal := 3,
    states := [(0, exampleStateAt [0] []), (1, exampleStateAt [1] []),
      (2, exampleStateAt [3] [])],
    nbFailures := 1, nbRecontacts := 0, repos := 0, allowFailure := true, calls := 2 }

/-- The variables of the loop of `Interpolate` after two turns on the
configurations `[0]`, `[1]` with `stuckOracle`: both calls repositioned a
contact, and failure is not allowed any more. -/
def exampleStuckVars : InterpolateVars :=
  { cit := 1, currentVal := 0,
    states := [(0, exampleStateAt [0] []), (-1, exampleStateAt [1] []),
      (-1, exampleStateAt [1] [])],
    nbFailures := 0, nbRecontacts := 2, repos := 2, allowFailure := false, calls := 2 }

/-! ## The sweep of `setCollisionFree` -/

/-- The configurations the loop of `setCollisionFree` tests, in order: the
current one, then the one each sample loads, the last sample apart (a sample is
loaded after the test of its turn). -/
def testedConfigurations (load : Sample → Config → Config) : List Sample → Config → List Config
  | [], _ => []
  | sample :: rest, configuration =>
    configuration :: testedConfigurations load rest (load sample configuration)

/-- A robot for examples: `exampleRobot` with the samples `1`, `2`, `3` for
every limb, a sample `s` loading the configuration `[s]`. -/
def sweepRobot : FullBody :=
  { exampleRobot with
    samples := fun _ => [1, 2, 3]
    load := fun s _ => [(s : ℚ)] }

/-! ## The plans of `gen_contacts` -/

/-- The call of `generate_contact` for a limb returns a report without
success. -/
def limbFails (contactGenHelper : ContactGenHelper) (limb : String) : Prop :=
  ∃ r, generate_contact contactGenHelper limb = Except.ok r ∧ r.success = false

/-- The report `gen_contacts` returns at once when it reaches the empty plan on
a stable working state (lines 517-525). -/
def stableReport (contactGenHelper : ContactGenHelper) : ProjectionReport :=
  { result := contactGenHelper.workingState, status := NO_CONTACT, success := true }

/-- The queue of plans the second loop of `gen_contacts` goes through: the plans
of `gen_contacts_combinatorial` that pass the test on the required limbs. -/
def keptPlans (contactGenHelper : ContactGenHelper) : List ContactState :=
  (gen_contacts_combinatorial contactGenHelper).filter (reqLimValid contactGenHelper)

/-- The limbs that `gen_contacts` tries as plans of one limb: the free limbs,
when a creation is allowed. -/
def singlePlanLimbs (contactGenHelper : ContactGenHelper) : List String :=
  if contactGenHelper.maxContactCreations = 0 then []
  else freeEffectors contactGenHelper.workingState
    (extractEffectorsName contactGenHelper.fullBody)

/-- A helper for examples: `exampleRobot` with no limb in contact and up to two
contact creations. -/
def examplePlansHelper (robustnessTreshold : ℚ) : ContactGenHelper :=
  { exampleHelper [] robustnessTreshold 1 false true false with maxContactCreations := 2 }

/-- The report of `generate_contact` and of `gen_contacts` for limb `b` of
`exampleRobot` with the threshold 15: the candidate `20` is kept. -/
def exampleAcceptedReport : ProjectionReport :=
  { success := true, status := STABLE_CONTACT,
    result := { exampleStateAt [20] [] with
      contacts := [("b", true)], contactPositions := [("b", (20, 0, 0))],
      contactNormals := [("b", (0, 0, 1))],
      contactRotation := [("b", ((1, 0, 0), (0, 1, 0), (0, 0, 1)))],
      contactOrder := ["b"], stable := true } }

/-! ## The contacts visited by `repositionContacts` -/

/-- The contacts the first loop of `repositionContacts` visits, in order, each
with the value of `notFound` after the loop over its group: true when the
replacement of the contact failed, that is when no limb of the group got a
report with the status `STABLE_CONTACT`. -/
def repositionTrace (previous : State) (savedConfig : Config) :
    List String → RepositionVars → Except String (List (String × Bool))
  | [], _ => pure []
  | previousContactName :: oldOrder, v =>
    if v.result.stable then pure []
    else do
      let fb := v.helper.fullBody
      let group := fb.groups (fb.limbGroupName previousContactName)
      let v ← repositionGroupLoop previous group { v with notFound := true }
      let failed := v.notFound
      let v :=
        if v.notFound then
          { v with result := { v.result with configuration := savedConfig }
                   poppedContacts := previousContactName :: v.poppedContacts }
        else v
      let trace ← repositionTrace previous savedConfig oldOrder v
      pure ((previousContactName, failed) :: trace)

/-- The variables of `repositionContacts` when its first loop starts. -/
def repositionInit (helper : ContactGenHelper) : RepositionVars :=
  { helper := helper, result := { helper.workingState with stable := false },
    poppedContacts := [], nContactName := "", notFound := true }

/-- The contacts of a trace whose replacement failed, the last one first. -/
def failedContacts (trace : List (String × Bool)) : List String :=
  ((trace.filter (fun t => t.2)).map Prod.fst).reverse

/-! ## Lemmas on the state filters -/

section FilterLemmas

variable {τ σ : Type}

theorem filterTripleRec_append_sublist (cond : σ → σ → σ → Bool) :
    ∀ (n : Nat) (l : List (τ × σ)) (m1 : σ) (back : τ × σ), l.length ≤ n →
      l.getLast? = some back → (filterTripleRec cond m1 l ++ [back]).Sublist l := by
  intro n
  induction n with
  | zero =>
    intro l m1 back hl h
    cases l with
    | nil => simp at h
    | cons a t => simp at hl
  | succ n ih =>
    intro l m1 back hl h
    match l, hl, h with
    | [], _, h => simp at h
    | [x], _, h =>
      simp at h
      subst h
      simp [filterTripleRec]
    | cur :: p1 :: rest, hl, h =>
      rw [List.getLast?_cons_cons] at h
      simp only [filterTripleRec]
      split
      · split
        · rename_i hemp
          have hr : rest = [] := by simpa using hemp
          subst hr
          simp at h
          subst h
          simp
        · rename_i hemp
          have hr : rest ≠ [] := by simpa using hemp
          have h2 : rest.getLast? = some back := by
            cases rest with
            | nil => exact absurd rfl hr
            | cons a t => simpa [List.getLast?_cons_cons] using h
          have := ih rest p1.2 back (by simp at hl; omega) h2
          exact List.Sublist.cons _ (List.Sublist.cons₂ _ this)
      · have := ih (p1 :: rest) cur.2 back (by simp at hl ⊢; omega) h
        exact List.Sublist.cons₂ _ this

theorem filterObsoleteLoop_append_sublist (ops : FilterOps σ) :
    ∀ (l : List (τ × σ)) (m1 : σ) (back : τ × σ),
      l.getLast? = some back → (filterObsoleteLoop ops m1 l ++ [back]).Sublist l := by
  intro l
  induction l with
  | nil => intro m1 back h; simp at h
  | cons cur tl ih =>
    intro m1 back h
    cases tl with
    | nil =>
      simp at h
      subst h
      simp [filterObsoleteLoop]
    | cons p1 rest =>
      rw [List.getLast?_cons_cons] at h
      simp only [filterObsoleteLoop]
      split
      · exact List.Sublist.cons₂ _ (ih cur.2 back h)
      · exact List.Sublist.cons _ (ih cur.2 back h)

end FilterLemmas

section FilterLemmas2
variable {τ σ : Type}

/-- The shape shared by the three filter passes: the input itself when it has
fewer than three frames, else its first frame, some of its middle frames and
its last frame. -/
theorem wrap_shape (f : σ → List (τ × σ) → List (τ × σ))
    (hf : ∀ (l : List (τ × σ)) (m1 : σ) (back : τ × σ),
      l.getLast? = some back → (f m1 l ++ [back]).Sublist l)
    (X : List (τ × σ)) :
    let W := if X.length < 3 then X
      else match X with
        | [] => []
        | front :: tl =>
          match tl.getLast? with
          | none => [front]
          | some back => front :: (f front.2 tl ++ [back])
    W.Sublist X ∧ W.head? = X.head? ∧ W.getLast? = X.getLast? ∧ (2 ≤ X.length → 2 ≤ W.length) := by
  intro W
  by_cases h3 : X.length < 3
  · have hW : W = X := by simp [W, h3]
    rw [hW]
    exact ⟨List.Sublist.refl _, rfl, rfl, fun h => h⟩
  · cases X with
    | nil => simp at h3
    | cons front tl =>
      cases hb : tl.getLast? with
      | none =>
        have : tl = [] := by simpa using hb
        subst this
        simp at h3
      | some back =>
        have hW : W = front :: (f front.2 tl ++ [back]) := by
          simp only [W, if_neg h3, hb]
        rw [hW]
        refine ⟨List.Sublist.cons₂ _ (hf tl front.2 back hb), rfl, ?_, fun _ => ?_⟩
        · have hne : tl ≠ [] := by
            intro h
            subst h
            simp at hb
          rw [← List.cons_append, List.getLast?_concat]
          cases tl with
          | nil => exact absurd rfl hne
          | cons a t => rw [List.getLast?_cons_cons, hb]
        · simp

theorem filterTriple_shape (cond : σ → σ → σ → Bool) (X : List (τ × σ)) :
    (filterTriple cond X).Sublist X ∧ (filterTriple cond X).head? = X.head? ∧
      (filterTriple cond X).getLast? = X.getLast? ∧
      (2 ≤ X.length → 2 ≤ (filterTriple cond X).length) :=
  wrap_shape (filterTripleRec cond)
    (fun l m1 back h => filterTripleRec_append_sublist cond l.length l m1 back (Nat.le_refl _) h) X

theorem FilterObsolete_shape (ops : FilterOps σ) (X : List (τ × σ)) :
    (FilterObsolete ops X).Sublist X ∧ (FilterObsolete ops X).head? = X.head? ∧
      (FilterObsolete ops X).getLast? = X.getLast? ∧
      (2 ≤ X.length → 2 ≤ (FilterObsolete ops X).length) :=
  wrap_shape (filterObsoleteLoop ops) (filterObsoleteLoop_append_sublist ops) X

theorem FilterStatesRec_shape (ops : FilterOps σ) (X : List (τ × σ)) :
    (FilterStatesRec ops X).Sublist X ∧ (FilterStatesRec ops X).head? = X.head? ∧
      (FilterStatesRec ops X).getLast? = X.getLast? ∧
      (2 ≤ X.length → 2 ≤ (FilterStatesRec ops X).length) := by
  unfold FilterStatesRec FilterBreakCreate FilterRepositioning
  have h1 := filterTriple_shape (repositioningCond ops) X
  have h2 := filterTriple_shape (breakCreateCond ops) (filterTriple (repositioningCond ops) X)
  have h3 := FilterObsolete_shape ops
    (filterTriple (breakCreateCond ops) (filterTriple (repositioningCond ops) X))
  exact ⟨h3.1.trans (h2.1.trans h1.1), h3.2.1.trans (h2.2.1.trans h1.2.1),
    h3.2.2.1.trans (h2.2.2.1.trans h1.2.2.1), fun hX => h3.2.2.2 (h2.2.2.2 (h1.2.2.2 hX))⟩

/-- A pass of `FilterStatesRec` that keeps the length keeps the sequence. -/
theorem FilterStatesRec_eq_of_length (ops : FilterOps σ) (X : List (τ × σ))
    (h : (FilterStatesRec ops X).length = X.length) : FilterStatesRec ops X = X :=
  (FilterStatesRec_shape ops X).1.eq_of_length h

theorem filterStatesLoop_some (ops : FilterOps σ) :
    ∀ (fuel : Nat) (X : List (τ × σ)), X.length < fuel →
      ∃ R, filterStatesLoop ops fuel X = some R := by
  intro fuel
  induction fuel with
  | zero => intro X h; omega
  | succ n ih =>
    intro X h
    simp only [filterStatesLoop]
    split
    · rename_i hne
      have hle := (FilterStatesRec_shape ops X).1.length_le
      have hne2 : (FilterStatesRec ops X).length ≠ X.length := by simpa using hne
      exact ih _ (by omega)
    · exact ⟨_, rfl⟩

/-- Whatever the loop of `FilterStates` returns is a fixed point of
`FilterStatesRec`, is a subsequence of the input and has its ends. -/
theorem filterStatesLoop_spec (ops : FilterOps σ) :
    ∀ (fuel : Nat) (X R : List (τ × σ)), filterStatesLoop ops fuel X = some R →
      FilterStatesRec ops R = R ∧ R.Sublist X ∧ R.head? = X.head? ∧ R.getLast? = X.getLast? ∧
        (2 ≤ X.length → 2 ≤ R.length) := by
  intro fuel
  induction fuel with
  | zero => intro X R h; simp [filterStatesLoop] at h
  | succ n ih =>
    intro X R h
    simp only [filterStatesLoop] at h
    have hs := FilterStatesRec_shape ops X
    split at h
    · obtain ⟨f1, f2, f3, f4, f5⟩ := ih _ _ h
      exact ⟨f1, f2.trans hs.1, f3.trans hs.2.1, f4.trans hs.2.2.1, fun hX => f5 (hs.2.2.2 hX)⟩
    · rename_i hne
      have heq : (FilterStatesRec ops X).length = X.length := by simpa using hne
      have hfix := FilterStatesRec_eq_of_length ops X heq
      simp only [Option.some.injEq] at h
      subst h
      rw [hfix]
      exact ⟨hfix, List.Sublist.refl _, rfl, rfl, fun hX => hX⟩

theorem filterStatesLoop_fixed (ops : FilterOps σ) (R : List (τ × σ))
    (h : FilterStatesRec ops R = R) (fuel : Nat) (hf : 0 < fuel) :
    filterStatesLoop ops fuel R = some R := by
  cases fuel with
  | zero => omega
  | succ n => simp [filterStatesLoop, h]

/-- What `FilterStates` returns is a subsequence of its input with the same
first and last frames. -/
theorem FilterStates_spec (ops : FilterOps σ) (fuel : Nat) (X R : List (τ × σ)) (deep : Bool)
    (h : FilterStates ops fuel X deep = some R) :
    R.Sublist X ∧ R.head? = X.head? ∧ R.getLast? = X.getLast? ∧ (2 ≤ X.length → 2 ≤ R.length) := by
  cases deep with
  | false =>
    simp only [FilterStates, Bool.false_eq_true, if_false, Option.some.injEq] at h
    subst h
    exact FilterObsolete_shape ops X
  | true =>
    simp only [FilterStates, if_true] at h
    exact (filterStatesLoop_spec ops fuel X R h).2

theorem sublist_dropLast {α : Type} {l₁ l₂ : List α} (h : l₁.Sublist l₂) :
    l₁.dropLast.Sublist l₂.dropLast := by
  induction h with
  | slnil => exact List.Sublist.refl _
  | @cons l₁ l₂ a h ih =>
    cases l₂ with
    | nil =>
      have : l₁ = [] := by simpa using h
      subst this
      simp
    | cons b t =>
      rw [List.dropLast_cons₂]
      exact List.Sublist.cons _ ih
  | @cons₂ l₁ l₂ a h ih =>
    cases l₁ with
    | nil => simp
    | cons c s =>
      cases l₂ with
      | nil => simp at h
      | cons b t =>
        rw [List.dropLast_cons₂, List.dropLast_cons₂]
        exact List.Sublist.cons₂ _ ih

end FilterLemmas2
section ObsoleteLemmas
variable {τ σ : Type}

/-- When the loop of `FilterObsolete` drops nothing, every frame it went through
passed its test against the frame before it. -/
theorem filterObsoleteLoop_fixed (ops : FilterOps σ) :
    ∀ (l : List (τ × σ)) (prev : τ × σ), filterObsoleteLoop ops prev.2 l = l.dropLast →
      List.Chain (fun A B : τ × σ => obsoleteKeep ops A.2 B.2 = true) prev l.dropLast := by
  intro l
  induction l with
  | nil => intro prev _; exact List.Chain.nil
  | cons cur tl ih =>
    intro prev h
    cases tl with
    | nil => exact List.Chain.nil
    | cons p1 rest =>
      rw [List.dropLast_cons₂] at h ⊢
      simp only [filterObsoleteLoop] at h
      split at h
      · rename_i hk
        simp only [List.cons.injEq, true_and] at h
        exact List.Chain.cons hk (ih cur h)
      · exfalso
        obtain ⟨back, hb⟩ : ∃ back, (p1 :: rest).getLast? = some back :=
          ⟨(p1 :: rest).getLast (by simp), List.getLast?_eq_getLast _ _⟩
        have hlen := (filterObsoleteLoop_append_sublist ops (p1 :: rest) cur.2 back hb).length_le
        rw [h] at hlen
        simp at hlen

theorem FilterObsolete_fixed (ops : FilterOps σ) (R : List (τ × σ))
    (h : FilterObsolete ops R = R) :
    List.Chain' (fun A B : τ × σ => obsoleteKeep ops A.2 B.2 = true) R.dropLast := by
  by_cases h3 : R.length < 3
  · match R, h3 with
    | [], _ => simp
    | [a], _ => simp
    | [a, b], _ => simp
  · cases R with
    | nil => simp at h3
    | cons front tl =>
      cases tl with
      | nil => simp at h3
      | cons p1 rest =>
        obtain ⟨back, hb⟩ : ∃ back, (p1 :: rest).getLast? = some back :=
          ⟨(p1 :: rest).getLast (by simp), List.getLast?_eq_getLast _ _⟩
        have hW : FilterObsolete ops (front :: p1 :: rest) =
            front :: (filterObsoleteLoop ops front.2 (p1 :: rest) ++ [back]) := by
          simp only [FilterObsolete, if_neg h3, hb]
        rw [hW] at h
        simp only [List.cons.injEq, true_and] at h
        have hd : (p1 :: rest).dropLast ++ [back] = p1 :: rest := by
          have := List.dropLast_concat_getLast (l := p1 :: rest) (by simp)
          rw [List.getLast?_eq_getLast _ (by simp)] at hb
          simp only [Option.some.injEq] at hb
          rw [← hb]
          exact this
        have hl : filterObsoleteLoop ops front.2 (p1 :: rest) = (p1 :: rest).dropLast := by
          have : filterObsoleteLoop ops front.2 (p1 :: rest) ++ [back] =
              (p1 :: rest).dropLast ++ [back] := by rw [h, hd]
          exact List.append_cancel_right this
        rw [List.dropLast_cons₂]
        exact filterObsoleteLoop_fixed ops (p1 :: rest) front hl

/-- A fixed point of `FilterStatesRec` is a fixed point of `FilterObsolete`. -/
theorem FilterObsolete_of_FilterStatesRec_fixed (ops : FilterOps σ) (R : List (τ × σ))
    (h : FilterStatesRec ops R = R) : FilterObsolete ops R = R := by
  have h1 := (filterTriple_shape (repositioningCond ops) R).1
  have h2 := (filterTriple_shape (breakCreateCond ops) (filterTriple (repositioningCond ops) R)).1
  have h3 := (FilterObsolete_shape ops
    (filterTriple (breakCreateCond ops) (filterTriple (repositioningCond ops) R))).1
  have hlen : (FilterObsolete ops
      (filterTriple (breakCreateCond ops) (filterTriple (repositioningCond ops) R))).length =
      R.length := by
    have := congrArg List.length h
    simpa [FilterStatesRec, FilterBreakCreate, FilterRepositioning] using this
  have l1 := h1.length_le
  have l2 := h2.length_le
  have l3 := h3.length_le
  have e1 : filterTriple (repositioningCond ops) R = R := h1.eq_of_length (by omega)
  rw [e1] at h2 l2 h3 l3 hlen
  have e2 : filterTriple (breakCreateCond ops) R = R := h2.eq_of_length (by omega)
  rw [e2] at h3 hlen
  exact h3.eq_of_length hlen

end ObsoleteLemmas

/-! ## Lemmas on the interpolation loop -/

/-- A turn of the loop that goes on appends one frame, after it has popped the
last one when the report supersedes it, and moves the time by zero, one or two
steps. -/
theorem interpolateBody_next (cc : ComputeContactsOracle) (configs : List Config) (timeStep : ℚ)
    (v v1 : InterpolateVars) (h : interpolateBody cc configs timeStep v = .next v1) :
    ∃ previous configuration, v.states.getLast? = some previous ∧
      configs.get? v.cit = some configuration ∧
      v1.states =
        (if supersedes (cc v.calls previous.2 configuration) then v.states.dropLast
          else v.states) ++
        [(v1.currentVal - timeStep,
          { (cc v.calls previous.2 configuration).result with
            nbContacts := (cc v.calls previous.2 configuration).result.contactNormals.length })] ∧
      v1.calls = v.calls + 1 ∧
      (v1.currentVal = v.currentVal ∨ v1.currentVal = v.currentVal + timeStep ∨
        v1.currentVal = v.currentVal + timeStep + timeStep) := by
  unfold interpolateBody at h
  split at h
  · rename_i previous configuration hp hc
    refine ⟨previous, configuration, hp, hc, ?_⟩
    simp only at h
    split_ifs at h <;> simp only [InterpolateStep.next.injEq] at h <;> subst h <;>
      simp_all [supersedes] <;> split_ifs <;> simp_all
  · exact absurd h (by simp)


/-- An early return of the body returns the states as they are. -/
theorem interpolateBody_aborted (cc : ComputeContactsOracle) (configs : List Config)
    (timeStep : ℚ) (v : InterpolateVars) (states : T_StateFrame)
    (h : interpolateBody cc configs timeStep v = .aborted states) : states = v.states := by
  unfold interpolateBody at h
  split at h
  · simp only at h
    split_ifs at h <;> simp only [InterpolateStep.aborted.injEq, reduceCtorEq] at h <;>
      exact h.symm
  · exact absurd h (by simp)

/-- A property of the loop variables that every turn keeps holds of the
variables whose states the loop returns. -/
theorem interpolateLoop_invariant (cc : ComputeContactsOracle) (configs : List Config)
    (timeStep : ℚ) (P : InterpolateVars → Prop)
    (hstep : ∀ v v1, P v → interpolateBody cc configs timeStep v = .next v1 → P v1) :
    ∀ (fuel : Nat) (v : InterpolateVars) (b : Bool) (states : T_StateFrame), P v →
      interpolateLoop cc configs timeStep fuel v = some (b, states) →
      ∃ v1, P v1 ∧ v1.states = states := by
  intro fuel
  induction fuel with
  | zero => intro v b states _ h; simp [interpolateLoop] at h
  | succ n ih =>
    intro v b states hP h
    simp only [interpolateLoop] at h
    split at h
    · simp only [Option.some.injEq, Prod.mk.injEq] at h
      exact ⟨v, hP, h.2⟩
    · split at h
      · rename_i v1 hb
        exact ih v1 b states (hstep v v1 hP hb) h
      · rename_i s hb
        simp only [Option.some.injEq, Prod.mk.injEq] at h
        exact ⟨v, hP, (interpolateBody_aborted cc configs timeStep v s hb).symm.trans h.2⟩
      · simp at h

/-- The first frame stays the start frame when the first report does not
supersede it. -/
theorem interpolateLoop_head (cc : ComputeContactsOracle) (configs : List Config)
    (timeStep initValue : ℚ) (start : State)
    (hfirst : ∀ c, configs.get? 1 = some c → supersedes (cc 0 start c) = false)
    (fuel : Nat) (b : Bool) (states : T_StateFrame)
    (h : interpolateLoop cc configs timeStep fuel (interpolateInit start initValue) =
      some (b, states)) :
    states.head? = some (initValue, start) := by
  obtain ⟨v1, hP, hv⟩ := interpolateLoop_invariant cc configs timeStep
    (fun v => v.states.head? = some (initValue, start) ∧
      (v.calls = 0 → v.states = [(initValue, start)] ∧ v.cit = 1) ∧
      (v.calls ≠ 0 → 2 ≤ v.states.length))
    (by
      intro v v1 ⟨hh, h0, h1⟩ hb
      obtain ⟨previous, configuration, hp, hc, hs, hcalls, _⟩ :=
        interpolateBody_next cc configs timeStep v v1 hb
      refine ⟨?_, by omega, ?_⟩
      · by_cases hz : v.calls = 0
        · obtain ⟨hst, hcit⟩ := h0 hz
          rw [hst] at hp
          simp only [List.getLast?_singleton, Option.some.injEq] at hp
          subst hp
          rw [hcit] at hc
          have := hfirst configuration hc
          rw [hz] at hs
          simp only [this, Bool.false_eq_true, if_false] at hs
          rw [hs, hst]
          rfl
        · have hl := h1 hz
          rw [hs]
          split
          · match hv : v.states, hl with
            | a :: b :: r, _ =>
              rw [hv] at hh
              simpa using hh
          · match hv : v.states, hl with
            | a :: b :: r, _ =>
              rw [hv] at hh
              simpa using hh
      · intro _
        rw [hs]
        by_cases hz : v.calls = 0
        · obtain ⟨hst, hcit⟩ := h0 hz
          rw [hst] at hp
          simp only [List.getLast?_singleton, Option.some.injEq] at hp
          subst hp
          rw [hcit] at hc
          have := hfirst configuration hc
          rw [hz]
          simp [this, hst]
        · have hl := h1 hz
          split
          · simp only [List.length_append, List.length_dropLast, List.length_singleton]
            omega
          · simp only [List.length_append, List.length_singleton]
            omega)
    fuel (interpolateInit start initValue) b states
    (by simp [interpolateInit]) h
  rw [← hv]
  exact hP.1

/-- The time stamps of the frames of the loop: none is below
`initValue - timeStep`, and after the first frame they never decrease. -/
theorem interpolateLoop_times (cc : ComputeContactsOracle) (configs : List Config)
    (timeStep initValue : ℚ) (start : State) (hts : 0 ≤ timeStep)
    (fuel : Nat) (b : Bool) (states : T_StateFrame)
    (h : interpolateLoop cc configs timeStep fuel (interpolateInit start initValue) =
      some (b, states)) :
    states ≠ [] ∧ (∀ x ∈ states, initValue - timeStep ≤ x.1) ∧
      List.Pairwise (fun x y : ℚ × State => x.1 ≤ y.1) states.tail := by
  obtain ⟨v1, hP, hv⟩ := interpolateLoop_invariant cc configs timeStep
    (fun v => v.states ≠ [] ∧ initValue ≤ v.currentVal ∧
      (∀ x ∈ v.states, initValue - timeStep ≤ x.1) ∧
      (∀ x ∈ v.states.tail, x.1 ≤ v.currentVal - timeStep) ∧
      List.Pairwise (fun x y : ℚ × State => x.1 ≤ y.1) v.states.tail)
    (by
      intro v v1 ⟨hne, hcur, hlow, hup, hpw⟩ hb
      obtain ⟨previous, configuration, hp, hc, hs, hcalls, hval⟩ :=
        interpolateBody_next cc configs timeStep v v1 hb
      have hcur1 : v.currentVal ≤ v1.currentVal := by
        rcases hval with h | h | h <;> rw [h] <;> linarith
      -- the frames that stay
      have hbase : ∀ base : T_StateFrame, base.Sublist v.states →
          (base ++ [(v1.currentVal - timeStep,
            ({ (cc v.calls previous.2 configuration).result with
              nbContacts := (cc v.calls previous.2 configuration).result.contactNormals.length }
              : State))] ≠ []) ∧
          (∀ x ∈ base ++ [(v1.currentVal - timeStep,
            ({ (cc v.calls previous.2 configuration).result with
              nbContacts := (cc v.calls previous.2 configuration).result.contactNormals.length }
              : State))], initValue - timeStep ≤ x.1) ∧
          (∀ x ∈ (base ++ [(v1.currentVal - timeStep,
            ({ (cc v.calls previous.2 configuration).result with
              nbContacts := (cc v.calls previous.2 configuration).result.contactNormals.length }
              : State))]).tail, x.1 ≤ v1.currentVal - timeStep) ∧
          List.Pairwise (fun x y : ℚ × State => x.1 ≤ y.1)
            (base ++ [(v1.currentVal - timeStep,
            ({ (cc v.calls previous.2 configuration).result with
              nbContacts := (cc v.calls previous.2 configuration).result.contactNormals.length }
              : State))]).tail := by
        intro base hsub
        have htl : ∀ x ∈ base.tail, x.1 ≤ v1.currentVal - timeStep := by
          intro x hx
          have := hup x (hsub.tail.subset hx)
          linarith
        refine ⟨by simp, ?_, ?_, ?_⟩
        · intro x hx
          rcases List.mem_append.1 hx with hx | hx
          · exact hlow x (hsub.subset hx)
          · simp only [List.mem_singleton] at hx
            subst hx
            simp only
            linarith
        · cases base with
          | nil => simp
          | cons a t =>
            intro x hx
            simp only [List.cons_append, List.tail_cons, List.mem_append,
              List.mem_singleton] at hx
            rcases hx with hx | hx
            · exact htl x (by simpa using hx)
            · subst hx
              exact le_refl _
        · cases base with
          | nil => simp
          | cons a t =>
            simp only [List.cons_append, List.tail_cons]
            rw [List.pairwise_append]
            refine ⟨(hpw.sublist hsub.tail), by simp, ?_⟩
            intro x hx y hy
            simp only [List.mem_singleton] at hy
            subst hy
            exact htl x (by simpa using hx)
      have hcase : v1.states = v.states.dropLast ++ [(v1.currentVal - timeStep,
            ({ (cc v.calls previous.2 configuration).result with
              nbContacts := (cc v.calls previous.2 configuration).result.contactNormals.length }
              : State))] ∨ v1.states = v.states ++ [(v1.currentVal - timeStep,
            ({ (cc v.calls previous.2 configuration).result with
              nbContacts := (cc v.calls previous.2 configuration).result.contactNormals.length }
              : State))] := by
        rw [hs]
        split
        · exact Or.inl rfl
        · exact Or.inr rfl
      rcases hcase with hc1 | hc1
      · obtain ⟨a1, a2, a3, a4⟩ := hbase _ (List.dropLast_sublist v.states)
        rw [hc1]
        exact ⟨a1, by linarith, a2, a3, a4⟩
      · obtain ⟨a1, a2, a3, a4⟩ := hbase _ (List.Sublist.refl v.states)
        rw [hc1]
        exact ⟨a1, by linarith, a2, a3, a4⟩)
    fuel (interpolateInit start initValue) b states
    (by simp [interpolateInit, hts]) h
  rw [← hv]
  exact ⟨hP.1, hP.2.2.1, hP.2.2.2.2⟩


/-! ## Theorems on the state filters -/

section FilterTheorems
variable {τ σ : Type}

/-- C3: in deep mode `FilterStates` is idempotent: on a sequence of at least two
frames it returns a sequence `R` (given more fuel than frames), and on `R` it
returns `R` again, frame by frame. -/
theorem FilterStates_deep_idempotent (ops : FilterOps σ) (X : List (τ × σ)) (fuel : Nat)
    (hX : 2 ≤ X.length) (hfuel : X.length < fuel) :
    ∃ R, FilterStates ops fuel X true = some R ∧ 2 ≤ R.length ∧
      FilterStates ops fuel R true = some R := by
  obtain ⟨R, hR⟩ := filterStatesLoop_some ops fuel X hfuel
  obtain ⟨hfix, _, _, _, hlen⟩ := filterStatesLoop_spec ops fuel X R hR
  refine ⟨R, by simpa [FilterStates] using hR, hlen hX, ?_⟩
  simpa [FilterStates] using filterStatesLoop_fixed ops R hfix fuel (by omega)

/-- Witness of C3 on a sequence of four frames. -/
theorem FilterStates_deep_idempotent_witness :
    ∃ R, FilterStates stateFilterOps 7 exampleFrames true = some R ∧ 2 ≤ R.length ∧
      FilterStates stateFilterOps 7 R true = some R :=
  FilterStates_deep_idempotent stateFilterOps exampleFrames 7 (by decide) (by decide)

/-- C4: on a sequence of at least two frames, each of `FilterRepositioning`,
`FilterBreakCreate` and `FilterObsolete` returns a sequence with the same first
and the same last frame, and so does `FilterStates` for both values of `deep`,
which returns as soon as it has more fuel than there are frames. -/
theorem filters_preserve_ends (ops : FilterOps σ) (X : List (τ × σ)) (hX : 2 ≤ X.length) :
    ((FilterRepositioning ops X).head? = X.head? ∧
        (FilterRepositioning ops X).getLast? = X.getLast?) ∧
      ((FilterBreakCreate ops X).head? = X.head? ∧
        (FilterBreakCreate ops X).getLast? = X.getLast?) ∧
      ((FilterObsolete ops X).head? = X.head? ∧
        (FilterObsolete ops X).getLast? = X.getLast?) ∧
      (∀ (deep : Bool) (fuel : Nat) (R : List (τ × σ)),
        FilterStates ops fuel X deep = some R →
          R.head? = X.head? ∧ R.getLast? = X.getLast? ∧ 2 ≤ R.length) ∧
      (∀ (deep : Bool) (fuel : Nat), X.length < fuel →
        ∃ R, FilterStates ops fuel X deep = some R) := by
  have h1 := (filterTriple_shape (repositioningCond ops) X).2
  have h2 := (filterTriple_shape (breakCreateCond ops) X).2
  have h3 := (FilterObsolete_shape ops X).2
  refine ⟨⟨h1.1, h1.2.1⟩, ⟨h2.1, h2.2.1⟩, ⟨h3.1, h3.2.1⟩, ?_, ?_⟩
  · intro deep fuel R hR
    have := FilterStates_spec ops fuel X R deep hR
    exact ⟨this.2.1, this.2.2.1, this.2.2.2 hX⟩
  · intro deep fuel hfuel
    cases deep with
    | false => exact ⟨FilterObsolete ops X, by simp [FilterStates]⟩
    | true =>
      obtain ⟨R, hR⟩ := filterStatesLoop_some ops fuel X hfuel
      exact ⟨R, by simpa [FilterStates] using hR⟩

/-- Witness of C4 on a sequence of six frames. -/
theorem filters_preserve_ends_witness :
    (FilterObsolete stateFilterOps exampleFrames).head? = exampleFrames.head? ∧
      (FilterObsolete stateFilterOps exampleFrames).getLast? = exampleFrames.getLast? :=
  (filters_preserve_ends stateFilterOps exampleFrames (by decide)).2.2.1

end FilterTheorems

section ObsoleteTheorem
variable {τ σ : Type}

/-- C5 (amended): in deep mode, on a sequence of at least two frames,
`FilterStates` returns a sequence in which every frame but the last has a
configuration that differs from that of the frame before it and breaks or
creates a contact relative to it; the last frame is kept whatever it is. -/
theorem FilterStates_deep_no_obsolete (ops : FilterOps σ) (X : List (τ × σ)) (fuel : Nat)
    (hX : 2 ≤ X.length) (hfuel : X.length < fuel) :
    ∃ R, FilterStates ops fuel X true = some R ∧ 2 ≤ R.length ∧
      List.Chain' (fun A B : τ × σ => ops.cfgDiffers B.2 A.2 = true ∧
        (ops.contactBreaks B.2 A.2 ≠ [] ∨ ops.contactCreations B.2 A.2 ≠ [])) R.dropLast := by
  obtain ⟨R, hR⟩ := filterStatesLoop_some ops fuel X hfuel
  obtain ⟨hfix, _, _, _, hlen⟩ := filterStatesLoop_spec ops fuel X R hR
  refine ⟨R, by simpa [FilterStates] using hR, hlen hX, ?_⟩
  have hc := FilterObsolete_fixed ops R (FilterObsolete_of_FilterStatesRec_fixed ops R hfix)
  refine hc.imp ?_
  intro A B hk
  simp only [obsoleteKeep, Bool.and_eq_true, Bool.not_eq_true', Bool.and_eq_false_iff] at hk
  refine ⟨hk.1, hk.2.imp ?_ ?_⟩ <;>
  · intro he hnil
    rw [hnil] at he
    simp at he

/-- Witness of C5 (amended) on a sequence of six frames. -/
theorem FilterStates_deep_no_obsolete_witness :
    ∃ R, FilterStates stateFilterOps 7 exampleFrames true = some R ∧ 2 ≤ R.length ∧
      List.Chain' (fun A B : ℚ × State => stateFilterOps.cfgDiffers B.2 A.2 = true ∧
        (stateFilterOps.contactBreaks B.2 A.2 ≠ [] ∨
          stateFilterOps.contactCreations B.2 A.2 ≠ [])) R.dropLast :=
  FilterStates_deep_no_obsolete stateFilterOps exampleFrames 7 (by decide) (by decide)

/-- Counterexample to C5: the two frames of `exampleTwoFrames` have the same
configuration and the same contacts and `FilterStates` returns both, as first
and last frame; and without `deep` it returns the second and the fifth frame of
`exampleFrames` next to each other, which have the same configuration and the
same contacts. -/
theorem FilterStates_obsolete_pair_counterexample :
    (∃ R, FilterStates stateFilterOps 3 exampleTwoFrames true = some R ∧
        ¬ NoObsoletePair stateFilterOps R) ∧
      (∃ R, FilterStates stateFilterOps 3 exampleFrames false = some R ∧
        ¬ NoObsoletePair stateFilterOps R) :=
  ⟨⟨exampleTwoFrames, by decide!, by
      unfold NoObsoletePair exampleTwoFrames
      rw [List.chain'_pair]
      decide!⟩,
    ⟨[(0, exampleStateAt [0] []), (1, exampleStateAt [1] ["a"]), (4, exampleStateAt [1] ["a"]),
        (5, exampleStateAt [9] [])], by decide!, by
      unfold NoObsoletePair
      intro h
      have h2 := (List.chain'_cons.1 (List.chain'_cons.1 h).2).1
      revert h2
      decide!⟩⟩

end ObsoleteTheorem

/-! ## Theorems on the interpolation loop -/

/-- The time stamps of what `Interpolate` returns. -/
theorem Interpolate_times (ops : FilterOps State) (cc : ComputeContactsOracle)
    (start end_ : State) (pathEnd : ℚ) (configs : List Config) (timeStep initValue : ℚ)
    (filterStates : Bool) (fuel : Nat) (R : T_StateFrame)
    (hr : initValue ≤ pathEnd) (hts : 0 ≤ timeStep)
    (h : Interpolate ops cc start end_ pathEnd configs timeStep initValue filterStates fuel =
      some R) :
    (∀ x ∈ R, initValue - timeStep ≤ x.1) ∧
      List.Pairwise (fun x y : ℚ × State => x.1 ≤ y.1) R.tail.dropLast := by
  unfold Interpolate at h
  split at h
  · simp at h
  · rename_i states hl
    obtain ⟨hne, hlow, hpw⟩ :=
      interpolateLoop_times cc configs timeStep initValue start hts fuel true states hl
    obtain ⟨hsub, _⟩ := FilterStates_spec ops fuel _ R filterStates h
    refine ⟨?_, ?_⟩
    · intro x hx
      rcases List.mem_append.1 (hsub.subset hx) with hx | hx
      · exact hlow x hx
      · simp only [List.mem_singleton] at hx
        subst hx
        simp only
        linarith
    · have h1 := sublist_dropLast hsub.tail
      rw [List.tail_append_of_ne_nil hne, List.dropLast_concat] at h1
      exact hpw.sublist h1
  · rename_i states hl
    obtain ⟨hne, hlow, hpw⟩ :=
      interpolateLoop_times cc configs timeStep initValue start hts fuel false states hl
    obtain ⟨hsub, _⟩ := FilterStates_spec ops fuel _ R filterStates h
    refine ⟨fun x hx => hlow x (hsub.subset hx), ?_⟩
    exact hpw.sublist ((sublist_dropLast hsub.tail).trans (List.dropLast_sublist _))

/-- C1 (amended): in the sequence `Interpolate` returns, the first frame is the
start state at `initValue` when the first report of `ComputeContacts` does not
supersede the previous state, and the last frame is the end state at the end of
the path when the loop runs to its end instead of returning early. -/
theorem Interpolate_first_last (ops : FilterOps State) (cc : ComputeContactsOracle)
    (start end_ : State) (pathEnd : ℚ) (configs : List Config) (timeStep initValue : ℚ)
    (filterStates : Bool) (fuel : Nat) (R : T_StateFrame)
    (h : Interpolate ops cc start end_ pathEnd configs timeStep initValue filterStates fuel =
      some R) :
    ((∀ c, configs.get? 1 = some c → supersedes (cc 0 start c) = false) →
        R.head? = some (initValue, start)) ∧
      ((∃ states, interpolateLoop cc configs timeStep fuel (interpolateInit start initValue) =
          some (true, states)) → R.getLast? = some (pathEnd, end_)) := by
  unfold Interpolate at h
  split at h
  · simp at h
  · rename_i states hl
    obtain ⟨_, hhead, hlast, _⟩ := FilterStates_spec ops fuel _ R filterStates h
    refine ⟨fun hfirst => ?_, fun _ => ?_⟩
    · have hh := interpolateLoop_head cc configs timeStep initValue start hfirst fuel true
        states hl
      rw [hhead]
      cases states with
      | nil => simp at hh
      | cons a t => simpa using hh
    · rw [hlast, List.getLast?_concat]
  · rename_i states hl
    obtain ⟨_, hhead, _, _⟩ := FilterStates_spec ops fuel _ R filterStates h
    refine ⟨fun hfirst => ?_, fun ⟨s, hs⟩ => ?_⟩
    · rw [hhead]
      exact interpolateLoop_head cc configs timeStep initValue start hfirst fuel false states hl
    · rw [hl] at hs
      simp at hs

/-- C2 (amended): for a time range `[t0, T]` and a positive time step, no time
stamp of the sequence the path overload of `Interpolate` returns is below
`t0 - timeStep`, and the time stamps of the frames between the first and the
last never decrease. -/
theorem InterpolatePath_time_stamps (ops : FilterOps State) (cc : ComputeContactsOracle)
    (start end_ : State) (path : ℚ → Config) (range : ℚ × ℚ) (extraDim : Nat) (timeStep : ℚ)
    (filterStates : Bool) (fuel : Nat) (R : T_StateFrame)
    (hr : range.1 ≤ range.2) (hts : 0 < timeStep)
    (h : InterpolatePath ops cc start end_ path range extraDim timeStep filterStates fuel =
      some R) :
    (∀ x ∈ R, range.1 - timeStep ≤ x.1) ∧
      List.Pairwise (fun x y : ℚ × State => x.1 ≤ y.1) R.tail.dropLast := by
  unfold InterpolatePath at h
  split at h
  · simp at h
  · exact Interpolate_times ops cc start end_ range.2 _ timeStep range.1 filterStates fuel R hr
      (le_of_lt hts) h


/-- Witness of C1 (amended): a run in which the first report does not supersede
the start state and the loop runs to its end. -/
theorem Interpolate_first_last_witness :
    exampleRun.head? = some (0, exampleStateAt [0] []) ∧
      exampleRun.getLast? = some (3, exampleStateAt [9] []) :=
  have h := Interpolate_first_last stateFilterOps alternatingOracle (exampleStateAt [0] [])
    (exampleStateAt [9] []) 3 [[0], [1], [2]] 1 0 false 10 exampleRun (by decide!)
  ⟨h.1 (fun _ _ => rfl), h.2 ⟨exampleRun.dropLast, by decide!⟩⟩

/-- Counterexample to C1: the first report supersedes the start state, which is
popped, and the second and third reports fail, so that `Interpolate` returns
early without the end state. -/
theorem Interpolate_first_last_counterexample :
    ∃ R, Interpolate stateFilterOps maintainThenFailOracle (exampleStateAt [0] ["a"])
        (exampleStateAt [9] ["a"]) 4 [[0], [1], [2], [3], [4]] 1 0 false 10 = some R ∧
      R.head?.map Prod.snd ≠ some (exampleStateAt [0] ["a"]) ∧
      R.getLast?.map Prod.snd ≠ some (exampleStateAt [9] ["a"]) :=
  ⟨[(0, exampleStateAt [1] ["a"]), (2, exampleStateAt [2] ["a"])], by decide!, by decide!,
    by decide!⟩

/-- Witness of C2 (amended) on the run `examplePathRun`. -/
theorem InterpolatePath_time_stamps_witness :
    (∀ x ∈ examplePathRun, (0 : ℚ) - 3 / 5 ≤ x.1) ∧
      List.Pairwise (fun x y : ℚ × State => x.1 ≤ y.1) examplePathRun.tail.dropLast :=
  InterpolatePath_time_stamps stateFilterOps alternatingOracle examplePathStart examplePathEnd
    examplePath (0, 1) 6 (3 / 5) false 10 examplePathRun (by norm_num) (by norm_num)
    (by decide!)

/-- Counterexample to C2: over the range `[0, 1]` with time step `3/5` the time
stamps are `0, 0, 3/5, 6/5, 1`: the first two are equal, the fourth is beyond
the end of the range and above the last. -/
theorem InterpolatePath_time_stamps_counterexample :
    ∃ R, InterpolatePath stateFilterOps alternatingOracle examplePathStart examplePathEnd
        examplePath (0, 1) 6 (3 / 5) false 10 = some R ∧
      R.map Prod.fst = [0, 0, 3 / 5, 6 / 5, 1] ∧
      ¬ List.Chain' (fun a b : ℚ => a < b) (R.map Prod.fst) ∧
      ¬ (∀ t ∈ R.map Prod.fst, 0 ≤ t ∧ t ≤ 1) :=
  ⟨examplePathRun, by decide!, by decide!, by
      intro h
      have h2 := (List.chain'_cons.1 h).1
      revert h2
      decide!, by
      intro h
      have h2 := (h (6 / 5) (by decide!)).2
      revert h2
      decide!⟩


/-! ## Lemmas on contact maintenance -/

theorem except_bind_eq_ok {ε α β : Type} (x : Except ε α) (f : α → Except ε β) (b : β) :
    (x >>= f) = Except.ok b ↔ ∃ a, x = Except.ok a ∧ f a = Except.ok b := by
  cases x with
  | error e => simp [bind, Except.bind]
  | ok a => simp [bind, Except.bind]

theorem SameContacts.refl (a : State) : SameContacts a a :=
  ⟨rfl, rfl, rfl, rfl, rfl⟩

theorem SameContacts.trans {a b c : State} (h1 : SameContacts a b) (h2 : SameContacts b c) :
    SameContacts a c :=
  ⟨h1.1.trans h2.1, h1.2.1.trans h2.2.1, h1.2.2.1.trans h2.2.2.1,
    h1.2.2.2.1.trans h2.2.2.2.1, h1.2.2.2.2.trans h2.2.2.2.2⟩

theorem setCollisionFreeLoop_same (load : Sample → Config → Config)
    (validation : Config → Bool) :
    ∀ (samples : List Sample) (acc : ProjectionReport × Config),
      SameContacts (setCollisionFreeLoop load validation samples acc).1.result acc.1.result := by
  intro samples
  induction samples with
  | nil => intro acc; exact SameContacts.refl _
  | cons sample rest ih =>
    intro acc
    obtain ⟨res, configuration⟩ := acc
    simp only [setCollisionFreeLoop]
    refine (ih _).trans ?_
    split
    · exact ⟨rfl, rfl, rfl, rfl, rfl⟩
    · exact SameContacts.refl _

theorem setCollisionFree_same (fb : FullBody) (validation : Config → Bool) (limbName : String)
    (currentState : State) :
    SameContacts (setCollisionFree fb validation limbName currentState).result currentState :=
  setCollisionFreeLoop_same fb.load validation (fb.samples limbName) _

theorem genColFreeLoop_same (fb : FullBody) :
    ∀ (limbs : List String) (res : ProjectionReport),
      SameContacts (genColFreeLoop fb limbs res).result res.result := by
  intro limbs
  induction limbs with
  | nil => intro res; exact SameContacts.refl _
  | cons limb rest ih =>
    intro res
    simp only [genColFreeLoop]
    split
    · exact (ih _).trans (setCollisionFree_same fb _ limb res.result)
    · exact SameContacts.refl _

theorem projectToRootConfiguration_ok (fb : FullBody) (conf : Config) (currentState : State)
    (rep : ProjectionReport)
    (h : projectToRootConfiguration fb conf currentState = Except.ok rep) :
    ∃ constraints,
      CreateContactConstraints fb currentState currentState.contactOrder = Except.ok constraints ∧
      rep.success = (fb.applyProjector constraints conf currentState.configuration).1 ∧
      rep.result = { currentState with
        configuration := (fb.applyProjector constraints conf currentState.configuration).2 } := by
  unfold projectToRootConfiguration at h
  rw [except_bind_eq_ok] at h
  obtain ⟨constraints, hc, h⟩ := h
  refine ⟨constraints, hc, ?_⟩
  simp only [pure, Except.pure, Except.ok.injEq] at h
  subst h
  exact ⟨rfl, rfl⟩

theorem projectToRootConfiguration_same (fb : FullBody) (conf : Config) (currentState : State)
    (rep : ProjectionReport)
    (h : projectToRootConfiguration fb conf currentState = Except.ok rep) :
    SameContacts rep.result currentState := by
  obtain ⟨_, _, _, hr⟩ := projectToRootConfiguration_ok fb conf currentState rep h
  rw [hr]
  exact ⟨rfl, rfl, rfl, rfl, rfl⟩

/-- One turn of the loop of `maintain_contacts` on a candidate: the report it
builds has the contacts of the candidate. -/
theorem maintain_contacts_loop_single (h : ContactGenHelper) (cState : State)
    (rep0 : ProjectionReport) (h0 : rep0.success = false)
    (candidates : List State) (rep : ProjectionReport)
    (hl : maintain_contacts_loop h [cState] rep0 = Except.ok (candidates, rep)) :
    candidates = [] ∧ SameContacts rep.result cState := by
  simp only [maintain_contacts_loop, h0, Bool.false_eq_true, if_false] at hl
  rw [except_bind_eq_ok] at hl
  obtain ⟨rep1, hp, hl⟩ := hl
  have hs := projectToRootConfiguration_same _ _ _ _ hp
  simp only [pure, Except.pure, Except.ok.injEq, Prod.mk.injEq] at hl
  obtain ⟨hc, hr⟩ := hl
  refine ⟨hc.symm, ?_⟩
  rw [← hr]
  have h2 : SameContacts (if rep1.success = true then genColFree h rep1 else rep1).result
      cState := by
    split
    · exact (genColFreeLoop_same _ _ _).trans hs
    · exact hs
  have key : ∀ r : ProjectionReport, SameContacts r.result cState →
      SameContacts (if r.success = true then
        { r with success := h.fullBody.validate r.result.configuration } else r).result
        cState := by
    intro r hr
    split
    · exact hr
    · exact hr
  exact key _ h2

theorem maintain_contacts_stability_rec_nil (fb : FullBody) (target : Config)
    (contactLength : Nat) (robustness : ℚ) (currentRep : ProjectionReport)
    (r : Bool × List State × ProjectionReport)
    (h : maintain_contacts_stability_rec fb target contactLength robustness [] currentRep =
      Except.ok r) :
    SameContacts r.2.2.result currentRep.result := by
  unfold maintain_contacts_stability_rec at h
  split at h
  · simp only [pure, Except.pure, Except.ok.injEq] at h
    subst h
    exact ⟨rfl, rfl, rfl, rfl, rfl⟩
  · simp only [pure, Except.pure, Except.ok.injEq] at h
    subst h
    exact ⟨rfl, rfl, rfl, rfl, rfl⟩

theorem maintain_contacts_combinatorial_zero (currentState : State) :
    maintain_contacts_combinatorial currentState 0 = [currentState] := by
  simp [maintain_contacts_combinatorial, maintain_contacts_combinatorial_rec, push_if_new,
    flatten]


/-! ## Lemmas on contact generation -/

theorem setCollisionFreeLoop_result (load : Sample → Config → Config)
    (validation : Config → Bool) :
    ∀ (samples : List Sample) (acc : ProjectionReport × Config),
      ∃ q, (setCollisionFreeLoop load validation samples acc).1.result =
        { acc.1.result with configuration := q } := by
  intro samples
  induction samples with
  | nil => intro acc; exact ⟨acc.1.result.configuration, rfl⟩
  | cons sample rest ih =>
    intro acc
    obtain ⟨res, configuration⟩ := acc
    simp only [setCollisionFreeLoop]
    obtain ⟨q, hq⟩ := ih (if validation configuration = true then
        { res with result := { res.result with configuration := configuration },
                   success := true }
      else res, load sample configuration)
    refine ⟨q, ?_⟩
    rw [hq]
    split <;> rfl

/-- The state `setCollisionFree` returns is its argument at another configuration. -/
theorem setCollisionFree_result (fb : FullBody) (validation : Config → Bool)
    (limbName : String) (currentState : State) :
    ∃ q, (setCollisionFree fb validation limbName currentState).result =
      { currentState with configuration := q } :=
  setCollisionFreeLoop_result fb.load validation (fb.samples limbName) _

/-- When the loop of `findValidCandidate` ends with `found_sample` set, the flag
was set before or one of the candidates passed the test. -/
theorem findValidCandidateLoop_found (h : ContactGenHelper) (limbId : String)
    (current : State) :
    ∀ (l : List OctreeReport) (s s1 : CandidateSearch),
      findValidCandidateLoop h limbId current l s = Except.ok s1 → s1.found_sample = true →
      s.found_sample = true ∨ ∃ r ∈ l, ∃ q, sampleAccepted h limbId current r q := by
  intro l
  induction l with
  | nil =>
    intro s s1 hl hf
    simp only [findValidCandidateLoop, pure, Except.pure, Except.ok.injEq] at hl
    subst hl
    exact Or.inl hf
  | cons bestReport rest ih =>
    intro s s1 hl hf
    by_cases hs : s.found_sample = true
    · exact Or.inl hs
    · right
      simp only [findValidCandidateLoop, hs, Bool.false_eq_true, if_false] at hl
      split at hl
      · rename_i hsucc
        split at hl
        · rename_i hcond
          refine ⟨bestReport, List.mem_cons_self _ _, s.configuration, hsucc, ?_⟩
          simp only [Bool.or_eq_true, Bool.not_eq_true', Bool.and_eq_true, beq_iff_eq,
            decide_eq_true_eq] at hcond
          rcases hcond with (hc | hc) | hc
          · exact Or.inl hc
          · exact Or.inr (Or.inl hc)
          · exact Or.inr (Or.inr hc)
        · split at hl
          · rw [except_bind_eq_ok] at hl
            obtain ⟨normal, _, hl⟩ := hl
            rcases ih _ _ hl hf with h1 | ⟨r, hr, q, hq⟩
            · exact absurd h1 (by simp)
            · exact ⟨r, List.mem_cons_of_mem _ hr, q, hq⟩
          · rcases ih _ _ hl hf with h1 | ⟨r, hr, q, hq⟩
            · exact absurd h1 (by simp)
            · exact ⟨r, List.mem_cons_of_mem _ hr, q, hq⟩
      · rcases ih _ _ hl hf with h1 | ⟨r, hr, q, hq⟩
        · exact absurd h1 (by simp)
        · exact ⟨r, List.mem_cons_of_mem _ hr, q, hq⟩

/-- What `generate_contact` returns, from what `findValidCandidate` returns. -/
theorem generate_contact_ok (h : ContactGenHelper) (limbName : String) (rep : ProjectionReport)
    (hg : generate_contact h limbName = Except.ok rep) :
    ∃ result found_sample unstableContact,
      findValidCandidate h limbName false false =
        Except.ok (result, found_sample, unstableContact) ∧
      rep = (if found_sample then
          { result := result, status := STABLE_CONTACT, success := true }
        else if unstableContact then
          { result := result, status := UNSTABLE_CONTACT, success := !h.checkStabilityGenerate }
        else
          { setCollisionFree h.fullBody (h.fullBody.limbValidate limbName) limbName result with
            status := NO_CONTACT, success := false }) := by
  unfold generate_contact at hg
  rw [except_bind_eq_ok] at hg
  obtain ⟨⟨result, found_sample, unstableContact⟩, hf, hg⟩ := hg
  refine ⟨result, found_sample, unstableContact, hf, ?_⟩
  simp only at hg
  split at hg
  · rename_i hfs
    simp only [pure, Except.pure, Except.ok.injEq] at hg
    simp [hfs, ← hg]
  · rename_i hfs
    split at hg
    · rename_i hu
      simp only [pure, Except.pure, Except.ok.injEq] at hg
      simp [hfs, hu, ← hg]
    · rename_i hu
      simp only [pure, Except.pure, Except.ok.injEq] at hg
      simp [hfs, hu, ← hg]

/-- What `findValidCandidate` returns, from what its loop returns. -/
theorem findValidCandidate_ok (h : ContactGenHelper) (limbId : String)
    (result : State) (found_sample unstableContact : Bool)
    (hf : findValidCandidate h limbId false false =
      Except.ok (result, found_sample, unstableContact)) :
    ∃ finalSet s, CollideOctree h limbId = Except.ok finalSet ∧
      findValidCandidateLoop h limbId { h.workingState with stable := false } finalSet
        { configuration := h.workingState.configuration, moreRobust := [], maxRob := none,
          position := (0, 0, 0), normal := (0, 0, 0),
          rotation := ((0, 0, 0), (0, 0, 0), (0, 0, 0)),
          found_sample := false, unstableContact := false } = Except.ok s ∧
      found_sample = s.found_sample ∧ unstableContact = s.unstableContact ∧
      (result.stable = true → s.found_sample = true ∧ s.unstableContact = false) ∧
      (s.unstableContact = true → result.configuration = s.moreRobust ∧ result.stable = false) ∧
      (s.found_sample = true → s.unstableContact = false →
        result.configuration = s.configuration ∧ result.stable = true) := by
  unfold findValidCandidate at hf
  rw [except_bind_eq_ok] at hf
  obtain ⟨finalSet, hc, hf⟩ := hf
  rw [except_bind_eq_ok] at hf
  obtain ⟨s, hl, hf⟩ := hf
  refine ⟨finalSet, s, hc, hl, ?_⟩
  simp only [pure, Except.pure, Except.ok.injEq, Prod.mk.injEq] at hf
  obtain ⟨hr, hfs, hu⟩ := hf
  refine ⟨hfs.symm, hu.symm, ?_, ?_, ?_⟩
  · intro hst
    rw [← hr] at hst
    cases hfd : s.found_sample <;> cases hud : s.unstableContact <;> simp_all
  · intro hud
    rw [← hr]
    simp [hud]
  · intro hfd hud
    rw [← hr]
    simp [hfd, hud]


/-! ## Lemmas on the invariant of `State` -/

theorem mapSet_keys {α : Type} (k : String) (v : α) :
    ∀ (m : List (String × α)) (x : String),
      x ∈ (mapSet k v m).map Prod.fst ↔ x = k ∨ x ∈ m.map Prod.fst := by
  intro m
  induction m with
  | nil => intro x; simp [mapSet]
  | cons e rest ih =>
    intro x
    obtain ⟨k1, v1⟩ := e
    simp only [mapSet]
    split
    · rename_i hk
      subst hk
      simp
    · split
      · simp
      · simp only [List.map_cons, List.mem_cons, ih]
        tauto

theorem mapSet_true_mem (k : String) :
    ∀ (m : List (String × Bool)) (x : String),
      (x, true) ∈ mapSet k true m ↔ x = k ∨ (x, true) ∈ m := by
  intro m
  induction m with
  | nil => intro x; simp [mapSet]
  | cons e rest ih =>
    intro x
    obtain ⟨k1, v1⟩ := e
    simp only [mapSet]
    split
    · rename_i hk
      subst hk
      simp only [List.mem_cons, Prod.mk.injEq, and_true]
      constructor
      · rintro (h | h)
        · exact Or.inl h
        · exact Or.inr (Or.inr h)
      · rintro (h | h | h)
        · exact Or.inl h
        · exact Or.inl h.1
        · exact Or.inr h
    · split
      · simp
      · simp only [List.mem_cons, ih]
        tauto

theorem mem_activeContacts (s : State) (x : String) :
    x ∈ activeContacts s ↔ (x, true) ∈ s.contacts := by
  simp only [activeContacts, List.mem_map, List.mem_filter]
  constructor
  · rintro ⟨⟨a, b⟩, ⟨hm, hb⟩, hx⟩
    simp only at hb hx
    subst hb hx
    exact hm
  · intro h
    exact ⟨(x, true), ⟨h, rfl⟩, rfl⟩

theorem StateInvariant_of_same {a b : State} (h : SameContacts a b) (hb : StateInvariant b) :
    StateInvariant a := by
  obtain ⟨h1, h2, h3, h4, h5⟩ := h
  unfold StateInvariant activeContacts at *
  rw [h1, h2, h3, h4, h5]
  exact hb

/-- A state that satisfies the invariant still does once a limb out of contact
is put in the four maps and appended to `contactOrder`. -/
theorem StateInvariant_add (s : State) (limbId : String) (normal position : Vec3)
    (rotation : Matrix3) (q : Config) (st : Bool) (hinv : StateInvariant s)
    (hfree : limbId ∉ s.contactOrder) :
    StateInvariant
      { s with
        contacts := mapSet limbId true s.contacts
        contactNormals := mapSet limbId normal s.contactNormals
        contactPositions := mapSet limbId position s.contactPositions
        contactRotation := mapSet limbId rotation s.contactRotation
        contactOrder := s.contactOrder ++ [limbId]
        configuration := q
        stable := st } := by
  obtain ⟨hnd, hc, hp, hn, hr⟩ := hinv
  have key : ∀ keys : List String, SameLimbs keys s.contactOrder →
      ∀ keys1 : List String, (∀ x, x ∈ keys1 ↔ x = limbId ∨ x ∈ keys) →
        SameLimbs keys1 (s.contactOrder ++ [limbId]) := by
    intro keys hk keys1 h1
    constructor
    · intro l hl
      rcases (h1 l).1 hl with h | h
      · simp [h]
      · simp [hk.1 l h]
    · intro l hl
      rcases List.mem_append.1 hl with h | h
      · exact (h1 l).2 (Or.inr (hk.2 l h))
      · simp only [List.mem_singleton] at h
        exact (h1 l).2 (Or.inl h)
  refine ⟨?_, ?_, ?_, ?_, ?_⟩
  · simp only
    rw [List.nodup_append]
    refine ⟨hnd, List.nodup_singleton _, ?_⟩
    intro a ha hb
    simp only [List.mem_singleton] at hb
    subst hb
    exact hfree ha
  · refine key _ hc _ ?_
    intro x
    rw [mem_activeContacts, mem_activeContacts]
    exact mapSet_true_mem limbId s.contacts x
  · exact key _ hp _ (mapSet_keys limbId position s.contactPositions)
  · exact key _ hn _ (mapSet_keys limbId normal s.contactNormals)
  · exact key _ hr _ (mapSet_keys limbId rotation s.contactRotation)

/-- The contacts of the state `findValidCandidate` returns: those of the working
state, with the limb added when a candidate was kept. -/
theorem findValidCandidate_contacts (h : ContactGenHelper) (limbId : String)
    (result : State) (found_sample unstableContact : Bool)
    (hf : findValidCandidate h limbId false false =
      Except.ok (result, found_sample, unstableContact)) :
    SameContacts result h.workingState ∨
      ∃ normal position rotation q st,
        result = { h.workingState with
          contacts := mapSet limbId true h.workingState.contacts
          contactNormals := mapSet limbId normal h.workingState.contactNormals
          contactPositions := mapSet limbId position h.workingState.contactPositions
          contactRotation := mapSet limbId rotation h.workingState.contactRotation
          contactOrder := h.workingState.contactOrder ++ [limbId]
          configuration := q
          stable := st } := by
  unfold findValidCandidate at hf
  rw [except_bind_eq_ok] at hf
  obtain ⟨finalSet, _, hf⟩ := hf
  rw [except_bind_eq_ok] at hf
  obtain ⟨s, _, hf⟩ := hf
  simp only [pure, Except.pure, Except.ok.injEq, Prod.mk.injEq] at hf
  obtain ⟨hr, _, _⟩ := hf
  rw [← hr]
  cases hfd : s.found_sample <;> cases hud : s.unstableContact
  · left
    simp only [Bool.or_self, Bool.false_eq_true, if_false]
    exact ⟨rfl, rfl, rfl, rfl, rfl⟩
  · right
    exact ⟨s.normal, s.position, s.rotation, s.moreRobust, false, by simp⟩
  · right
    exact ⟨s.normal, s.position, s.rotation, s.configuration, true, by simp⟩
  · right
    exact ⟨s.normal, s.position, s.rotation, s.moreRobust, false, by simp⟩

/-- The state of a report of `generate_contact` for a limb out of contact
satisfies the invariant when the working state does. -/
theorem generate_contact_invariant (h : ContactGenHelper) (limbName : String)
    (rep : ProjectionReport) (hinv : StateInvariant h.workingState)
    (hfree : limbName ∉ h.workingState.contactOrder)
    (hg : generate_contact h limbName = Except.ok rep) : StateInvariant rep.result := by
  obtain ⟨result, found_sample, unstableContact, hf, hrep⟩ := generate_contact_ok h limbName rep hg
  have hres : StateInvariant result := by
    rcases findValidCandidate_contacts h limbName result found_sample unstableContact hf with
      hs | ⟨normal, position, rotation, q, st, hs⟩
    · exact StateInvariant_of_same hs hinv
    · rw [hs]
      exact StateInvariant_add h.workingState limbName normal position rotation q st hinv hfree
  rw [hrep]
  split
  · exact hres
  · split
    · exact hres
    · exact StateInvariant_of_same (setCollisionFree_same _ _ _ _) hres


/-- A report with `success = true` that leaves the loop of `maintain_contacts`
carries a configuration the whole-body validator accepts, when this holds of
the report the loop starts from. -/
theorem maintain_contacts_loop_validated (h : ContactGenHelper) :
    ∀ (candidates : List State) (rep0 : ProjectionReport) (r : List State × ProjectionReport),
      (rep0.success = true → h.fullBody.validate rep0.result.configuration = true) →
      maintain_contacts_loop h candidates rep0 = Except.ok r →
      r.2.success = true → h.fullBody.validate r.2.result.configuration = true := by
  intro candidates
  induction candidates with
  | nil =>
    intro rep0 r h0 hl
    simp only [maintain_contacts_loop, pure, Except.pure, Except.ok.injEq] at hl
    subst hl
    exact h0
  | cons cState rest ih =>
    intro rep0 r h0 hl
    simp only [maintain_contacts_loop] at hl
    split at hl
    · simp only [pure, Except.pure, Except.ok.injEq] at hl
      subst hl
      exact h0
    · rw [except_bind_eq_ok] at hl
      obtain ⟨rep1, _, hl⟩ := hl
      refine ih _ r ?_ hl
      generalize (if rep1.success = true then genColFree h rep1 else rep1) = rep2
      intro hs
      by_cases h2 : rep2.success = true
      · simp only [h2, if_true] at hs ⊢
        exact hs
      · simp only [h2, if_false] at hs
        exact absurd hs h2

/-- Without the stability search, a report of `maintain_contacts` with
`success = true` carries a configuration the whole-body validator accepts. -/
theorem maintain_contacts_validated (h : ContactGenHelper)
    (hc : h.checkStabilityMaintain = false) (rep : ProjectionReport) (h1 : ContactGenHelper)
    (hm : maintain_contacts h = Except.ok (rep, h1)) (hs : rep.success = true) :
    h.fullBody.validate rep.result.configuration = true := by
  unfold maintain_contacts at hm
  rw [except_bind_eq_ok] at hm
  obtain ⟨⟨candidates, rep1⟩, hl, hm⟩ := hm
  simp only [hc, Bool.and_false, Bool.false_eq_true, if_false, pure, Except.pure,
    Except.ok.injEq, Prod.mk.injEq] at hm
  obtain ⟨hr, _⟩ := hm
  subst hr
  exact maintain_contacts_loop_validated h _ ProjectionReport.default (candidates, rep1)
    (fun hd => absurd hd (by simp [ProjectionReport.default])) hl hs


/-! ## Theorems on contact maintenance -/

/-- C10: with `maxContactBreaks = 0`, `maintain_contacts_combinatorial` yields
one candidate, the working state, and a report returned by `maintain_contacts`
called with an empty queue of candidates carries a state with the
`contactOrder` and the contact maps of the working state. -/
theorem maintain_contacts_no_break (h : ContactGenHelper) (h0 : h.maxContactBreaks = 0) :
    maintain_contacts_combinatorial h.workingState h.maxContactBreaks = [h.workingState] ∧
      ∀ rep h1, h.candidates = [] → maintain_contacts h = Except.ok (rep, h1) →
        SameContacts rep.result h.workingState := by
  rw [h0]
  refine ⟨maintain_contacts_combinatorial_zero _, ?_⟩
  intro rep h1 hc hm
  unfold maintain_contacts at hm
  simp only [hc, List.isEmpty_nil, if_true, h0, maintain_contacts_combinatorial_zero] at hm
  rw [except_bind_eq_ok] at hm
  obtain ⟨⟨candidates, rep1⟩, hl, hm⟩ := hm
  obtain ⟨hcn, hs⟩ := maintain_contacts_loop_single h h.workingState ProjectionReport.default rfl
    candidates rep1 hl
  subst hcn
  simp only at hm
  split at hm
  · unfold maintain_contacts_stability at hm
    rw [except_bind_eq_ok] at hm
    obtain ⟨r, hr, hm⟩ := hm
    have := maintain_contacts_stability_rec_nil _ _ _ _ _ r hr
    simp only [pure, Except.pure, Except.ok.injEq, Prod.mk.injEq] at hm
    rw [← hm.1]
    exact this.trans hs
  · simp only [pure, Except.pure, Except.ok.injEq, Prod.mk.injEq] at hm
    rw [← hm.1]
    exact hs


/-! ## Theorems on contact generation -/

/-- C7 (amended): when `generate_contact` returns the status `STABLE_CONTACT`, or
a state with `stable = true`, one of the candidates was projected with success
and either its robustness reaches `robustnessTreshold`, or
`checkStabilityGenerate` is false, or the projected state has one contact and
`stableForOneContact` is false. So when `checkStabilityGenerate` and
`stableForOneContact` are true and no candidate of the limb, once projected,
reaches the threshold, the status is `NO_CONTACT` or `UNSTABLE_CONTACT` and the
state is not stable. -/
theorem generate_contact_stable_only_if (h : ContactGenHelper) (limbName : String)
    (rep : ProjectionReport) (hg : generate_contact h limbName = Except.ok rep) :
    ((rep.status = STABLE_CONTACT ∨ rep.result.stable = true) →
        ∃ finalSet, CollideOctree h limbName = Except.ok finalSet ∧
          ∃ r ∈ finalSet, ∃ q,
            sampleAccepted h limbName { h.workingState with stable := false } r q) ∧
      (h.checkStabilityGenerate = true → h.stableForOneContact = true →
        (∀ finalSet, CollideOctree h limbName = Except.ok finalSet → ∀ r ∈ finalSet, ∀ q,
          (h.fullBody.projectSampleToObstacle limbName r q
            { h.workingState with stable := false }).1.success = true →
          h.fullBody.isStable (h.fullBody.projectSampleToObstacle limbName r q
            { h.workingState with stable := false }).1.result < h.robustnessTreshold) →
        (rep.status = NO_CONTACT ∨ rep.status = UNSTABLE_CONTACT) ∧
          rep.result.stable = false) := by
  obtain ⟨result, found_sample, unstableContact, hf, hrep⟩ := generate_contact_ok h limbName rep hg
  obtain ⟨finalSet, s, hc, hl, hfs, hu, hst, _, _⟩ :=
    findValidCandidate_ok h limbName result found_sample unstableContact hf
  have hfound : s.found_sample = true →
      ∃ r ∈ finalSet, ∃ q,
        sampleAccepted h limbName { h.workingState with stable := false } r q := by
    intro hs
    rcases findValidCandidateLoop_found h limbName _ finalSet _ s hl hs with h1 | h1
    · simp at h1
    · exact h1
  have hA : (rep.status = STABLE_CONTACT ∨ rep.result.stable = true) → s.found_sample = true := by
    intro hs
    rw [hrep] at hs
    by_cases hfd : found_sample = true
    · rw [← hfs]
      exact hfd
    · simp only [hfd, Bool.false_eq_true, if_false] at hs
      by_cases hud : unstableContact = true
      · simp only [hud, if_true, reduceCtorEq, false_or] at hs
        exact (hst hs).1
      · simp only [hud, Bool.false_eq_true, if_false, reduceCtorEq, false_or] at hs
        obtain ⟨q, hq⟩ := setCollisionFree_result h.fullBody (h.fullBody.limbValidate limbName)
          limbName result
        rw [hq] at hs
        exact (hst hs).1
  refine ⟨fun hs => ⟨finalSet, hc, hfound (hA hs)⟩, ?_⟩
  intro hcs hso hno
  have hnf : ¬ s.found_sample = true := by
    intro hs
    obtain ⟨r, hr, q, hsucc, hacc⟩ := hfound hs
    have hlt := hno finalSet hc r hr q hsucc
    rcases hacc with h1 | h1 | h1
    · rw [hcs] at h1
      simp at h1
    · rw [hso] at h1
      simp at h1
    · exact absurd hlt (not_lt.2 h1)
  constructor
  · rw [hrep]
    have : found_sample = false := by
      rw [hfs]
      simpa using hnf
    subst this
    cases unstableContact <;> simp
  · by_contra hst2
    have : rep.result.stable = true := by simpa using hst2
    exact hnf (hA (Or.inr this))


/-- Witness of C10: a helper with `maxContactBreaks = 0` on two contacts. -/
theorem maintain_contacts_no_break_witness :
    maintain_contacts_combinatorial (exampleStateAt [0] ["a", "b"]) 0 =
        [exampleStateAt [0] ["a", "b"]] ∧
      SameContacts (exampleStateAt [0] ["a", "b"]) (exampleStateAt [0] ["a", "b"]) :=
  have h := maintain_contacts_no_break (exampleHelper ["a", "b"] 1 0 false true false) rfl
  ⟨h.1, h.2 { success := false, status := NO_CONTACT, result := exampleStateAt [0] ["a", "b"] }
    { exampleHelper ["a", "b"] 1 0 false true false with candidates := [] } rfl rfl⟩

/-- Witness of C7 (amended): with the stability check on and the threshold 15,
`generate_contact` returns `STABLE_CONTACT` for limb `b` of `exampleRobot`, and a
candidate passed the test. -/
theorem generate_contact_stable_only_if_witness :
    ∃ finalSet, CollideOctree (exampleHelper [] 15 1 false true false) "b" =
        Except.ok finalSet ∧
      ∃ r ∈ finalSet, ∃ q, sampleAccepted (exampleHelper [] 15 1 false true false) "b"
        { (exampleHelper [] 15 1 false true false).workingState with stable := false } r q :=
  (generate_contact_stable_only_if (exampleHelper [] 15 1 false true false) "b"
    { success := true, status := STABLE_CONTACT,
      result := { exampleStateAt [20] [] with
        contacts := [("b", true)], contactPositions := [("b", (20, 0, 0))],
        contactNormals := [("b", (0, 0, 1))],
        contactRotation := [("b", ((1, 0, 0), (0, 1, 0), (0, 0, 1)))],
        contactOrder := ["b"], stable := true } }
    rfl).1 (Or.inl rfl)

/-- Counterexample to C7: with `checkStabilityGenerate = false` and the threshold
100, `generate_contact` returns `STABLE_CONTACT` and a stable state for limb `b`
of `exampleRobot`, although the robustness of the returned state is 10 and the
two candidates have the robustness 10 and 20. -/
theorem generate_contact_stable_only_if_counterexample :
    ∃ rep, generate_contact (exampleHelper [] 100 1 false false false) "b" = Except.ok rep ∧
      rep.status = STABLE_CONTACT ∧ rep.result.stable = true ∧
      exampleRobot.isStable rep.result < 100 ∧
      CollideOctree (exampleHelper [] 100 1 false false false) "b" = Except.ok [10, 20] ∧
      ∀ r ∈ [10, 20], ∀ q,
        exampleRobot.isStable (exampleRobot.projectSampleToObstacle "b" r q
          { (exampleHelper [] 100 1 false false false).workingState with stable := false }
          ).1.result < 100 :=
  ⟨{ success := true, status := STABLE_CONTACT,
      result := { exampleStateAt [10] [] with
        contacts := [("b", true)], contactPositions := [("b", (10, 0, 0))],
        contactNormals := [("b", (0, 0, 1))],
        contactRotation := [("b", ((1, 0, 0), (0, 1, 0), (0, 0, 1)))],
        contactOrder := ["b"], stable := true } },
    rfl, rfl, rfl, by decide!, rfl, by
      intro r hr q
      simp only [List.mem_cons, List.mem_singleton, List.not_mem_nil, or_false] at hr
      rcases hr with hr | hr
      · subst hr
        show (((10 : ℕ) : ℚ)) < 100
        norm_num
      · subst hr
        show (((20 : ℕ) : ℚ)) < 100
        norm_num⟩

/-- C8, at the failing input: `contactIfFails` and `checkStabilityGenerate` are
true, the threshold is 15 and the candidates of limb `b` have the robustness 10
and 20. The first is recorded as the unstable fallback, the second is accepted,
and `generate_contact` returns `STABLE_CONTACT` with `success = true` and a state
with `stable = false` at the configuration `[10]` of the first candidate, while
the accepted candidate gives the configuration `[20]`. -/
theorem generate_contact_stable_status_unstable_state :
    ∃ rep, generate_contact (exampleHelper [] 15 1 false true true) "b" = Except.ok rep ∧
      rep.status = STABLE_CONTACT ∧ rep.success = true ∧
      rep.result.stable = false ∧ rep.result.configuration = [10] ∧
      rep.result.contactPositions = [("b", (20, 0, 0))] ∧
      ¬ sampleAccepted (exampleHelper [] 15 1 false true true) "b"
        { (exampleHelper [] 15 1 false true true).workingState with stable := false } 10 [0] ∧
      sampleAccepted (exampleHelper [] 15 1 false true true) "b"
        { (exampleHelper [] 15 1 false true true).workingState with stable := false } 20 [10] ∧
      (exampleRobot.projectSampleToObstacle "b" 20 [10]
        { (exampleHelper [] 15 1 false true true).workingState with stable := false }).2 = [20] :=
  ⟨{ success := true, status := STABLE_CONTACT,
      result := { exampleStateAt [10] [] with
        contacts := [("b", true)], contactPositions := [("b", (20, 0, 0))],
        contactNormals := [("b", (0, 0, 1))],
        contactRotation := [("b", ((1, 0, 0), (0, 1, 0), (0, 0, 1)))],
        contactOrder := ["b"], stable := false } },
    rfl, rfl, rfl, rfl, rfl, rfl, by
      unfold sampleAccepted
      decide!, by
      unfold sampleAccepted
      decide!, rfl⟩

/-- C9, at the failing input: `checkStabilityMaintain` is true and one contact
may break. The candidate with both contacts does not project, the candidate
without `a` projects onto `[1]`, passes the collision checks and is not stable;
the stability search then takes the candidate without `b`, whose projection
`[2]` is stable, and `maintain_contacts` returns it with `success = true`
although the whole-body validator rejects `[2]`. -/
theorem maintain_contacts_stability_skips_validation :
    ∃ rep, reportOf (maintain_contacts (exampleHelper ["a", "b"] 1 1 true true false)) =
        some rep ∧
      rep.success = true ∧ rep.result.configuration = [2] ∧
      exampleRobot.validate rep.result.configuration = false :=
  ⟨{ success := true, status := NO_CONTACT,
      result := { exampleStateAt [2] ["a"] with stable := true } },
    by decide!, rfl, rfl, by decide!⟩

/-- C6, at the failing input: limb `a` is in contact, its group holds `a` and
`b`, no contact is found for `a` and one is found for `b`. The working state
satisfies the invariant; in the state `repositionContacts` returns, `a` and `b`
are in contact and `contactOrder` holds `b` alone. -/
theorem repositionContacts_breaks_invariant :
    StateInvariant (exampleHelper ["a"] 15 1 false false false).workingState ∧
      ∃ rep, reportOf (repositionContacts (exampleHelper ["a"] 15 1 false false false)) =
          some rep ∧
        activeContacts rep.result = ["a", "b"] ∧ rep.result.contactOrder = ["b"] ∧
        ¬ StateInvariant rep.result :=
  ⟨by decide!,
    { success := true, status := STABLE_CONTACT,
      result := { exampleStateAt [10] [] with
        contacts := [("a", true), ("b", true)]
        contactPositions := [("a", (0, 0, 0)), ("b", (10, 0, 0))]
        contactNormals := [("a", (0, 0, 1)), ("b", (0, 0, 1))]
        contactRotation := [("a", ((1, 0, 0), (0, 1, 0), (0, 0, 1))),
          ("b", ((1, 0, 0), (0, 1, 0), (0, 0, 1)))]
        contactOrder := ["b"], stable := true, nbContacts := 1 } },
    by decide!, rfl, rfl, by decide!⟩

/-! ## Lemmas on the objects offered to a limb -/

theorem foldl_append_flatten {α β : Type} (g : α → List β) :
    ∀ (l : List α) (init : List β),
      l.foldl (fun acc a => acc ++ g a) init = init ++ (l.map g).flatten := by
  intro l
  induction l with
  | nil => intro init; simp
  | cons a t ih =>
    intro init
    simp only [List.foldl_cons, ih, List.map_cons, List.flatten_cons, List.append_assoc]

theorem copyAffTypes_ok (affordances : List (String × List CollisionObject)) :
    ∀ (types : List String) (affs : List CollisionObject),
      (∀ t ∈ types, (affordances.lookup t).isSome = true) →
      copyAffTypes affordances types affs =
        Except.ok (affs ++ objectsOfTypes affordances types) := by
  intro types
  induction types with
  | nil => intro affs _; simp [copyAffTypes, objectsOfTypes, pure, Except.pure]
  | cons t rest ih =>
    intro affs hk
    have ht := hk t (List.mem_cons_self _ _)
    cases hl : affordances.lookup t with
    | none => rw [hl] at ht; simp at ht
    | some objs =>
      simp only [copyAffTypes, hl]
      rw [ih _ (fun t1 h1 => hk t1 (List.mem_cons_of_mem _ h1))]
      simp [objectsOfTypes, hl, List.append_assoc]

/-- Under the precondition, `getAffObjectsForLimb` raises its error when the
collected list is empty and returns the collected list otherwise. -/
theorem getAffObjectsForLimb_eq (limb : String)
    (affordances : List (String × List CollisionObject))
    (affFilters : List (String × List String))
    (hk : FilterTypesKnown affordances affFilters) :
    getAffObjectsForLimb limb affordances affFilters =
      if collectedObjects limb affordances affFilters = [] then
        Except.error ("No aff objects found for limb " ++ limb)
      else Except.ok (collectedObjects limb affordances affFilters) := by
  unfold getAffObjectsForLimb collectedObjects limbFilter
  cases hf : affFilters.find? (fun f => containsSubstring f.1 limb) with
  | none =>
    simp only [foldl_append_flatten, List.nil_append, pure, Except.pure, bind, Except.bind,
      List.isEmpty_iff]
    split <;> rfl
  | some f =>
    have hmem : f ∈ affFilters := List.mem_of_find?_eq_some hf
    simp only [copyAffTypes_ok affordances f.2 [] (hk f hmem), List.nil_append, bind,
      Except.bind, List.isEmpty_iff, pure, Except.pure]
    split <;> rfl

/-- An error of `getAffObjectsForLimb` is an error of `generate_contact`. -/
theorem generate_contact_error (h : ContactGenHelper) (limbName : String) (e : String)
    (he : getAffObjectsForLimb limbName h.affordances h.affFilters = Except.error e) :
    generate_contact h limbName = Except.error e := by
  simp [generate_contact, findValidCandidate, CollideOctree, he, bind, Except.bind]

/-! ## Theorems on the objects offered to a limb -/

/-- C11: when every affordance type named by a filter entry is a key of the
affordance map, `getAffObjectsForLimb` raises the error
"No aff objects found for limb <limb>" exactly when the collected object list
is empty, as it is when the filter entry of the limb lists only types whose
object lists are empty, and otherwise returns the collected list, which is not
empty; `generate_contact` on that limb raises the same error. -/
theorem getAffObjectsForLimb_error_iff (limb : String)
    (affordances : List (String × List CollisionObject))
    (affFilters : List (String × List String))
    (hk : FilterTypesKnown affordances affFilters) :
    (getAffObjectsForLimb limb affordances affFilters =
        Except.error ("No aff objects found for limb " ++ limb) ↔
      collectedObjects limb affordances affFilters = []) ∧
    (collectedObjects limb affordances affFilters ≠ [] →
      getAffObjectsForLimb limb affordances affFilters =
        Except.ok (collectedObjects limb affordances affFilters)) ∧
    (∀ affs, getAffObjectsForLimb limb affordances affFilters = Except.ok affs → affs ≠ []) ∧
    (∀ f, limbFilter limb affFilters = some f →
      (∀ t ∈ f.2, affordances.lookup t = some []) →
      getAffObjectsForLimb limb affordances affFilters =
        Except.error ("No aff objects found for limb " ++ limb)) ∧
    (∀ h : ContactGenHelper, h.affordances = affordances → h.affFilters = affFilters →
      collectedObjects limb affordances affFilters = [] →
      generate_contact h limb = Except.error ("No aff objects found for limb " ++ limb)) := by
  have heq := getAffObjectsForLimb_eq limb affordances affFilters hk
  refine ⟨?_, ?_, ?_, ?_, ?_⟩
  · rw [heq]
    constructor
    · intro h
      by_contra hne
      rw [if_neg hne] at h
      exact absurd h (by simp)
    · intro h
      rw [if_pos h]
  · intro hne
    rw [heq, if_neg hne]
  · intro affs h
    rw [heq] at h
    split at h
    · exact absurd h (by simp)
    · rename_i hne
      simp only [Except.ok.injEq] at h
      rw [← h]
      exact hne
  · intro f hf hempty
    rw [heq, if_pos]
    unfold collectedObjects
    rw [hf]
    simp only [objectsOfTypes]
    rw [List.flatten_eq_nil_iff]
    intro l hl
    simp only [List.mem_map] at hl
    obtain ⟨t, ht, hl⟩ := hl
    rw [hempty t ht] at hl
    simpa using hl.symm
  · intro h ha hf hc
    apply generate_contact_error
    rw [ha, hf, heq, if_pos hc]

/-- Witness of C11: limb `b` is filtered to the lean type, which has no object. -/
theorem getAffObjectsForLimb_error_iff_witness :
    getAffObjectsForLimb "b" exampleAffordances [("b", ["Lean"])] =
      Except.error "No aff objects found for limb b" :=
  (getAffObjectsForLimb_error_iff "b" exampleAffordances [("b", ["Lean"])]
    (by unfold FilterTypesKnown; decide)).1.2 (by decide)

/-- C12 (amended): when no collision object is available to the limb (the
collected object list is empty, as with an empty affordance map and no filter
entry), `generate_contact` raises the error "No aff objects found for limb
<limb>" and returns no report, so never one with the status `STABLE_CONTACT`. -/
theorem generate_contact_no_objects (h : ContactGenHelper) (limbName : String)
    (hk : FilterTypesKnown h.affordances h.affFilters)
    (hc : collectedObjects limbName h.affordances h.affFilters = []) :
    generate_contact h limbName =
        Except.error ("No aff objects found for limb " ++ limbName) ∧
      ∀ rep, generate_contact h limbName ≠ Except.ok rep := by
  have he : generate_contact h limbName =
      Except.error ("No aff objects found for limb " ++ limbName) := by
    apply generate_contact_error
    rw [getAffObjectsForLimb_eq limbName h.affordances h.affFilters hk, if_pos hc]
  refine ⟨he, ?_⟩
  intro rep hrep
  rw [he] at hrep
  exact absurd hrep (by simp)

/-- Witness of C12 (amended): the helper of the examples with an empty
affordance map. -/
theorem generate_contact_no_objects_witness :
    generate_contact { exampleHelper [] 15 1 false true false with affordances := [] } "b" =
      Except.error "No aff objects found for limb b" :=
  (generate_contact_no_objects
    { exampleHelper [] 15 1 false true false with affordances := [] } "b"
    (by unfold FilterTypesKnown; decide) (by decide)).1

/-- Counterexample to C12: with an empty affordance map `generate_contact`
returns no report, neither with the status `NO_CONTACT` nor with another: it
raises an error. -/
theorem generate_contact_no_objects_counterexample :
    generate_contact { exampleHelper [] 15 1 false true false with affordances := [] } "b" =
        Except.error "No aff objects found for limb b" ∧
      ¬ ∃ rep, generate_contact
          { exampleHelper [] 15 1 false true false with affordances := [] } "b" =
            Except.ok rep ∧ rep.status = NO_CONTACT ∧ rep.success = false :=
  ⟨rfl, fun ⟨_, h, _⟩ => absurd h (by
    have e : generate_contact
        { exampleHelper [] 15 1 false true false with affordances := [] } "b" =
        Except.error "No aff objects found for limb b" := rfl
    rw [e]
    simp)⟩

/-- C13 (amended): for a limb `l` with a filter entry keyed `l`, when no key that
comes before it in the filter map contains `l`, whatever the keys after it,
`getAffObjectsForLimb` returns the concatenation, in the order listed under
`l`, of the object lists of the affordance types listed under `l`, provided
these types are keys of the affordance map and the concatenation is not empty. -/
theorem getAffObjectsForLimb_own_filter (limb : String)
    (affordances : List (String × List CollisionObject))
    (pre post : List (String × List String)) (types : List String)
    (hpre : ∀ f ∈ pre, containsSubstring f.1 limb = false)
    (hk : ∀ t ∈ types, (affordances.lookup t).isSome = true)
    (hne : objectsOfTypes affordances types ≠ []) :
    getAffObjectsForLimb limb affordances (pre ++ (limb, types) :: post) =
      Except.ok (objectsOfTypes affordances types) := by
  have hself : containsSubstring limb limb = true := by
    simp [containsSubstring, List.infix_refl]
  have hfind : (pre ++ (limb, types) :: post).find? (fun f => containsSubstring f.1 limb) =
      some (limb, types) := by
    rw [List.find?_append]
    have : pre.find? (fun f => containsSubstring f.1 limb) = none := by
      rw [List.find?_eq_none]
      intro f hf
      simp [hpre f hf]
    rw [this]
    simp [List.find?_cons, hself]
  unfold getAffObjectsForLimb
  simp only [hfind, copyAffTypes_ok affordances types [] hk, List.nil_append, bind, Except.bind,
    List.isEmpty_iff, pure, Except.pure]
  rw [if_neg hne]

/-- Witness of C13 (amended): limb `b` has the only key that contains `b`. -/
theorem getAffObjectsForLimb_own_filter_witness :
    getAffObjectsForLimb "b" exampleAffordances ([("a", ["Lean"])] ++ ("b", ["Support"]) :: []) =
      Except.ok (objectsOfTypes exampleAffordances ["Support"]) :=
  getAffObjectsForLimb_own_filter "b" exampleAffordances [("a", ["Lean"])] [] ["Support"]
    (by decide) (by decide) (by decide)

/-- Counterexample to C13: limb `b` has the filter entry `b`, which allows the
support type, and the key `ab` contains `b` and comes first; the limb is offered
the object of the lean type. -/
theorem getAffObjectsForLimb_own_filter_counterexample :
    getAffObjectsForLimb "b" [("Lean", [1]), ("Support", [0])] exampleFilters =
        Except.ok [1] ∧
      exampleFilters.lookup "b" = some ["Support"] ∧
      objectsOfTypes [("Lean", [1]), ("Support", [0])] ["Support"] = [0] :=
  ⟨rfl, rfl, rfl⟩

/-- C14 (amended): when the time range of the guide path has length 0 and the
first report of `ComputeContacts` has no `repositionedInPlace`, the path
overload of `Interpolate` calls `ComputeContacts` once, on the start state, and
returns the filtered sequence of the start state (unless the report supersedes
it), the result of that call and the end state. -/
theorem InterpolatePath_zero_length (ops : FilterOps State) (cc : ComputeContactsOracle)
    (start end_ : State) (path : ℚ → Config) (range : ℚ × ℚ) (extraDim : Nat) (timeStep : ℚ)
    (filterStates : Bool) (fuel : Nat) (hz : range.1 = range.2)
    (hrep : (cc 0 start
      (configPosition path range.2 extraDim start.configuration range.2)).repositionedInPlace =
        false) :
    InterpolatePath ops cc start end_ path range extraDim timeStep filterStates (fuel + 2) =
      FilterStates ops (fuel + 2)
        (singleTurnFrames start end_ range timeStep
          (cc 0 start (configPosition path range.2 extraDim start.configuration range.2)))
        filterStates := by
  generalize hr : cc 0 start
    (configPosition path range.2 extraDim start.configuration range.2) = rep at hrep
  have hs : sampleConfigs path range.2 extraDim timeStep (fuel + 2) range.1
      [start.configuration] = some [start.configuration] := by
    simp [sampleConfigs, hz]
  have hl : interpolateLoop cc
      [start.configuration, configPosition path range.2 extraDim start.configuration range.2]
      timeStep (fuel + 2) (interpolateInit start range.1) =
      some (true, (if supersedes rep then [] else [(range.1, start)]) ++
        [(if !rep.success || rep.multipleBreaks then range.1 + timeStep else range.1,
          { rep.result with nbContacts := rep.result.contactNormals.length })]) := by
    obtain ⟨success, result, contactMaintained, multipleBreaks, repositionedInPlace⟩ := rep
    simp only at hrep
    subst hrep
    cases success <;> cases contactMaintained <;> cases multipleBreaks <;>
      simp [interpolateLoop, interpolateBody, interpolateInit, hr, supersedes]
  unfold InterpolatePath
  simp only [hs, List.getLastD_cons, List.getLastD_nil, List.singleton_append]
  unfold Interpolate
  rw [hl]
  simp only [singleTurnFrames, List.append_assoc, List.singleton_append]

/-- Witness of C14 (amended): a path over the range `[0, 0]`. -/
theorem InterpolatePath_zero_length_witness :
    InterpolatePath stateFilterOps alternatingOracle examplePathStart examplePathEnd
        examplePath (0, 0) 6 (3 / 5) false (0 + 2) =
      FilterStates stateFilterOps (0 + 2)
        (singleTurnFrames examplePathStart examplePathEnd (0, 0) (3 / 5)
          (alternatingOracle 0 examplePathStart
            (configPosition examplePath 0 6 examplePathStart.configuration 0)))
        false :=
  InterpolatePath_zero_length stateFilterOps alternatingOracle examplePathStart examplePathEnd
    examplePath (0, 0) 6 (3 / 5) false 0 rfl rfl

/-- Counterexample to C14: over the range `[0, 0]` the path overload of
`Interpolate` returns three frames, the start state, the result of the call of
`ComputeContacts` and the end state. -/
theorem InterpolatePath_zero_length_counterexample :
    ∃ R, InterpolatePath stateFilterOps alternatingOracle examplePathStart examplePathEnd
        examplePath (0, 0) 6 (3 / 5) false 10 = some R ∧
      R.length = 3 ∧ R ≠ [(0, examplePathStart), (0, examplePathEnd)] :=
  ⟨[(0, examplePathStart), (0, exampleStateAt [0, 0, 1 / 10, 0, 0, 0, 0, 0, 0] ["a"]),
      (0, examplePathEnd)], by decide!, rfl, by decide!⟩

/-- The stability search keeps the number of contacts at or above
`contactLength`, and sets `stable` only from a value of the stability test
above the threshold. -/
theorem maintain_contacts_stability_rec_spec (fb : FullBody) (target : Config)
    (contactLength : Nat) (robustness : ℚ) :
    ∀ (candidates : List State) (currentRep : ProjectionReport)
      (r : Bool × List State × ProjectionReport),
      maintain_contacts_stability_rec fb target contactLength robustness candidates
        currentRep = Except.ok r →
      (contactLength ≤ currentRep.result.contactOrder.length →
        contactLength ≤ r.2.2.result.contactOrder.length) ∧
      ((∀ c ∈ candidates, c.contactOrder.length ≤ contactLength) →
        currentRep.result.contactOrder.length = contactLength →
        r.2.2.result.contactOrder.length = contactLength) ∧
      (r.1 = true → ∃ s0, fb.isStable s0 > robustness ∧
        r.2.2.result = { s0 with stable := true }) ∧
      (r.1 = false → r.2.2.result.stable = false) := by
  intro candidates
  induction candidates with
  | nil =>
    intro currentRep r h
    unfold maintain_contacts_stability_rec at h
    split at h
    · rename_i hst
      simp only [pure, Except.pure, Except.ok.injEq] at h
      subst h
      exact ⟨fun hl => hl, fun _ hl => hl, fun _ => ⟨currentRep.result, hst, rfl⟩,
        fun hf => absurd hf (by simp)⟩
    · simp only [pure, Except.pure, Except.ok.injEq] at h
      subst h
      exact ⟨fun hl => hl, fun _ hl => hl, fun hf => absurd hf (by simp), fun _ => rfl⟩
  | cons cState rest ih =>
    intro currentRep r h
    unfold maintain_contacts_stability_rec at h
    split at h
    · rename_i hst
      simp only [pure, Except.pure, Except.ok.injEq] at h
      subst h
      exact ⟨fun hl => hl, fun _ hl => hl, fun _ => ⟨currentRep.result, hst, rfl⟩,
        fun hf => absurd hf (by simp)⟩
    · simp only at h
      split at h
      · simp only [pure, Except.pure, Except.ok.injEq] at h
        subst h
        exact ⟨fun hl => hl, fun _ hl => hl, fun hf => absurd hf (by simp), fun _ => rfl⟩
      · rename_i hlen
        rw [except_bind_eq_ok] at h
        obtain ⟨rep, hp, h⟩ := h
        rw [except_bind_eq_ok] at h
        obtain ⟨⟨ok, copy_candidates, rep1⟩, hrec, h⟩ := h
        have hsame := projectToRootConfiguration_same fb target cState rep hp
        obtain ⟨i1, i2, i3, i4⟩ := ih rep (ok, copy_candidates, rep1) hrec
        simp only at h
        split at h
        · rename_i hok
          simp only [pure, Except.pure, Except.ok.injEq] at h
          subst h
          refine ⟨fun _ => i1 (by rw [hsame.1]; omega), fun hall _ => ?_, fun _ => i3 hok,
            fun hf => absurd hf (by simp)⟩
          refine i2 (fun c hc => hall c (List.mem_cons_of_mem _ hc)) ?_
          rw [hsame.1]
          have := hall cState (List.mem_cons_self _ _)
          omega
        · simp only [pure, Except.pure, Except.ok.injEq] at h
          subst h
          exact ⟨fun hl => hl, fun _ hl => hl, fun hf => absurd hf (by simp), fun _ => rfl⟩

/-- C18: the state `maintain_contacts_stability` returns holds at least as many
contacts as the survivor it is called on, exactly as many when no candidate of
the queue holds more, and its `stable` flag is true only if the stability test
gave a value above the robustness threshold for it. -/
theorem maintain_contacts_stability_size (h : ContactGenHelper)
    (currentRep rep : ProjectionReport) (h1 : ContactGenHelper)
    (hm : maintain_contacts_stability h currentRep = Except.ok (rep, h1)) :
    currentRep.result.contactOrder.length ≤ rep.result.contactOrder.length ∧
      ((∀ c ∈ h.candidates, c.contactOrder.length ≤ currentRep.result.contactOrder.length) →
        rep.result.contactOrder.length = currentRep.result.contactOrder.length) ∧
      (rep.result.stable = true →
        ∃ s0, h.fullBody.isStable s0 > h.robustnessTreshold ∧
          rep.result = { s0 with stable := true }) := by
  unfold maintain_contacts_stability at hm
  rw [except_bind_eq_ok] at hm
  obtain ⟨⟨ok, candidates, rep1⟩, hr, hm⟩ := hm
  simp only [pure, Except.pure, Except.ok.injEq, Prod.mk.injEq] at hm
  obtain ⟨hrep, _⟩ := hm
  subst hrep
  obtain ⟨i1, i2, i3, i4⟩ := maintain_contacts_stability_rec_spec _ _ _ _ _ _ _ hr
  refine ⟨i1 (Nat.le_refl _), fun hall => i2 hall rfl, fun hst => ?_⟩
  cases ok with
  | true => exact i3 rfl
  | false =>
    have := i4 rfl
    simp only at this hst
    rw [this] at hst
    exact absurd hst (by simp)

/-- C20 (amended): in `gen_contacts` a creation plan is kept exactly when every
required limb is already in contact in the working state, whatever the plan
creates; so the filter keeps all the plans or none. -/
theorem gen_contacts_plan_filter (h : ContactGenHelper) :
    (∀ cs : ContactState, reqLimValid h cs = true ↔
      ∀ r ∈ h.fullBody.requiredLimbs, r ∈ activeContacts cs.1) ∧
    (gen_contacts_combinatorial h).filter (reqLimValid h) =
      if (∀ r ∈ h.fullBody.requiredLimbs, r ∈ activeContacts h.workingState) then
        gen_contacts_combinatorial h
      else [] := by
  have h1 : ∀ cs : ContactState, reqLimValid h cs = true ↔
      ∀ r ∈ h.fullBody.requiredLimbs, r ∈ activeContacts cs.1 := by
    intro cs
    have hb : (fun c : String × Bool => c.2 == true) = (fun c => c.2) := by
      funext c
      cases c.2 <;> rfl
    simp only [reqLimValid, activeContacts, List.all_eq_true, List.any_eq_true, beq_iff_eq, hb]
    constructor
    · intro hv r hr
      obtain ⟨a, ha, hra⟩ := hv r hr
      rw [hra]
      exact ha
    · intro hv r hr
      exact ⟨r, hv r hr, rfl⟩
  refine ⟨h1, ?_⟩
  have h2 : ∀ cs ∈ gen_contacts_combinatorial h, cs.1 = h.workingState := by
    intro cs hcs
    simp only [gen_contacts_combinatorial, gen_contacts_combinatorial_of, List.mem_map] at hcs
    obtain ⟨plan, _, hp⟩ := hcs
    rw [← hp]
  split
  · rename_i hall
    rw [List.filter_eq_self]
    intro cs hcs
    rw [h1, h2 cs hcs]
    exact hall
  · rename_i hall
    rw [List.filter_eq_nil_iff]
    intro cs hcs hv
    rw [h1, h2 cs hcs] at hv
    exact hall hv

/-- Counterexample to C20: limb `b` is required and free, and the plan that
creates `b` is discarded with all the others. -/
theorem gen_contacts_plan_filter_counterexample :
    (exampleRequiredHelper.workingState, ["b"]) ∈
        gen_contacts_combinatorial exampleRequiredHelper ∧
      reqLimValid exampleRequiredHelper (exampleRequiredHelper.workingState, ["b"]) = false ∧
      (gen_contacts_combinatorial exampleRequiredHelper).filter
        (reqLimValid exampleRequiredHelper) = [] :=
  ⟨by decide!, rfl, rfl⟩

/-- Witness of C18: the survivor holds the contact of `b`, is not stable, and
the next candidate, which holds the contact of `a`, is. -/
theorem maintain_contacts_stability_size_witness :
    (exampleStateAt [1] ["b"]).contactOrder.length ≤
        ({ exampleStateAt [2] ["a"] with stable := true } : State).contactOrder.length ∧
      ∃ s0, exampleRobot.isStable s0 > 1 ∧
        ({ exampleStateAt [2] ["a"] with stable := true } : State) = { s0 with stable := true } :=
  have h := maintain_contacts_stability_size
    { exampleHelper ["a", "b"] 1 1 true true false with
      candidates := [exampleStateAt [0] ["a"]] }
    { success := true, status := NO_CONTACT, result := exampleStateAt [1] ["b"] }
    { success := true, status := NO_CONTACT,
      result := { exampleStateAt [2] ["a"] with stable := true } }
    { exampleHelper ["a", "b"] 1 1 true true false with candidates := [] } rfl
  ⟨h.1, h.2.2 rfl⟩

/-! ## Lemmas on the creation plans -/

/-- The plans one turn of `stringCombinatorialRec` builds from the plans `res`:
each plan followed by each candidate it does not hold. -/
theorem stringCombinatorial_inner (contacts : List String) :
    ∀ (cs : List String) (acc : List (List String)),
      cs.foldl
        (fun acc c =>
          let inserted := insertIfNew contacts c
          if inserted.1 then acc ++ [inserted.2] else acc)
        acc =
      acc ++ (cs.filter (fun c => !contacts.contains c)).map (fun c => contacts ++ [c]) := by
  intro cs
  induction cs with
  | nil => intro acc; simp
  | cons c rest ih =>
    intro acc
    simp only [List.foldl_cons, insertIfNew]
    rw [List.filter_cons]
    by_cases hc : contacts.contains c = true
    · simp only [hc, if_true, Bool.not_true, Bool.false_eq_true, if_false]
      have := ih acc
      simp only [insertIfNew] at this
      exact this
    · have hc2 : contacts.contains c = false := by simpa using hc
      simp only [hc2, Bool.false_eq_true, if_false, Bool.not_false, if_true]
      have := ih (acc ++ [contacts ++ [c]])
      simp only [insertIfNew] at this
      rw [this]
      simp

/-- The plans of one more limb: each plan of `res` followed by each candidate it
does not hold. -/
theorem stringCombinatorial_outer (candidates : List String) :
    ∀ (res : List (List String)) (acc : List (List String)),
      res.foldl
        (fun acc contacts =>
          candidates.foldl
            (fun acc c =>
              let inserted := insertIfNew contacts c
              if inserted.1 then acc ++ [inserted.2] else acc)
            acc)
        acc =
      acc ++ res.flatMap (fun contacts =>
        (candidates.filter (fun c => !contacts.contains c)).map (fun c => contacts ++ [c])) := by
  intro res
  induction res with
  | nil => intro acc; simp
  | cons q rest ih =>
    intro acc
    simp only [List.foldl_cons, List.flatMap_cons]
    rw [stringCombinatorial_inner q candidates acc, ih]
    simp

/-- The sequences without repetition of `k` of the candidates. -/
theorem plans_step (candidates : List String) (hc : candidates.Nodup) (k : Nat)
    (res : List (List String)) (hnd : res.Nodup)
    (hmem : ∀ p, p ∈ res ↔ p.Nodup ∧ (∀ x ∈ p, x ∈ candidates) ∧ p.length = k) :
    (res.flatMap (fun contacts =>
        (candidates.filter (fun c => !contacts.contains c)).map
          (fun c => contacts ++ [c]))).Nodup ∧
      ∀ p, p ∈ res.flatMap (fun contacts =>
          (candidates.filter (fun c => !contacts.contains c)).map (fun c => contacts ++ [c])) ↔
        p.Nodup ∧ (∀ x ∈ p, x ∈ candidates) ∧ p.length = k + 1 := by
  constructor
  · rw [List.nodup_flatMap]
    constructor
    · intro q _
      refine List.Nodup.map ?_ (hc.filter _)
      intro a b hab
      have := congrArg List.getLast? hab
      simpa using this
    · refine hnd.imp ?_
      intro q1 q2 hne
      simp only [Function.onFun]
      intro p hp1 hp2
      simp only [List.mem_map, List.mem_filter] at hp1 hp2
      obtain ⟨c1, _, h1⟩ := hp1
      obtain ⟨c2, _, h2⟩ := hp2
      apply hne
      have := h1.trans h2.symm
      have hd := congrArg List.dropLast this
      simpa using hd
  · intro p
    simp only [List.mem_flatMap, List.mem_map, List.mem_filter]
    constructor
    · rintro ⟨q, hq, c, ⟨hcm, hcq⟩, rfl⟩
      obtain ⟨hqn, hqs, hql⟩ := (hmem q).1 hq
      have hcq2 : c ∉ q := by simpa using hcq
      refine ⟨?_, ?_, ?_⟩
      · rw [List.nodup_append]
        refine ⟨hqn, List.nodup_singleton c, ?_⟩
        intro a ha hb
        simp only [List.mem_singleton] at hb
        subst hb
        exact hcq2 ha
      · intro x hx
        rcases List.mem_append.1 hx with hx | hx
        · exact hqs x hx
        · simp only [List.mem_singleton] at hx
          subst hx
          exact hcm
      · simp [hql]
    · rintro ⟨hpn, hps, hpl⟩
      have hne : p ≠ [] := by
        intro h
        subst h
        simp at hpl
      have hp : p.dropLast ++ [p.getLast hne] = p := List.dropLast_concat_getLast hne
      rw [← hp] at hpn hps
      rw [List.nodup_append] at hpn
      obtain ⟨hdn, _, hdisj⟩ := hpn
      refine ⟨p.dropLast, (hmem _).2 ⟨hdn, fun x hx => hps x (List.mem_append_left _ hx), ?_⟩,
        p.getLast hne, ⟨hps _ (by simp), ?_⟩, hp⟩
      · simp [hpl]
      · simp only [Bool.not_eq_true', List.contains_eq_any_beq, List.any_eq_false, beq_iff_eq]
        intro x hx hxe
        exact hdisj hx (by simp [hxe])

/-- The plans of `stringCombinatorialRec` started on the sequences without
repetition of `k` candidates: the sequences without repetition of `k` to
`k + depth` candidates, each once. -/
theorem stringCombinatorialRec_spec (candidates : List String) (hc : candidates.Nodup) :
    ∀ (depth k : Nat) (res : List (List String)), res.Nodup →
      (∀ p, p ∈ res ↔ p.Nodup ∧ (∀ x ∈ p, x ∈ candidates) ∧ p.length = k) →
      (stringCombinatorialRec candidates depth res).Nodup ∧
        ∀ p, p ∈ stringCombinatorialRec candidates depth res ↔
          p.Nodup ∧ (∀ x ∈ p, x ∈ candidates) ∧ k ≤ p.length ∧ p.length ≤ k + depth := by
  intro depth
  induction depth with
  | zero =>
    intro k res hnd hmem
    simp only [stringCombinatorialRec]
    refine ⟨hnd, fun p => ?_⟩
    rw [hmem]
    constructor
    · rintro ⟨a, b, c⟩
      exact ⟨a, b, by omega, by omega⟩
    · rintro ⟨a, b, c, d⟩
      exact ⟨a, b, by omega⟩
  | succ d ih =>
    intro k res hnd hmem
    simp only [stringCombinatorialRec]
    rw [stringCombinatorial_outer candidates res [], List.nil_append]
    obtain ⟨sn, sm⟩ := plans_step candidates hc k res hnd hmem
    obtain ⟨rn, rm⟩ := ih (k + 1) _ sn sm
    constructor
    · rw [List.nodup_append]
      refine ⟨hnd, rn, ?_⟩
      intro p hp1 hp2
      have h1 := (hmem p).1 hp1
      have h2 := (rm p).1 hp2
      omega
    · intro p
      rw [List.mem_append, hmem, rm]
      constructor
      · rintro (⟨a, b, c⟩ | ⟨a, b, c, e⟩)
        · exact ⟨a, b, by omega, by omega⟩
        · exact ⟨a, b, by omega, by omega⟩
      · rintro ⟨a, b, c, e⟩
        by_cases hk : p.length = k
        · exact Or.inl ⟨a, b, hk⟩
        · exact Or.inr ⟨a, b, by omega, by omega⟩

/-! ## Theorems on the creation plans -/

/-- C19 (amended): for distinct free limbs and `maxContactCreations = d`, the
creation plans of `stringCombinatorial` and `gen_contacts_combinatorial` are the
sequences without repetition of at most `d` free limbs, each appearing once; a
set of `k` limbs appears once for each of its orderings. -/
theorem stringCombinatorial_plans (candidates : List String) (d : Nat) (previous : State)
    (hc : candidates.Nodup) :
    (stringCombinatorial candidates d).Nodup ∧
      (∀ p, p ∈ stringCombinatorial candidates d ↔
        p.Nodup ∧ (∀ x ∈ p, x ∈ candidates) ∧ p.length ≤ d) ∧
      (gen_contacts_combinatorial_of candidates previous d).map Prod.snd =
        stringCombinatorial candidates d := by
  obtain ⟨hn, hm⟩ := stringCombinatorialRec_spec candidates hc d 0 [[]]
    (List.nodup_singleton _) (by
      intro p
      simp only [List.mem_singleton]
      constructor
      · rintro rfl
        simp
      · rintro ⟨_, _, hl⟩
        exact List.length_eq_zero.1 hl)
  refine ⟨hn, fun p => ?_, ?_⟩
  · unfold stringCombinatorial
    rw [hm]
    constructor
    · rintro ⟨a, b, _, e⟩
      exact ⟨a, b, by omega⟩
    · rintro ⟨a, b, e⟩
      exact ⟨a, b, by omega, by omega⟩
  · simp [gen_contacts_combinatorial_of, List.map_map, Function.comp_def]

/-- Witness of C19 (amended) on two free limbs. -/
theorem stringCombinatorial_plans_witness :
    (stringCombinatorial ["a", "b"] 2).Nodup ∧
      ∀ p, p ∈ stringCombinatorial ["a", "b"] 2 ↔
        p.Nodup ∧ (∀ x ∈ p, x ∈ ["a", "b"]) ∧ p.length ≤ 2 :=
  have h := stringCombinatorial_plans ["a", "b"] 2 State.empty (by decide)
  ⟨h.1, h.2.1⟩

/-- Counterexample to C19: for the free limbs `a` and `b` and two creations, the
set of `a` and `b` appears as the plan `a, b` and as the plan `b, a`. -/
theorem stringCombinatorial_plans_counterexample :
    stringCombinatorial ["a", "b"] 2 = [[], ["a"], ["b"], ["a", "b"], ["b", "a"]] ∧
      (gen_contacts_combinatorial_of ["a", "b"] State.empty 2).map Prod.snd =
        [[], ["a"], ["b"], ["a", "b"], ["b", "a"]] :=
  ⟨by decide, by decide⟩

/-! ## Lemmas on the enumeration of candidates -/

theorem getD_set_self {α : Type} (res : List (List α)) (d : Nat) (x : List α)
    (h : d < res.length) : (res.set d x).getD d [] = x := by
  rw [List.getD_eq_getElem?_getD, List.getElem?_set]
  simp [h]

theorem getD_set_of_ne {α : Type} (res : List (List α)) (d j : Nat) (x : List α)
    (h : j ≠ d) : (res.set d x).getD j [] = res.getD j [] := by
  rw [List.getD_eq_getElem?_getD, List.getD_eq_getElem?_getD, List.getElem?_set]
  simp [Ne.symm h]

theorem push_if_new_fst (states : List State) (currentState : State) :
    (push_if_new states currentState).1 = true ↔
      currentState.contactOrder ∉ states.map (fun s => s.contactOrder) := by
  unfold push_if_new
  split
  · rename_i h
    simp only [Bool.false_eq_true, false_iff, not_not]
    simp only [List.any_eq_true, beq_iff_eq] at h
    obtain ⟨s, hs, he⟩ := h
    exact List.mem_map.2 ⟨s, hs, he.symm⟩
  · rename_i h
    simp only [true_iff]
    intro hm
    apply h
    obtain ⟨s, hs, he⟩ := List.mem_map.1 hm
    simp only [List.any_eq_true, beq_iff_eq]
    exact ⟨s, hs, he.symm⟩

/-- The enumeration returns `res` when the contact order of the state is in
level `depth`. -/
theorem mccr_old (S : State) (d r : Nat) (res : List (List State))
    (h : S.contactOrder ∈ levelOrders res d) :
    maintain_contacts_combinatorial_rec S d r res = res := by
  have hp : (push_if_new (res.getD d []) S).1 = false := by
    have := (push_if_new_fst (res.getD d []) S).not.2 (not_not.2 h)
    simpa using this
  rw [maintain_contacts_combinatorial_rec]
  simp only [hp, Bool.not_false, if_true]

theorem push_if_new_snd (states : List State) (currentState : State)
    (h : currentState.contactOrder ∉ states.map (fun s => s.contactOrder)) :
    (push_if_new states currentState).2 = states ++ [currentState] := by
  have h1 := (push_if_new_fst states currentState).2 h
  unfold push_if_new at h1 ⊢
  split
  · rename_i hc
    rw [if_pos hc] at h1
    simp at h1
  · rfl

/-- The enumeration appends the state to level `depth` when its contact order
is not there, and stops when `remaining = 0`. -/
theorem mccr_new_zero (S : State) (d : Nat) (res : List (List State))
    (h : S.contactOrder ∉ levelOrders res d) :
    maintain_contacts_combinatorial_rec S d 0 res = res.set d (res.getD d [] ++ [S]) := by
  have hp := (push_if_new_fst (res.getD d []) S).2 h
  have hs : (push_if_new (res.getD d []) S).2 = res.getD d [] ++ [S] := push_if_new_snd _ _ h
  rw [maintain_contacts_combinatorial_rec]
  simp only [hp, hs, Bool.not_true, Bool.false_eq_true, if_false]

/-- The enumeration appends the state to level `depth` when its contact order
is not there, and goes on with the states that hold one contact less. -/
theorem mccr_new_succ (S : State) (d r : Nat) (res : List (List State))
    (h : S.contactOrder ∉ levelOrders res d) :
    maintain_contacts_combinatorial_rec S d (r + 1) res =
      S.contactOrder.foldl
        (fun acc contactRemoved =>
          maintain_contacts_combinatorial_rec (S.RemoveContact contactRemoved) (d + 1) r acc)
        (res.set d (res.getD d [] ++ [S])) := by
  have hp := (push_if_new_fst (res.getD d []) S).2 h
  have hs : (push_if_new (res.getD d []) S).2 = res.getD d [] ++ [S] := push_if_new_snd _ _ h
  rw [maintain_contacts_combinatorial_rec]
  simp only [hp, hs, Bool.not_true, Bool.false_eq_true, if_false]

/-- A property of the accumulator that every turn of a fold keeps holds at the
end of the fold. -/
theorem foldl_keeps {α β : Type} (g : β → α → β) (P : β → Prop) :
    ∀ (cs : List α) (acc : β), (∀ acc c, c ∈ cs → P acc → P (g acc c)) → P acc →
      P (cs.foldl g acc) := by
  intro cs
  induction cs with
  | nil => intro acc _ h; exact h
  | cons c rest ih =>
    intro acc hstep h
    simp only [List.foldl_cons]
    exact ih _ (fun a x hx hp => hstep a x (List.mem_cons_of_mem _ hx) hp)
      (hstep acc c (List.mem_cons_self _ _) h)

theorem levelOrders_set (res : List (List State)) (d j : Nat) (x : List State)
    (h : d < res.length) :
    levelOrders (res.set d x) j =
      if j = d then x.map (fun s => s.contactOrder) else levelOrders res j := by
  unfold levelOrders
  by_cases hj : j = d
  · subst hj
    rw [getD_set_self res j x h, if_pos rfl]
  · rw [getD_set_of_ne res d j x hj, if_neg hj]

theorem IsDrop_trans {i k : Nat} {o1 o base : List String} (h1 : IsDrop i o1 o)
    (h2 : IsDrop k o base) : IsDrop (k + i) o1 base :=
  ⟨h1.1.trans h2.1, by have := h1.2; have := h2.2; omega⟩

theorem IsDrop_zero_eq {o base : List String} (h : IsDrop 0 o base) : o = base :=
  h.1.eq_of_length (by have := h.2; omega)

theorem IsDrop_refl (o : List String) : IsDrop 0 o o :=
  ⟨List.Sublist.refl o, rfl⟩

theorem IsDrop_remove (l : List String) (c : String) (hl : l.Nodup) (hc : c ∈ l) :
    IsDrop 1 (l.filter (fun x => x != c)) l := by
  refine ⟨List.filter_sublist l, ?_⟩
  rw [← hl.erase_eq_filter c, List.length_erase_of_mem hc]
  have : 0 < l.length := List.length_pos_of_mem hc
  omega

theorem IsDrop_of_not_mem (i : Nat) (o l : List String) (c : String) (hl : l.Nodup)
    (hc : c ∈ l) (hco : c ∉ o) (h : IsDrop (i + 1) o l) :
    IsDrop i o (l.filter (fun x => x != c)) := by
  constructor
  · have : o.filter (fun x => x != c) = o := by
      rw [List.filter_eq_self]
      intro a ha
      simp only [bne_iff_ne, ne_eq]
      intro hac
      exact hco (hac ▸ ha)
    rw [← this]
    exact h.1.filter _
  · have := (IsDrop_remove l c hl hc).2
    have := h.2
    omega

theorem IsDrop_exists_not_mem (i : Nat) (o l : List String) (hl : l.Nodup)
    (h : IsDrop (i + 1) o l) : ∃ c ∈ l, c ∉ o := by
  by_contra hno
  simp only [not_exists, not_and, not_not] at hno
  have hsub : l ⊆ o := fun c hc => hno c hc
  have := (hl.subperm hsub).length_le
  have := h.2
  omega

/-- The shape of what the enumeration returns: the levels above `depth` are
unchanged and level `depth` gets the state when its contact order is new. -/
theorem mccr_shape :
    ∀ (r : Nat) (S : State) (d : Nat) (res : List (List State)), d + r < res.length →
      (maintain_contacts_combinatorial_rec S d r res).length = res.length ∧
      (∀ j, j < d →
        (maintain_contacts_combinatorial_rec S d r res).getD j [] = res.getD j []) ∧
      (maintain_contacts_combinatorial_rec S d r res).getD d [] =
        if S.contactOrder ∈ levelOrders res d then res.getD d [] else res.getD d [] ++ [S] := by
  intro r
  induction r with
  | zero =>
    intro S d res hlen
    by_cases hold : S.contactOrder ∈ levelOrders res d
    · rw [mccr_old S d 0 res hold, if_pos hold]
      exact ⟨rfl, fun _ _ => rfl, rfl⟩
    · rw [mccr_new_zero S d res hold, if_neg hold]
      refine ⟨List.length_set _ _ _, fun j hj => getD_set_of_ne _ _ _ _ (by omega), ?_⟩
      exact getD_set_self _ _ _ (by omega)
  | succ r ih =>
    intro S d res hlen
    by_cases hold : S.contactOrder ∈ levelOrders res d
    · rw [mccr_old S d (r + 1) res hold, if_pos hold]
      exact ⟨rfl, fun _ _ => rfl, rfl⟩
    · rw [mccr_new_succ S d r res hold, if_neg hold]
      have key := foldl_keeps
        (fun acc contactRemoved =>
          maintain_contacts_combinatorial_rec (S.RemoveContact contactRemoved) (d + 1) r acc)
        (fun acc => acc.length = res.length ∧
          ∀ j, j < d + 1 → acc.getD j [] = (res.set d (res.getD d [] ++ [S])).getD j [])
        S.contactOrder (res.set d (res.getD d [] ++ [S]))
        (by
          intro acc c _ ⟨hl, hj⟩
          obtain ⟨a, b, _⟩ := ih (S.RemoveContact c) (d + 1) acc (by omega)
          exact ⟨a.trans hl, fun j hjd => (b j hjd).trans (hj j hjd)⟩)
        ⟨List.length_set _ _ _, fun _ _ => rfl⟩
      refine ⟨key.1, fun j hj => ?_, ?_⟩
      · rw [key.2 j (by omega)]
        exact getD_set_of_ne _ _ _ _ (by omega)
      · rw [key.2 d (by omega)]
        exact getD_set_self _ _ _ (by omega)

/-- The contact order of a state once a contact is removed. -/
theorem RemoveContact_contactOrder (S : State) (c : String) :
    (S.RemoveContact c).contactOrder = S.contactOrder.filter (fun l => l != c) := rfl

/-- What the enumeration adds: every contact order of the result was there
before or is the order of the state with some contacts dropped, filed at the
level that counts the drops; nothing is lost and no level gets an order twice. -/
theorem mccr_sound :
    ∀ (r : Nat) (S : State) (d : Nat) (res : List (List State)), d + r < res.length →
      S.contactOrder.Nodup →
      (∀ j o, o ∈ levelOrders res j →
        o ∈ levelOrders (maintain_contacts_combinatorial_rec S d r res) j) ∧
      (∀ j o, o ∈ levelOrders (maintain_contacts_combinatorial_rec S d r res) j →
        o ∈ levelOrders res j ∨ (d ≤ j ∧ j ≤ d + r ∧ IsDrop (j - d) o S.contactOrder)) ∧
      ((∀ j, (levelOrders res j).Nodup) →
        ∀ j, (levelOrders (maintain_contacts_combinatorial_rec S d r res) j).Nodup) := by
  intro r
  induction r with
  | zero =>
    intro S d res hlen hnd
    by_cases hold : S.contactOrder ∈ levelOrders res d
    · rw [mccr_old S d 0 res hold]
      exact ⟨fun _ _ h => h, fun _ _ h => Or.inl h, fun h => h⟩
    · rw [mccr_new_zero S d res hold]
      have hset := fun j => levelOrders_set res d j (res.getD d [] ++ [S]) (by omega)
      refine ⟨fun j o h => ?_, fun j o h => ?_, fun h j => ?_⟩
      · rw [hset j]
        by_cases hj : j = d
        · subst hj
          rw [if_pos rfl, List.map_append]
          exact List.mem_append_left _ h
        · rw [if_neg hj]; exact h
      · rw [hset j] at h
        by_cases hj : j = d
        · subst hj
          rw [if_pos rfl, List.map_append, List.mem_append] at h
          rcases h with h | h
          · exact Or.inl h
          · right
            simp only [List.map_cons, List.map_nil, List.mem_singleton] at h
            subst h
            refine ⟨le_refl _, by omega, ?_⟩
            rw [Nat.sub_self]
            exact IsDrop_refl _
        · rw [if_neg hj] at h; exact Or.inl h
      · rw [hset j]
        by_cases hj : j = d
        · subst hj
          rw [if_pos rfl, List.map_append]
          refine List.Nodup.append (h j) (List.nodup_singleton _) ?_
          intro o ho ho2
          simp only [List.map_cons, List.map_nil, List.mem_singleton] at ho2
          subst ho2
          exact hold ho
        · rw [if_neg hj]; exact h j
  | succ r ih =>
    intro S d res hlen hnd
    by_cases hold : S.contactOrder ∈ levelOrders res d
    · rw [mccr_old S d (r + 1) res hold]
      exact ⟨fun _ _ h => h, fun _ _ h => Or.inl h, fun h => h⟩
    · rw [mccr_new_succ S d r res hold]
      have hset := fun j => levelOrders_set res d j (res.getD d [] ++ [S]) (by omega)
      have key := foldl_keeps
        (fun acc contactRemoved =>
          maintain_contacts_combinatorial_rec (S.RemoveContact contactRemoved) (d + 1) r acc)
        (fun acc => acc.length = res.length ∧
          (∀ j o, o ∈ levelOrders (res.set d (res.getD d [] ++ [S])) j → o ∈ levelOrders acc j) ∧
          (∀ j o, o ∈ levelOrders acc j →
            o ∈ levelOrders (res.set d (res.getD d [] ++ [S])) j ∨
              (d + 1 ≤ j ∧ j ≤ d + 1 + r ∧ IsDrop (j - d) o S.contactOrder)) ∧
          ((∀ j, (levelOrders (res.set d (res.getD d [] ++ [S])) j).Nodup) →
            ∀ j, (levelOrders acc j).Nodup))
        S.contactOrder (res.set d (res.getD d [] ++ [S]))
        (by
          intro acc c hc ⟨hl, hmono, hsound, hnodup⟩
          have hnd2 : (S.RemoveContact c).contactOrder.Nodup := hnd.filter _
          obtain ⟨a1, a2, a3⟩ := ih (S.RemoveContact c) (d + 1) acc (by omega) hnd2
          obtain ⟨b1, _, _⟩ := mccr_shape r (S.RemoveContact c) (d + 1) acc (by omega)
          refine ⟨b1.trans hl, fun j o h => a1 j o (hmono j o h), fun j o h => ?_,
            fun h => a3 (hnodup h)⟩
          rcases a2 j o h with h2 | ⟨h2, h3, h4⟩
          · exact hsound j o h2
          · right
            refine ⟨h2, h3, ?_⟩
            have := IsDrop_trans h4 (IsDrop_remove S.contactOrder c hnd hc)
            have he : 1 + (j - (d + 1)) = j - d := by omega
            rw [he] at this
            exact this)
        ⟨List.length_set _ _ _, fun _ _ h => h, fun _ _ h => Or.inl h, fun h => h⟩
      obtain ⟨_, k1, k2, k3⟩ := key
      have z := ih
      clear z
      refine ⟨fun j o h => k1 j o ?_, fun j o h => ?_, fun h => k3 (fun j => ?_)⟩
      · rw [hset j]
        by_cases hj : j = d
        · subst hj
          rw [if_pos rfl, List.map_append]
          exact List.mem_append_left _ h
        · rw [if_neg hj]; exact h
      · rcases k2 j o h with h2 | ⟨h2, h3, h4⟩
        · rw [hset j] at h2
          by_cases hj : j = d
          · subst hj
            rw [if_pos rfl, List.map_append, List.mem_append] at h2
            rcases h2 with h2 | h2
            · exact Or.inl h2
            · right
              simp only [List.map_cons, List.map_nil, List.mem_singleton] at h2
              subst h2
              refine ⟨le_refl _, by omega, ?_⟩
              rw [Nat.sub_self]
              exact IsDrop_refl _
          · rw [if_neg hj] at h2; exact Or.inl h2
        · exact Or.inr ⟨by omega, by omega, h4⟩
      · rw [hset j]
        by_cases hj : j = d
        · subst hj
          rw [if_pos rfl, List.map_append]
          refine List.Nodup.append (h j) (List.nodup_singleton _) ?_
          intro o ho ho2
          simp only [List.map_cons, List.map_nil, List.mem_singleton] at ho2
          subst ho2
          exact hold ho
        · rw [if_neg hj]; exact h j

/-- Closure under drops survives a call of the enumeration that is monotone,
sound and complete for its state. -/
theorem dropClosed_of_post (S : State) (d r : Nat) (res res1 : List (List State))
    (hclosed : DropClosed d r res)
    (hmono : ∀ j o, o ∈ levelOrders res j → o ∈ levelOrders res1 j)
    (hsound : ∀ j o, o ∈ levelOrders res1 j →
      o ∈ levelOrders res j ∨ (d ≤ j ∧ j ≤ d + r ∧ IsDrop (j - d) o S.contactOrder))
    (hcomp : ∀ i, i ≤ r → ∀ o, IsDrop i o S.contactOrder → o ∈ levelOrders res1 (d + i)) :
    DropClosed d r res1 := by
  intro j i hdj hji o ho o1 h1
  rcases hsound j o ho with h | ⟨_, _, h4⟩
  · exact hmono _ _ (hclosed j i hdj hji o h o1 h1)
  · have h5 := IsDrop_trans h1 h4
    have := hcomp (j - d + i) (by omega) o1 h5
    have he : d + (j - d + i) = j + i := by omega
    rw [he] at this
    exact this

/-- The enumeration is complete: every way of dropping at most `remaining`
contacts from the state is filed at the level that counts the drops. -/
theorem mccr_complete :
    ∀ (r : Nat) (S : State) (d : Nat) (res : List (List State)), d + r < res.length →
      S.contactOrder.Nodup → DropClosed d r res →
      ∀ i, i ≤ r → ∀ o, IsDrop i o S.contactOrder →
        o ∈ levelOrders (maintain_contacts_combinatorial_rec S d r res) (d + i) := by
  intro r
  induction r with
  | zero =>
    intro S d res hlen hnd hclosed i hi o ho
    have hi0 : i = 0 := by omega
    subst hi0
    have := IsDrop_zero_eq ho
    subst this
    by_cases hold : (S.contactOrder) ∈ levelOrders res d
    · rw [mccr_old S d 0 res hold]; exact hold
    · rw [mccr_new_zero S d res hold, levelOrders_set res d _ _ (by omega),
        if_pos (Nat.add_zero d), List.map_append]
      exact List.mem_append_right _ (List.mem_singleton.2 rfl)
  | succ r ih =>
    intro S d res hlen hnd hclosed i hi o ho
    by_cases hold : S.contactOrder ∈ levelOrders res d
    · rw [mccr_old S d (r + 1) res hold]
      have := hclosed d i (le_refl _) (by omega) _ hold o ho
      exact this
    · rw [mccr_new_succ S d r res hold]
      have hset := fun j => levelOrders_set res d j (res.getD d [] ++ [S]) (by omega)
      have hfold : ∀ (cs : List String) (acc : List (List State)),
          (∀ c ∈ cs, c ∈ S.contactOrder) → acc.length = res.length →
          DropClosed (d + 1) r acc →
          (∀ j o, o ∈ levelOrders acc j → o ∈ levelOrders (cs.foldl
            (fun acc contactRemoved => maintain_contacts_combinatorial_rec
              (S.RemoveContact contactRemoved) (d + 1) r acc) acc) j) ∧
          (∀ c ∈ cs, ∀ i, i ≤ r → ∀ o, IsDrop i o (S.RemoveContact c).contactOrder →
            o ∈ levelOrders (cs.foldl
              (fun acc contactRemoved => maintain_contacts_combinatorial_rec
                (S.RemoveContact contactRemoved) (d + 1) r acc) acc) (d + 1 + i)) := by
        intro cs
        induction cs with
        | nil =>
          intro acc _ _ _
          exact ⟨fun _ _ h => h, fun c hc => absurd hc (List.not_mem_nil c)⟩
        | cons c rest ihc =>
          intro acc hsub hl hcl
          simp only [List.foldl_cons]
          have hnd2 : (S.RemoveContact c).contactOrder.Nodup := hnd.filter _
          have hl2 : d + 1 + r < acc.length := by omega
          obtain ⟨a1, a2, _⟩ := mccr_sound r (S.RemoveContact c) (d + 1) acc hl2 hnd2
          have a4 := ih (S.RemoveContact c) (d + 1) acc hl2 hnd2 hcl
          obtain ⟨b1, _, _⟩ := mccr_shape r (S.RemoveContact c) (d + 1) acc hl2
          have hcl2 := dropClosed_of_post (S.RemoveContact c) (d + 1) r acc _ hcl a1 a2 a4
          obtain ⟨m, k⟩ := ihc _ (fun x hx => hsub x (List.mem_cons_of_mem _ hx))
            (b1.trans hl) hcl2
          refine ⟨fun j o h => m j o (a1 j o h), fun x hx i hi o ho => ?_⟩
          rcases List.mem_cons.1 hx with hxc | hxr
          · subst hxc
            exact m _ _ (a4 i hi o ho)
          · exact k x hxr i hi o ho
      have hcl1 : DropClosed (d + 1) r (res.set d (res.getD d [] ++ [S])) := by
        intro j i hdj hji o ho o1 h1
        rw [hset, if_neg (by omega)] at ho ⊢
        exact hclosed j i (by omega) (by omega) o ho o1 h1
      obtain ⟨m, k⟩ := hfold S.contactOrder _ (fun _ h => h) (List.length_set _ _ _) hcl1
      cases i with
      | zero =>
        have := IsDrop_zero_eq ho
        subst this
        apply m
        rw [hset, if_pos (Nat.add_zero d), List.map_append]
        exact List.mem_append_right _ (List.mem_singleton.2 rfl)
      | succ i =>
        obtain ⟨c, hc, hco⟩ := IsDrop_exists_not_mem i o S.contactOrder hnd ho
        have h2 := IsDrop_of_not_mem i o S.contactOrder c hnd hc hco ho
        have := k c hc i (by omega) o h2
        have he : d + 1 + i = d + (i + 1) := by omega
        rw [he] at this
        exact this

theorem getD_replicate_nil (n j : Nat) :
    (List.replicate n ([] : List State)).getD j [] = [] := by
  rw [List.getD_eq_getElem?_getD, List.getElem?_replicate]
  split <;> rfl

theorem flatten_eq (L : List (List State)) : flatten L = L.flatten := by
  have := foldl_append_flatten (fun (a : List State) => a) L []
  simpa [flatten] using this

theorem flatten_orders (L : List (List State)) :
    (L.flatten).map (fun s => s.contactOrder) =
      (List.range L.length).flatMap (levelOrders L) := by
  induction L with
  | nil => rfl
  | cons a t ih =>
    rw [List.flatten_cons, List.map_append, ih, List.length_cons, List.range_succ_eq_map,
      List.flatMap_cons, List.flatMap_map]
    rfl

theorem length_flatMap_range {α : Type} (f : Nat → List α) (N : Nat) :
    ((List.range N).flatMap f).length = ∑ j in Finset.range N, (f j).length := by
  induction N with
  | zero => rfl
  | succ N ih =>
    rw [List.range_succ, List.flatMap_append, List.length_append, ih, Finset.sum_range_succ]
    simp

theorem sum_choose_min (n m : Nat) :
    ∑ k in Finset.range (m + 1), n.choose k = ∑ k in Finset.range (min m n + 1), n.choose k := by
  symm
  apply Finset.sum_subset
  · intro x hx
    simp only [Finset.mem_range] at hx ⊢
    have := min_le_left m n
    omega
  · intro x hx1 hx2
    simp only [Finset.mem_range, not_lt] at hx1 hx2
    apply Nat.choose_eq_zero_of_lt
    rcases le_total m n with h | h
    · rw [min_eq_left h] at hx2
      omega
    · rw [min_eq_right h] at hx2
      omega

/-- The levels the enumeration returns for a state with distinct contacts:
level `j` holds, each once, the contact orders with `j` contacts dropped. -/
theorem mccr_levels (s : State) (m : Nat) (hnd : s.contactOrder.Nodup) :
    (maintain_contacts_combinatorial_rec s 0 m (List.replicate (m + 1) [])).length = m + 1 ∧
    (∀ j o, o ∈ levelOrders
        (maintain_contacts_combinatorial_rec s 0 m (List.replicate (m + 1) [])) j ↔
      j ≤ m ∧ IsDrop j o s.contactOrder) ∧
    (∀ j, (levelOrders
      (maintain_contacts_combinatorial_rec s 0 m (List.replicate (m + 1) [])) j).Nodup) := by
  have hlen : 0 + m < (List.replicate (m + 1) ([] : List State)).length := by
    rw [List.length_replicate]; omega
  have hempty : ∀ j, levelOrders (List.replicate (m + 1) ([] : List State)) j = [] := by
    intro j
    unfold levelOrders
    rw [getD_replicate_nil]
    rfl
  have hclosed : DropClosed 0 m (List.replicate (m + 1) ([] : List State)) := by
    intro j i _ _ o ho
    rw [hempty] at ho
    exact absurd ho (List.not_mem_nil o)
  obtain ⟨a1, _, _⟩ := mccr_shape m s 0 _ hlen
  obtain ⟨_, b2, b3⟩ := mccr_sound m s 0 _ hlen hnd
  have c := mccr_complete m s 0 _ hlen hnd hclosed
  refine ⟨by rw [a1, List.length_replicate], fun j o => ⟨fun h => ?_, fun h => ?_⟩,
    b3 (fun j => by rw [hempty]; exact List.nodup_nil)⟩
  · rcases b2 j o h with h1 | ⟨_, h2, h3⟩
    · rw [hempty] at h1
      exact absurd h1 (List.not_mem_nil o)
    · exact ⟨by omega, h3⟩
  · have := c j h.1 o h.2
    rw [Nat.zero_add] at this
    exact this

theorem levelOrders_length (s : State) (m : Nat) (hnd : s.contactOrder.Nodup) (j : Nat)
    (hj : j ≤ m) :
    (levelOrders (maintain_contacts_combinatorial_rec s 0 m (List.replicate (m + 1) [])) j).length
      = s.contactOrder.length.choose j := by
  obtain ⟨_, hmem, hnodup⟩ := mccr_levels s m hnd
  rcases Nat.lt_or_ge s.contactOrder.length j with hlt | hge
  · rw [Nat.choose_eq_zero_of_lt hlt, List.length_eq_zero, List.eq_nil_iff_forall_not_mem]
    intro o ho
    have := ((hmem j o).1 ho).2.2
    omega
  · have hperm : (levelOrders (maintain_contacts_combinatorial_rec s 0 m
        (List.replicate (m + 1) [])) j).Perm
        (List.sublistsLen (s.contactOrder.length - j) s.contactOrder) := by
      rw [List.perm_ext_iff_of_nodup (hnodup j) (List.nodup_sublistsLen _ hnd)]
      intro o
      rw [hmem j o, List.mem_sublistsLen]
      constructor
      · rintro ⟨_, h1, h2⟩
        exact ⟨h1, by omega⟩
      · rintro ⟨h1, h2⟩
        exact ⟨hj, h1, by omega⟩
    rw [hperm.length_eq, List.length_sublistsLen, Nat.choose_symm hge]

/-! ## Theorems on the enumeration of candidates -/

/-- The contact orders of the queue of candidates, level by level. -/
theorem maintain_contacts_combinatorial_levels (s : State) (m : Nat) :
    (maintain_contacts_combinatorial s m).map (fun c => c.contactOrder) =
      (List.range (maintain_contacts_combinatorial_rec s 0 m
        (List.replicate (m + 1) [])).length).flatMap
        (levelOrders (maintain_contacts_combinatorial_rec s 0 m (List.replicate (m + 1) []))) := by
  unfold maintain_contacts_combinatorial
  rw [flatten_eq, flatten_orders]

/-- Claim C15: for a state whose `contactOrder` holds `n` distinct limbs and a
bound `m` on the broken contacts, the contact orders of the candidates that
`maintain_contacts_combinatorial` returns are exactly the sub-sequences of the
`contactOrder` with `k` entries deleted, for `k` from 0 to `min m n`; no two
candidates have the same contact order, and the queue holds the sum over these
`k` of `C(n, k)` candidates. -/
theorem maintain_contacts_combinatorial_orders (s : State) (m : Nat)
    (hnd : s.contactOrder.Nodup) :
    ((maintain_contacts_combinatorial s m).map (fun c => c.contactOrder)).Nodup ∧
    (∀ l : List String,
      l ∈ (maintain_contacts_combinatorial s m).map (fun c => c.contactOrder) ↔
        ∃ k, k ≤ min m s.contactOrder.length ∧ l.Sublist s.contactOrder ∧
          l.length + k = s.contactOrder.length) ∧
    (maintain_contacts_combinatorial s m).length =
      ∑ k in Finset.range (min m s.contactOrder.length + 1), s.contactOrder.length.choose k := by
  obtain ⟨hlen, hmem, hnodup⟩ := mccr_levels s m hnd
  have hlev := maintain_contacts_combinatorial_levels s m
  rw [hlen] at hlev
  refine ⟨?_, fun l => ?_, ?_⟩
  · rw [hlev, List.nodup_flatMap]
    refine ⟨fun j _ => hnodup j, ?_⟩
    refine (List.pairwise_lt_range (m + 1)).imp ?_
    intro a b hab o hoa hob
    have h1 := ((hmem a o).1 hoa).2.2
    have h2 := ((hmem b o).1 hob).2.2
    omega
  · rw [hlev, List.mem_flatMap]
    constructor
    · rintro ⟨j, _, hj⟩
      obtain ⟨h1, h2, h3⟩ := (hmem j l).1 hj
      exact ⟨j, le_min h1 (by omega), h2, h3⟩
    · rintro ⟨k, hk, h2, h3⟩
      have hkm : k ≤ m := le_trans hk (min_le_left _ _)
      exact ⟨k, List.mem_range.2 (by omega), (hmem k l).2 ⟨hkm, h2, h3⟩⟩
  · have := congrArg List.length hlev
    rw [List.length_map, length_flatMap_range] at this
    rw [this, ← sum_choose_min]
    apply Finset.sum_congr rfl
    intro j hj
    exact levelOrders_length s m hnd j (by have := Finset.mem_range.1 hj; omega)

/-- Claim C15 on an example: three contacts and at most two breaks give the
seven contact orders with at most two of `a`, `b`, `c` dropped. -/
theorem maintain_contacts_combinatorial_orders_witness :
    ((maintain_contacts_combinatorial (exampleStateAt [0] ["a", "b", "c"]) 2).map
      (fun c => c.contactOrder)).Nodup ∧
    (∀ l : List String,
      l ∈ (maintain_contacts_combinatorial (exampleStateAt [0] ["a", "b", "c"]) 2).map
          (fun c => c.contactOrder) ↔
        ∃ k, k ≤ min 2 (exampleStateAt [0] ["a", "b", "c"]).contactOrder.length ∧
          l.Sublist (exampleStateAt [0] ["a", "b", "c"]).contactOrder ∧
          l.length + k = (exampleStateAt [0] ["a", "b", "c"]).contactOrder.length) ∧
    (maintain_contacts_combinatorial (exampleStateAt [0] ["a", "b", "c"]) 2).length =
      ∑ k in Finset.range (min 2 (exampleStateAt [0] ["a", "b", "c"]).contactOrder.length + 1),
        (exampleStateAt [0] ["a", "b", "c"]).contactOrder.length.choose k :=
  maintain_contacts_combinatorial_orders (exampleStateAt [0] ["a", "b", "c"]) 2 (by decide)

/-- Two contacts of a state with distinct contacts leave different contact
orders when removed. -/
theorem RemoveContact_order_ne (S : State) (c1 c2 : String) (h2 : c2 ∈ S.contactOrder)
    (hne : c1 ≠ c2) :
    (S.RemoveContact c2).contactOrder ≠ (S.RemoveContact c1).contactOrder := by
  intro h
  have hin : c2 ∈ (S.RemoveContact c1).contactOrder := by
    rw [RemoveContact_contactOrder, List.mem_filter]
    exact ⟨h2, by simpa using fun hh => hne hh.symm⟩
  rw [← h, RemoveContact_contactOrder, List.mem_filter] at hin
  simp at hin

/-- The level below the state after the loop over its contacts: the states with
one contact removed are appended in the order of the contacts. -/
theorem mccr_fold_level (r : Nat) (S : State) (d : Nat) :
    ∀ (cs : List String) (acc : List (List State)), d + 1 + r < acc.length →
      (∀ c ∈ cs, c ∈ S.contactOrder) → cs.Nodup →
      (∀ c ∈ cs, (S.RemoveContact c).contactOrder ∉ levelOrders acc (d + 1)) →
      (cs.foldl (fun acc contactRemoved =>
          maintain_contacts_combinatorial_rec (S.RemoveContact contactRemoved) (d + 1) r acc)
        acc).getD (d + 1) [] =
        acc.getD (d + 1) [] ++ cs.map (fun c => S.RemoveContact c) := by
  intro cs
  induction cs with
  | nil => intro acc _ _ _ _; simp
  | cons c rest ih =>
    intro acc hlen hsub hnd hnew
    simp only [List.foldl_cons, List.map_cons]
    obtain ⟨a1, _, a3⟩ := mccr_shape r (S.RemoveContact c) (d + 1) acc hlen
    rw [if_neg (hnew c (List.mem_cons_self _ _))] at a3
    have hcr : c ∉ rest := (List.nodup_cons.1 hnd).1
    rw [ih _ (by omega) (fun x hx => hsub x (List.mem_cons_of_mem _ hx)) (List.nodup_cons.1 hnd).2
      ?_, a3, List.append_assoc]
    · rfl
    · intro x hx hmem
      unfold levelOrders at hmem
      rw [a3, List.map_append, List.mem_append] at hmem
      rcases hmem with hmem | hmem
      · exact hnew x (List.mem_cons_of_mem _ hx) hmem
      · simp only [List.map_cons, List.map_nil, List.mem_singleton] at hmem
        refine RemoveContact_order_ne S c x (hsub x (List.mem_cons_of_mem _ hx)) ?_ hmem
        intro hcx
        exact hcr (hcx ▸ hx)

/-- The first two levels of the enumeration of a state with distinct contacts:
the state itself, then the states with one contact removed, in the order of the
contacts. -/
theorem mccr_first_levels (s : State) (m : Nat) (hnd : s.contactOrder.Nodup) :
    (maintain_contacts_combinatorial_rec s 0 m (List.replicate (m + 1) [])).getD 0 [] = [s] ∧
    (1 ≤ m →
      (maintain_contacts_combinatorial_rec s 0 m (List.replicate (m + 1) [])).getD 1 [] =
        s.contactOrder.map (fun c => s.RemoveContact c)) := by
  have hlen : 0 + m < (List.replicate (m + 1) ([] : List State)).length := by
    rw [List.length_replicate]; omega
  have hempty : ∀ j, levelOrders (List.replicate (m + 1) ([] : List State)) j = [] := by
    intro j
    unfold levelOrders
    rw [getD_replicate_nil]
    rfl
  have hnew : s.contactOrder ∉ levelOrders (List.replicate (m + 1) ([] : List State)) 0 := by
    rw [hempty]; exact List.not_mem_nil _
  constructor
  · obtain ⟨_, _, a3⟩ := mccr_shape m s 0 _ hlen
    rw [a3, if_neg hnew, getD_replicate_nil]
    rfl
  · intro hm
    obtain ⟨r, rfl⟩ : ∃ r, m = r + 1 := ⟨m - 1, by omega⟩
    rw [mccr_new_succ s 0 r _ hnew]
    have hl2 : 0 + 1 + r <
        ((List.replicate (r + 1 + 1) ([] : List State)).set 0
          ((List.replicate (r + 1 + 1) ([] : List State)).getD 0 [] ++ [s])).length := by
      rw [List.length_set, List.length_replicate]; omega
    have hlev1 : ((List.replicate (r + 1 + 1) ([] : List State)).set 0
          ((List.replicate (r + 1 + 1) ([] : List State)).getD 0 [] ++ [s])).getD 1 [] = [] := by
      rw [getD_set_of_ne _ _ _ _ (by omega), getD_replicate_nil]
    have := mccr_fold_level r s 0 s.contactOrder _ hl2 (fun _ h => h) hnd (by
      intro c _ hmem
      unfold levelOrders at hmem
      rw [hlev1] at hmem
      exact absurd hmem (List.not_mem_nil _))
    rw [this, hlev1, List.nil_append]

/-- The states of the levels from the third on hold at least two contacts less
than the state. -/
theorem mccr_deep_levels (s : State) (m : Nat) (hnd : s.contactOrder.Nodup)
    (l0 l1 : List State) (rest : List (List State))
    (hR : maintain_contacts_combinatorial_rec s 0 m (List.replicate (m + 1) []) =
      l0 :: l1 :: rest) :
    ∀ c ∈ rest.flatten, c.contactOrder.length + 2 ≤ s.contactOrder.length := by
  intro c hc
  obtain ⟨_, hmem, _⟩ := mccr_levels s m hnd
  rw [List.mem_flatten] at hc
  obtain ⟨lvl, hlvl, hcl⟩ := hc
  obtain ⟨k, hk, hget⟩ := List.getElem_of_mem hlvl
  have hin : c.contactOrder ∈ levelOrders
      (maintain_contacts_combinatorial_rec s 0 m (List.replicate (m + 1) [])) (k + 2) := by
    unfold levelOrders
    rw [hR, List.getD_cons_succ, List.getD_cons_succ, List.getD_eq_getElem _ _ hk, hget]
    exact List.mem_map_of_mem _ hcl
  have := ((hmem _ _).1 hin).2.2
  omega

/-- The queue of candidates of a state with distinct contacts is sorted: the
number of contacts never increases along it. -/
theorem candidates_sorted_by_contacts (s : State) (m : Nat) (hnd : s.contactOrder.Nodup) :
    List.Pairwise (fun a b => b.contactOrder.length ≤ a.contactOrder.length)
      (maintain_contacts_combinatorial s m) := by
  obtain ⟨hlen, hmem, _⟩ := mccr_levels s m hnd
  have hlev := maintain_contacts_combinatorial_levels s m
  rw [hlen] at hlev
  have hp : List.Pairwise (fun a b : List String => b.length ≤ a.length)
      ((maintain_contacts_combinatorial s m).map (fun c => c.contactOrder)) := by
    rw [hlev, List.pairwise_flatMap]
    constructor
    · intro j _
      apply List.pairwise_of_forall_mem_list
      intro a ha b hb
      have h1 := ((hmem j a).1 ha).2.2
      have h2 := ((hmem j b).1 hb).2.2
      omega
    · refine (List.pairwise_lt_range (m + 1)).imp ?_
      intro a b hab x hx y hy
      have h1 := ((hmem a x).1 hx).2.2
      have h2 := ((hmem b y).1 hy).2.2
      omega
  exact List.pairwise_map.1 hp

/-- Claim C16: in the queue that `maintain_contacts_combinatorial` returns for a
state with distinct contacts, the number of retained contacts never increases
along the queue, the first candidate is the input state, and when a break is
allowed the candidates with one drop follow it in the order of `contactOrder`
(the one that drops the oldest contact first), before every candidate with two
drops or more. -/
theorem maintain_contacts_combinatorial_queue_order (s : State) (m : Nat)
    (hnd : s.contactOrder.Nodup) :
    List.Pairwise (fun a b => b.contactOrder.length ≤ a.contactOrder.length)
      (maintain_contacts_combinatorial s m) ∧
    (maintain_contacts_combinatorial s m).head? = some s ∧
    (1 ≤ m → ∃ rest, maintain_contacts_combinatorial s m =
        s :: (s.contactOrder.map (fun l => s.RemoveContact l) ++ rest) ∧
      ∀ c ∈ rest, c.contactOrder.length + 2 ≤ s.contactOrder.length) := by
  obtain ⟨hlen, hmem, _⟩ := mccr_levels s m hnd
  obtain ⟨h0, h1⟩ := mccr_first_levels s m hnd
  have hlev := maintain_contacts_combinatorial_levels s m
  rw [hlen] at hlev
  refine ⟨?_, ?_, ?_⟩
  · exact candidates_sorted_by_contacts s m hnd
  · unfold maintain_contacts_combinatorial
    rw [flatten_eq]
    match hR : maintain_contacts_combinatorial_rec s 0 m (List.replicate (m + 1) []) with
    | [] => rw [hR] at hlen; simp at hlen
    | l0 :: rest =>
      rw [hR, List.getD_cons_zero] at h0
      rw [h0]
      rfl
  · intro hm
    unfold maintain_contacts_combinatorial
    rw [flatten_eq]
    match hR : maintain_contacts_combinatorial_rec s 0 m (List.replicate (m + 1) []) with
    | [] => rw [hR] at hlen; simp at hlen
    | [_] => rw [hR] at hlen; simp at hlen; omega
    | l0 :: l1 :: rest =>
      have hd := mccr_deep_levels s m hnd l0 l1 rest hR
      have h1 := h1 hm
      rw [hR, List.getD_cons_zero] at h0
      rw [hR, List.getD_cons_succ, List.getD_cons_zero] at h1
      rw [h0, h1]
      exact ⟨rest.flatten, rfl, hd⟩

/-- Claim C16 on an example: the queue for the contacts `a`, `b`, `c` and at
most two breaks starts with the state, then the states without `a`, without
`b` and without `c`. -/
theorem maintain_contacts_combinatorial_queue_order_witness :
    List.Pairwise (fun a b => b.contactOrder.length ≤ a.contactOrder.length)
      (maintain_contacts_combinatorial (exampleStateAt [0] ["a", "b", "c"]) 2) ∧
    (maintain_contacts_combinatorial (exampleStateAt [0] ["a", "b", "c"]) 2).head? =
      some (exampleStateAt [0] ["a", "b", "c"]) ∧
    (1 ≤ 2 → ∃ rest, maintain_contacts_combinatorial (exampleStateAt [0] ["a", "b", "c"]) 2 =
        exampleStateAt [0] ["a", "b", "c"] ::
          ((exampleStateAt [0] ["a", "b", "c"]).contactOrder.map
            (fun l => (exampleStateAt [0] ["a", "b", "c"]).RemoveContact l) ++ rest) ∧
      ∀ c ∈ rest, c.contactOrder.length + 2 ≤
        (exampleStateAt [0] ["a", "b", "c"]).contactOrder.length) :=
  maintain_contacts_combinatorial_queue_order (exampleStateAt [0] ["a", "b", "c"]) 2 (by decide)

/-! ## Lemmas on the checks of `maintain_contacts` -/

/-- The loop of `maintain_contacts` runs the checks on the candidate at the
front of the queue and goes on with the report they give. -/
theorem maintain_contacts_loop_cons (h : ContactGenHelper) (cState : State)
    (candidates : List State) (rep : ProjectionReport) (hrep : rep.success = false) :
    maintain_contacts_loop h (cState :: candidates) rep =
      (checkCandidate h cState >>= fun r => maintain_contacts_loop h candidates r) := by
  rw [maintain_contacts_loop]
  simp only [hrep, Bool.false_eq_true, if_false, checkCandidate]
  cases projectToRootConfiguration h.fullBody h.workingState.configuration cState with
  | error e => rfl
  | ok r => rfl

/-- The loop of `maintain_contacts` stops at once on a report with `success_`
set. -/
theorem maintain_contacts_loop_done (h : ContactGenHelper) (candidates : List State)
    (rep : ProjectionReport) (hrep : rep.success = true) :
    maintain_contacts_loop h candidates rep = Except.ok (candidates, rep) := by
  cases candidates with
  | nil => rfl
  | cons c rest =>
    rw [maintain_contacts_loop]
    simp only [hrep, if_true]
    rfl

/-- What the loop of `maintain_contacts` returns from a report without success:
on success the queue splits into the candidates that failed, the one whose
checks gave the report and the candidates left; otherwise every candidate
failed and the queue is empty. -/
theorem maintain_contacts_loop_spec (h : ContactGenHelper) :
    ∀ (queue : List State) (rep0 : ProjectionReport) (left : List State)
      (rep : ProjectionReport), rep0.success = false →
      maintain_contacts_loop h queue rep0 = Except.ok (left, rep) →
      (rep.success = true → ∃ pre c, queue = pre ++ c :: left ∧
        (∀ x ∈ pre, failsChecks h x) ∧ checkCandidate h c = Except.ok rep) ∧
      (rep.success = false → left = [] ∧ ∀ x ∈ queue, failsChecks h x) := by
  intro queue
  induction queue with
  | nil =>
    intro rep0 left rep h0 hl
    simp only [maintain_contacts_loop, pure, Except.pure, Except.ok.injEq, Prod.mk.injEq] at hl
    obtain ⟨hl1, hl2⟩ := hl
    subst hl1 hl2
    refine ⟨fun hs => ?_, fun _ => ⟨rfl, fun x hx => absurd hx (List.not_mem_nil x)⟩⟩
    rw [h0] at hs
    exact absurd hs (by decide)
  | cons c rest ih =>
    intro rep0 left rep h0 hl
    rw [maintain_contacts_loop_cons h c rest rep0 h0] at hl
    have hl2 := (except_bind_eq_ok _ _ _).1 hl
    obtain ⟨r, hr, hl3⟩ := hl2
    cases hrs : r.success with
    | true =>
      rw [maintain_contacts_loop_done h rest r hrs] at hl3
      simp only [Except.ok.injEq, Prod.mk.injEq] at hl3
      obtain ⟨e1, e2⟩ := hl3
      subst e1 e2
      refine ⟨fun _ => ⟨[], c, rfl, fun x hx => absurd hx (List.not_mem_nil x), hr⟩, fun hf => ?_⟩
      rw [hrs] at hf
      exact absurd hf (by decide)
    | false =>
      obtain ⟨i1, i2⟩ := ih r left rep hrs hl3
      have hcf : failsChecks h c := ⟨r, hr, hrs⟩
      refine ⟨fun hs => ?_, fun hf => ?_⟩
      · obtain ⟨pre, c1, hq, hpre, hc1⟩ := i1 hs
        refine ⟨c :: pre, c1, by rw [hq]; rfl, fun x hx => ?_, hc1⟩
        rcases List.mem_cons.1 hx with hx | hx
        · rw [hx]; exact hcf
        · exact hpre x hx
      · obtain ⟨j1, j2⟩ := i2 hf
        refine ⟨j1, fun x hx => ?_⟩
        rcases List.mem_cons.1 hx with hx | hx
        · rw [hx]; exact hcf
        · exact j2 x hx

theorem mem_keys_mapErase {α : Type} (c l : String) (m : List (String × α)) :
    l ∈ (mapErase c m).map Prod.fst ↔ l ∈ m.map Prod.fst ∧ l ≠ c := by
  unfold mapErase
  simp only [List.mem_map, List.mem_filter, bne_iff_ne, ne_eq]
  constructor
  · rintro ⟨kv, ⟨h1, h2⟩, h3⟩
    exact ⟨⟨kv, h1, h3⟩, h3 ▸ h2⟩
  · rintro ⟨⟨kv, h1, h3⟩, h2⟩
    exact ⟨kv, ⟨h1, h3 ▸ h2⟩, h3⟩

theorem mem_activeContacts_RemoveContact (s : State) (c l : String) :
    l ∈ activeContacts (s.RemoveContact c) ↔ l ∈ activeContacts s ∧ l ≠ c := by
  unfold activeContacts State.RemoveContact mapErase
  simp only [List.mem_map, List.mem_filter, bne_iff_ne, ne_eq]
  constructor
  · rintro ⟨kv, ⟨⟨h1, h2⟩, h4⟩, h3⟩
    exact ⟨⟨kv, ⟨h1, h4⟩, h3⟩, h3 ▸ h2⟩
  · rintro ⟨⟨kv, ⟨h1, h4⟩, h3⟩, h2⟩
    exact ⟨kv, ⟨⟨h1, h3 ▸ h2⟩, h4⟩, h3⟩

theorem SameLimbs_remove (a b : List String) (c : String) (p : String → Prop)
    (hp : ∀ l, p l ↔ l ∈ a ∧ l ≠ c) (h : SameLimbs a b) :
    (∀ l, p l → l ∈ b.filter (fun x => x != c)) ∧
      (∀ l, l ∈ b.filter (fun x => x != c) → p l) := by
  constructor
  · intro l hl
    obtain ⟨h1, h2⟩ := (hp l).1 hl
    rw [List.mem_filter]
    exact ⟨h.1 l h1, by simpa using h2⟩
  · intro l hl
    rw [List.mem_filter] at hl
    exact (hp l).2 ⟨h.2 l hl.1, by simpa using hl.2⟩

/-- The invariant of `State` survives the removal of a contact. -/
theorem StateInvariant_RemoveContact (s : State) (c : String) (h : StateInvariant s) :
    StateInvariant (s.RemoveContact c) := by
  obtain ⟨h1, h2, h3, h4, h5⟩ := h
  refine ⟨h1.filter _, ?_, ?_, ?_, ?_⟩
  · exact SameLimbs_remove _ _ c (fun l => l ∈ activeContacts (s.RemoveContact c))
      (mem_activeContacts_RemoveContact s c) h2
  · exact SameLimbs_remove _ _ c _ (fun l => mem_keys_mapErase c l s.contactPositions) h3
  · exact SameLimbs_remove _ _ c _ (fun l => mem_keys_mapErase c l s.contactNormals) h4
  · exact SameLimbs_remove _ _ c _ (fun l => mem_keys_mapErase c l s.contactRotation) h5

/-- A property of states that the removal of a contact keeps holds for every
state the enumeration files. -/
theorem mccr_all (P : State → Prop) (hP : ∀ S c, P S → P (S.RemoveContact c)) :
    ∀ (r : Nat) (S : State) (d : Nat) (res : List (List State)), d + r < res.length → P S →
      (∀ j, ∀ x ∈ res.getD j [], P x) →
      ∀ j, ∀ x ∈ (maintain_contacts_combinatorial_rec S d r res).getD j [], P x := by
  have hpush : ∀ (S : State) (d : Nat) (res : List (List State)), d < res.length → P S →
      (∀ j, ∀ x ∈ res.getD j [], P x) →
      ∀ j, ∀ x ∈ (res.set d (res.getD d [] ++ [S])).getD j [], P x := by
    intro S d res hlen hS hres j x hx
    by_cases hj : j = d
    · subst hj
      rw [getD_set_self _ _ _ hlen, List.mem_append] at hx
      rcases hx with hx | hx
      · exact hres j x hx
      · rw [List.mem_singleton.1 hx]; exact hS
    · rw [getD_set_of_ne _ _ _ _ hj] at hx
      exact hres j x hx
  intro r
  induction r with
  | zero =>
    intro S d res hlen hS hres
    by_cases hold : S.contactOrder ∈ levelOrders res d
    · rw [mccr_old S d 0 res hold]; exact hres
    · rw [mccr_new_zero S d res hold]
      exact hpush S d res (by omega) hS hres
  | succ r ih =>
    intro S d res hlen hS hres
    by_cases hold : S.contactOrder ∈ levelOrders res d
    · rw [mccr_old S d (r + 1) res hold]; exact hres
    · rw [mccr_new_succ S d r res hold]
      have key := foldl_keeps
        (fun acc contactRemoved =>
          maintain_contacts_combinatorial_rec (S.RemoveContact contactRemoved) (d + 1) r acc)
        (fun acc => acc.length = res.length ∧ ∀ j, ∀ x ∈ acc.getD j [], P x)
        S.contactOrder (res.set d (res.getD d [] ++ [S]))
        (by
          intro acc c _ ⟨hl, hacc⟩
          obtain ⟨b1, _, _⟩ := mccr_shape r (S.RemoveContact c) (d + 1) acc (by omega)
          exact ⟨b1.trans hl, ih (S.RemoveContact c) (d + 1) acc (by omega) (hP S c hS) hacc⟩)
        ⟨List.length_set _ _ _, hpush S d res (by omega) hS hres⟩
      exact key.2

/-- Every candidate of the queue satisfies a property of the state that the
removal of a contact keeps. -/
theorem maintain_contacts_combinatorial_all (P : State → Prop)
    (hP : ∀ S c, P S → P (S.RemoveContact c)) (s : State) (m : Nat) (hs : P s) :
    ∀ x ∈ maintain_contacts_combinatorial s m, P x := by
  intro x hx
  unfold maintain_contacts_combinatorial at hx
  rw [flatten_eq, List.mem_flatten] at hx
  obtain ⟨lvl, hlvl, hxl⟩ := hx
  obtain ⟨k, hk, hget⟩ := List.getElem_of_mem hlvl
  have := mccr_all P hP m s 0 (List.replicate (m + 1) []) (by rw [List.length_replicate]; omega) hs
    (fun j y hy => by rw [getD_replicate_nil] at hy; exact absurd hy (List.not_mem_nil y)) k x
  apply this
  rw [List.getD_eq_getElem _ _ hk, hget]
  exact hxl

theorem mapAt_ok {α : Type} (m : List (String × α)) (k : String)
    (h : k ∈ m.map Prod.fst) : ∃ v, mapAt m k = Except.ok v := by
  unfold mapAt
  cases hl : m.lookup k with
  | some v => exact ⟨v, rfl⟩
  | none =>
    exfalso
    rw [List.lookup_eq_none_iff] at hl
    rw [List.mem_map] at h
    obtain ⟨kv, hkv, hk⟩ := h
    have := hl kv hkv
    rw [hk] at this
    simp at this

/-- The constraints are built without a failed read when the limbs to pin are
keys of the maps of positions and rotations. -/
theorem CreateContactConstraints_total (fb : FullBody) (s : State) :
    ∀ fixed : List String,
      (∀ l ∈ fixed, l ∈ s.contactPositions.map Prod.fst ∧ l ∈ s.contactRotation.map Prod.fst) →
      ∃ cs, CreateContactConstraints fb s fixed = Except.ok cs := by
  intro fixed
  induction fixed with
  | nil => intro _; exact ⟨[], rfl⟩
  | cons e rest ih =>
    intro hk
    obtain ⟨h1, h2⟩ := hk e (List.mem_cons_self _ _)
    obtain ⟨p, hp⟩ := mapAt_ok _ _ h1
    obtain ⟨q, hq⟩ := mapAt_ok _ _ h2
    obtain ⟨cs, hcs⟩ := ih (fun l hl => hk l (List.mem_cons_of_mem _ hl))
    rw [CreateContactConstraints, hp]
    cases h6 : fb.is6DOF e with
    | true =>
      simp only [if_true, hq, hcs]
      exact ⟨_, rfl⟩
    | false =>
      simp only [Bool.false_eq_true, if_false, hcs]
      exact ⟨_, rfl⟩

/-- The checks on a candidate that satisfies the invariant of `State` end with
a report. -/
theorem checkCandidate_total (h : ContactGenHelper) (c : State) (hinv : StateInvariant c) :
    ∃ r, checkCandidate h c = Except.ok r := by
  obtain ⟨_, _, h3, _, h5⟩ := hinv
  obtain ⟨cs, hcs⟩ := CreateContactConstraints_total h.fullBody c c.contactOrder
    (fun l hl => ⟨h3.2 l hl, h5.2 l hl⟩)
  unfold checkCandidate projectToRootConfiguration
  rw [hcs]
  exact ⟨_, rfl⟩

/-- The report of the checks on a candidate holds the contacts of the
candidate. -/
theorem checkCandidate_same (h : ContactGenHelper) (c : State) (rep : ProjectionReport)
    (hr : checkCandidate h c = Except.ok rep) : SameContacts rep.result c := by
  unfold checkCandidate at hr
  rw [except_bind_eq_ok] at hr
  obtain ⟨rep1, hp, hr⟩ := hr
  have hs := projectToRootConfiguration_same _ _ _ _ hp
  simp only [pure, Except.pure, Except.ok.injEq] at hr
  rw [← hr]
  have h2 : SameContacts (if rep1.success = true then genColFree h rep1 else rep1).result c := by
    split
    · exact (genColFreeLoop_same _ _ _).trans hs
    · exact hs
  have key : ∀ r : ProjectionReport, SameContacts r.result c →
      SameContacts (if r.success = true then
        { r with success := h.fullBody.validate r.result.configuration } else r).result c := by
    intro r hr
    split
    · exact hr
    · exact hr
  exact key _ h2

/-- The loop of `maintain_contacts` returns when the checks on every candidate
of the queue end with a report. -/
theorem maintain_contacts_loop_total (h : ContactGenHelper) :
    ∀ (queue : List State) (rep0 : ProjectionReport),
      (∀ x ∈ queue, ∃ r, checkCandidate h x = Except.ok r) →
      ∃ res, maintain_contacts_loop h queue rep0 = Except.ok res := by
  intro queue
  induction queue with
  | nil => intro rep0 _; exact ⟨([], rep0), rfl⟩
  | cons c rest ih =>
    intro rep0 hq
    cases h0 : rep0.success with
    | true => exact ⟨_, maintain_contacts_loop_done h _ rep0 h0⟩
    | false =>
      obtain ⟨r, hr⟩ := hq c (List.mem_cons_self _ _)
      obtain ⟨res, hres⟩ := ih r (fun x hx => hq x (List.mem_cons_of_mem _ hx))
      refine ⟨res, ?_⟩
      rw [maintain_contacts_loop_cons h c rest rep0 h0, hr]
      exact hres

theorem failsChecks_not_passes (h : ContactGenHelper) (c : State) (hf : failsChecks h c) :
    ¬ passesChecks h c := by
  obtain ⟨r, hr, hs⟩ := hf
  rintro ⟨r2, hr2, hs2⟩
  rw [hr] at hr2
  simp only [Except.ok.injEq] at hr2
  rw [hr2, hs2] at hs
  exact absurd hs (by decide)

/-! ## Theorems on the first passing candidate -/

/-- Claim C17: with `checkStabilityMaintain` false, an empty queue on entry and
a working state that satisfies the invariant of `State`, `maintain_contacts`
returns, and it reports success exactly when some candidate of the enumeration
passes the projection on the target root, the sweep of the free limbs and the
validation of the whole body; the report is then the one of the first such
candidate of the queue, the queue left is what follows it, and no candidate
with more contacts than the returned state passes the checks. -/
theorem maintain_contacts_first_passing (h : ContactGenHelper)
    (hc : h.checkStabilityMaintain = false) (he : h.candidates = [])
    (hinv : StateInvariant h.workingState) :
    ∃ rep h1, maintain_contacts h = Except.ok (rep, h1) ∧
      (rep.success = true ↔
        ∃ c ∈ maintain_contacts_combinatorial h.workingState h.maxContactBreaks,
          passesChecks h c) ∧
      (rep.success = true → ∃ pre c,
        maintain_contacts_combinatorial h.workingState h.maxContactBreaks =
          pre ++ c :: h1.candidates ∧
        (∀ x ∈ pre, ¬ passesChecks h x) ∧ checkCandidate h c = Except.ok rep ∧
        SameContacts rep.result c) ∧
      (rep.success = true →
        ∀ x ∈ maintain_contacts_combinatorial h.workingState h.maxContactBreaks,
          rep.result.contactOrder.length < x.contactOrder.length → ¬ passesChecks h x) := by
  have hall := maintain_contacts_combinatorial_all StateInvariant
    StateInvariant_RemoveContact h.workingState h.maxContactBreaks hinv
  obtain ⟨⟨left, rep⟩, hl⟩ := maintain_contacts_loop_total h
    (maintain_contacts_combinatorial h.workingState h.maxContactBreaks) ProjectionReport.default
    (fun x hx => checkCandidate_total h x (hall x hx))
  obtain ⟨s1, s2⟩ := maintain_contacts_loop_spec h _ ProjectionReport.default left rep rfl hl
  have hm : maintain_contacts h = Except.ok (rep, { h with candidates := left }) := by
    unfold maintain_contacts
    simp only [he, List.isEmpty_nil, if_true, hl, hc, Bool.and_false, Bool.false_eq_true,
      if_false, bind, Except.bind, pure, Except.pure]
  have hsplit : rep.success = true → ∃ pre c,
      maintain_contacts_combinatorial h.workingState h.maxContactBreaks = pre ++ c :: left ∧
      (∀ x ∈ pre, ¬ passesChecks h x) ∧ checkCandidate h c = Except.ok rep ∧
      SameContacts rep.result c := by
    intro hs
    obtain ⟨pre, c, hq, hpre, hcc⟩ := s1 hs
    exact ⟨pre, c, hq, fun x hx => failsChecks_not_passes h x (hpre x hx), hcc,
      checkCandidate_same h c rep hcc⟩
  refine ⟨rep, { h with candidates := left }, hm, ⟨fun hs => ?_, fun hp => ?_⟩, hsplit,
    fun hs x hx hlt => ?_⟩
  · obtain ⟨pre, c, hq, _, hcc⟩ := s1 hs
    refine ⟨c, ?_, rep, hcc, hs⟩
    rw [hq]
    exact List.mem_append_right _ (List.mem_cons_self _ _)
  · obtain ⟨c, hcq, hpass⟩ := hp
    cases hs : rep.success with
    | true => rfl
    | false => exact absurd hpass (failsChecks_not_passes h c ((s2 hs).2 c hcq))
  · obtain ⟨pre, c, hq, hpre, _, hsame⟩ := hsplit hs
    have hord := (candidates_sorted_by_contacts h.workingState
      h.maxContactBreaks hinv.1)
    rw [hq, List.pairwise_append] at hord
    obtain ⟨_, hcl, _⟩ := hord
    rw [hq, List.mem_append] at hx
    rw [hsame.1] at hlt
    rcases hx with hx | hx
    · exact hpre x hx
    · exfalso
      rcases List.mem_cons.1 hx with hx | hx
      · rw [hx] at hlt; omega
      · have := (List.pairwise_cons.1 hcl).1 x hx
        omega

/-- Claim C17 on an example: for `exampleRobot` with the contacts `a` and `b`
and one break allowed, `maintain_contacts` returns and its report obeys the
rule of the first passing candidate. -/
theorem maintain_contacts_first_passing_witness :
    ∃ rep h1, maintain_contacts (exampleHelper ["a", "b"] 1 1 false false false) =
        Except.ok (rep, h1) ∧
      (rep.success = true ↔
        ∃ c ∈ maintain_contacts_combinatorial
            (exampleHelper ["a", "b"] 1 1 false false false).workingState
            (exampleHelper ["a", "b"] 1 1 false false false).maxContactBreaks,
          passesChecks (exampleHelper ["a", "b"] 1 1 false false false) c) ∧
      (rep.success = true → ∃ pre c,
        maintain_contacts_combinatorial
            (exampleHelper ["a", "b"] 1 1 false false false).workingState
            (exampleHelper ["a", "b"] 1 1 false false false).maxContactBreaks =
          pre ++ c :: h1.candidates ∧
        (∀ x ∈ pre, ¬ passesChecks (exampleHelper ["a", "b"] 1 1 false false false) x) ∧
        checkCandidate (exampleHelper ["a", "b"] 1 1 false false false) c = Except.ok rep ∧
        SameContacts rep.result c) ∧
      (rep.success = true →
        ∀ x ∈ maintain_contacts_combinatorial
            (exampleHelper ["a", "b"] 1 1 false false false).workingState
            (exampleHelper ["a", "b"] 1 1 false false false).maxContactBreaks,
          rep.result.contactOrder.length < x.contactOrder.length →
            ¬ passesChecks (exampleHelper ["a", "b"] 1 1 false false false) x) :=
  maintain_contacts_first_passing (exampleHelper ["a", "b"] 1 1 false false false) rfl rfl
    (by decide)

/-! ## Theorems on `FilterObsolete` -/

/-- The frames the first loop of `FilterObsolete` keeps: those of the frames
before the last whose test against the frame just before them holds. -/
theorem filterObsoleteLoop_eq_filter {τ σ : Type} (ops : FilterOps σ) :
    ∀ (l : List (τ × σ)) (m1 : σ),
      filterObsoleteLoop ops m1 l =
        ((l.dropLast.zip (m1 :: l.map Prod.snd)).filter
          (fun p => obsoleteKeep ops p.2 p.1.2)).map Prod.fst := by
  intro l
  induction l with
  | nil => intro m1; rfl
  | cons cur rest ih =>
    intro m1
    cases rest with
    | nil => rfl
    | cons p1 rest =>
      rw [filterObsoleteLoop, ih cur.2]
      simp only [List.dropLast_cons₂, List.map_cons, List.zip_cons_cons, List.filter_cons]
      split <;> rfl

theorem zip_append_right_of_le {α β : Type} :
    ∀ (l : List α) (l2 extra : List β), l.length ≤ l2.length →
      l.zip (l2 ++ extra) = l.zip l2 := by
  intro l
  induction l with
  | nil => intro l2 extra _; simp
  | cons a t ih =>
    intro l2 extra h
    cases l2 with
    | nil => simp at h
    | cons b t2 =>
      simp only [List.cons_append, List.zip_cons_cons, List.cons.injEq, true_and]
      exact ih t2 extra (by simpa using h)

/-- Claim C23 (amended): `FilterObsolete` keeps the first and the last frame, and
keeps an intermediate frame exactly when its configuration differs from that of
the frame before it in the input and it breaks or creates a contact relative to
that frame; so it drops an intermediate frame whose configuration is the same,
and one that changes no contact, whatever the other test says. -/
theorem FilterObsolete_keeps_iff {τ σ : Type} (ops : FilterOps σ) (front back : τ × σ)
    (mid : List (τ × σ)) :
    FilterObsolete ops (front :: (mid ++ [back])) =
      front :: (((mid.zip (front.2 :: mid.map Prod.snd)).filter
          (fun p => ops.cfgDiffers p.1.2 p.2 &&
            !((ops.contactBreaks p.1.2 p.2).isEmpty &&
              (ops.contactCreations p.1.2 p.2).isEmpty))).map Prod.fst ++ [back]) := by
  cases mid with
  | nil => rfl
  | cons b mid =>
    have hlen : ¬ (front :: (b :: mid ++ [back])).length < 3 := by
      simp only [List.length_cons, List.length_append, List.length_singleton]
      omega
    unfold FilterObsolete
    rw [if_neg hlen]
    have hlast : (b :: mid ++ [back]).getLast? = some back := by
      rw [List.getLast?_append]
      rfl
    simp only [hlast]
    rw [filterObsoleteLoop_eq_filter]
    have hd : (b :: mid ++ [back]).dropLast = b :: mid := by
      rw [List.dropLast_concat]
    rw [hd]
    have hz : (b :: mid).zip (front.2 :: (b :: mid ++ [back]).map Prod.snd) =
        (b :: mid).zip (front.2 :: (b :: mid).map Prod.snd) := by
      rw [List.map_append, ← List.cons_append]
      exact zip_append_right_of_le _ _ _ (by simp)
    rw [hz]
    rfl

/-- Counterexample to C23: an intermediate frame that creates the contact of
limb `a` at the configuration of the frame before it is dropped, and so is one
that moves without changing a contact. -/
theorem FilterObsolete_keeps_iff_counterexample :
    FilterObsolete stateFilterOps
        [((0 : ℚ), exampleStateAt [0] []), (1, exampleStateAt [0] ["a"]),
          (2, exampleStateAt [5] ["a"])] =
      [(0, exampleStateAt [0] []), (2, exampleStateAt [5] ["a"])] ∧
    stateFilterOps.contactCreations (exampleStateAt [0] ["a"]) (exampleStateAt [0] []) = ["a"] ∧
    FilterObsolete stateFilterOps
        [((0 : ℚ), exampleStateAt [0] ["a"]), (1, exampleStateAt [3] ["a"]),
          (2, exampleStateAt [5] [])] =
      [(0, exampleStateAt [0] ["a"]), (2, exampleStateAt [5] [])] ∧
    stateFilterOps.cfgDiffers (exampleStateAt [3] ["a"]) (exampleStateAt [0] ["a"]) = true :=
  ⟨by decide!, by decide!, by decide!, by decide!⟩

/-! ## Theorems on the failures and the retries of `Interpolate` -/

/-- Claim C24 (amended): a turn of the loop of `Interpolate` whose report counts
as a failure (`allowFailure` is true and the report has no success or has
`multipleBreaks`) returns early as soon as one failure was counted before,
however many turns ago; a turn that goes on never resets the count of failures;
and the loop returns early only on such a second failure or on the 21st
repositioning. -/
theorem interpolateBody_failure_count (cc : ComputeContactsOracle) (configs : List Config)
    (timeStep : ℚ) (v : InterpolateVars) (previous : ℚ × State) (configuration : Config)
    (hp : v.states.getLast? = some previous) (hc : configs.get? v.cit = some configuration) :
    (countsAsFailure v.allowFailure (cc v.calls previous.2 configuration) = true →
        1 ≤ v.nbFailures → interpolateBody cc configs timeStep v = .aborted v.states) ∧
    (∀ v1, interpolateBody cc configs timeStep v = .next v1 →
        v1.nbFailures = v.nbFailures +
          (if countsAsFailure v.allowFailure (cc v.calls previous.2 configuration) then 1
            else 0)) ∧
    (∀ s, interpolateBody cc configs timeStep v = .aborted s →
        (countsAsFailure v.allowFailure (cc v.calls previous.2 configuration) = true ∧
          1 ≤ v.nbFailures) ∨
        ((cc v.calls previous.2 configuration).repositionedInPlace = true ∧ 20 ≤ v.repos)) := by
  unfold interpolateBody countsAsFailure
  simp only [hp, hc]
  generalize cc v.calls previous.2 configuration = rep
  refine ⟨?_, ?_, ?_⟩
  · intro hf hn
    simp only [hf, Bool.true_and, if_true]
    rw [if_pos (by simpa using hn)]
  · intro v1 h
    split_ifs at h <;> simp only [InterpolateStep.next.injEq, reduceCtorEq] at h <;> subst h <;>
      simp_all
  · intro s h
    split_ifs at h <;> simp_all <;> omega

/-- Witness of C24 (amended): after a failed first call and a successful second
call on `failAroundOracle`, the failure of the third call makes the loop return
early. -/
theorem interpolateBody_failure_count_witness :
    interpolateVarsAfter failAroundOracle [[0], [1], [2], [3], [4], [5]] 1 2
        (interpolateInit (exampleStateAt [0] []) 0) = some exampleFailureVars ∧
      interpolateBody failAroundOracle [[0], [1], [2], [3], [4], [5]] 1 exampleFailureVars =
        .aborted exampleFailureVars.states :=
  ⟨by decide!,
    (interpolateBody_failure_count failAroundOracle [[0], [1], [2], [3], [4], [5]] 1
      exampleFailureVars (2, exampleStateAt [3] []) [4] rfl rfl).1 rfl (by decide)⟩

/-- Counterexample to C24: the first and the third call fail, the second call
succeeds in between, and `Interpolate` still returns early, without the end
state. -/
theorem interpolateBody_failure_count_counterexample :
    (failAroundOracle 0 (exampleStateAt [0] []) [1]).success = false ∧
    (failAroundOracle 1 (exampleStateAt [1] []) [3]).success = true ∧
    (failAroundOracle 2 (exampleStateAt [3] []) [4]).success = false ∧
    interpolateLoop failAroundOracle [[0], [1], [2], [3], [4], [5]] 1 20
        (interpolateInit (exampleStateAt [0] []) 0) =
      some (false, [(0, exampleStateAt [0] []), (1, exampleStateAt [1] []),
        (2, exampleStateAt [3] [])]) ∧
    Interpolate stateFilterOps failAroundOracle (exampleStateAt [0] []) (exampleStateAt [9] [])
        5 [[0], [1], [2], [3], [4], [5]] 1 0 false 20 =
      some [(0, exampleStateAt [0] []), (2, exampleStateAt [3] [])] :=
  ⟨rfl, rfl, rfl, by decide!, by decide!⟩

/-- A property of the loop variables that every turn keeps holds after any
number of turns. -/
theorem interpolateVarsAfter_invariant (cc : ComputeContactsOracle) (configs : List Config)
    (timeStep : ℚ) (P : InterpolateVars → Prop)
    (hstep : ∀ v v1, P v → interpolateBody cc configs timeStep v = .next v1 → P v1) :
    ∀ (n : Nat) (v v1 : InterpolateVars), P v →
      interpolateVarsAfter cc configs timeStep n v = some v1 → P v1 := by
  intro n
  induction n with
  | zero =>
    intro v v1 hP h
    simp only [interpolateVarsAfter, Option.some.injEq] at h
    exact h ▸ hP
  | succ n ih =>
    intro v v1 hP h
    simp only [interpolateVarsAfter] at h
    split at h
    · exact absurd h (by simp)
    · split at h
      · rename_i v2 hb
        exact ih v2 v1 (hstep v v2 hP hb) h
      · exact absurd h (by simp)

/-- At the head of the loop of `Interpolate`, `allowFailure` is the test
`nbRecontacts < 2` and the iterator is past the first configuration. -/
theorem interpolateVarsAfter_allowFailure (cc : ComputeContactsOracle) (configs : List Config)
    (timeStep initValue : ℚ) (start : State) (n : Nat) (v : InterpolateVars)
    (h : interpolateVarsAfter cc configs timeStep n (interpolateInit start initValue) = some v) :
    v.allowFailure = decide (v.nbRecontacts < 2) ∧ 1 ≤ v.cit := by
  refine interpolateVarsAfter_invariant cc configs timeStep
    (fun v => v.allowFailure = decide (v.nbRecontacts < 2) ∧ 1 ≤ v.cit) ?_ n _ v
    ⟨rfl, le_refl _⟩ h
  intro v v1 _ hb
  unfold interpolateBody at hb
  split at hb
  · simp only at hb
    split_ifs at hb <;> simp only [InterpolateStep.next.injEq, reduceCtorEq] at hb <;>
      subst hb <;> exact ⟨rfl, by simp⟩
  · exact absurd hb (by simp)

/-- Claim C25 (amended): when a report has `multipleBreaks` set while
`allowFailure` is false, the turn either returns early on the 21st
repositioning or steps the iterator back, so that the same target configuration
is processed again from the state just appended; `allowFailure` is false again
for that retry, since `nbRecontacts` only grew. -/
theorem interpolate_retry_without_failure (cc : ComputeContactsOracle) (configs : List Config)
    (timeStep initValue : ℚ) (start : State) (n : Nat) (v : InterpolateVars)
    (previous : ℚ × State) (configuration : Config)
    (hv : interpolateVarsAfter cc configs timeStep n (interpolateInit start initValue) = some v)
    (hp : v.states.getLast? = some previous) (hc : configs.get? v.cit = some configuration)
    (haf : v.allowFailure = false)
    (hmb : (cc v.calls previous.2 configuration).multipleBreaks = true) :
    ((cc v.calls previous.2 configuration).repositionedInPlace = true ∧ 20 ≤ v.repos ∧
      interpolateBody cc configs timeStep v = .aborted v.states) ∨
    ∃ v1, interpolateBody cc configs timeStep v = .next v1 ∧ v1.cit = v.cit ∧
      v1.currentVal = v.currentVal ∧ v1.calls = v.calls + 1 ∧
      v1.states = v.states ++
        [(v.currentVal - timeStep, reportState (cc v.calls previous.2 configuration))] ∧
      v1.nbRecontacts = v.nbRecontacts + 1 ∧ v1.allowFailure = false := by
  obtain ⟨hinv, hcit⟩ := interpolateVarsAfter_allowFailure cc configs timeStep initValue start n v hv
  rw [haf] at hinv
  have hrec : 2 ≤ v.nbRecontacts := by
    by_contra hlt
    rw [decide_eq_true (by omega : v.nbRecontacts < 2)] at hinv
    exact absurd hinv (by decide)
  unfold interpolateBody reportState
  simp only [hp, hc, haf, hmb, Bool.false_and, Bool.false_eq_true, if_false, Bool.not_false,
    Bool.and_true, Bool.true_and, Bool.not_true, Bool.or_false, if_true, Bool.and_false]
  by_cases hr : (cc v.calls previous.2 configuration).repositionedInPlace = true
  · by_cases h20 : 20 ≤ v.repos
    · left
      refine ⟨hr, h20, ?_⟩
      simp only [hr, if_true, Bool.true_and]
      rw [if_pos (by simpa using (by omega : v.repos + 1 > 20))]
    · right
      simp only [hr, if_true, Bool.true_and]
      rw [if_neg (by simpa using (by omega : ¬ (v.repos + 1 > 20)))]
      refine ⟨_, rfl, by simp only; omega, by simp, rfl, rfl, rfl, ?_⟩
      simp only [decide_eq_false_iff_not]
      omega
  · right
    have hr2 : (cc v.calls previous.2 configuration).repositionedInPlace = false := by
      simpa using hr
    simp only [hr2, Bool.false_eq_true, if_false, Bool.false_and]
    refine ⟨_, rfl, by simp only; omega, by simp, rfl, rfl, rfl, ?_⟩
    simp only [decide_eq_false_iff_not]
    omega

/-- Witness of C25 (amended): on `stuckOracle` the third turn starts with
`allowFailure` false and gets a report with `multipleBreaks`. -/
theorem interpolate_retry_without_failure_witness :
    ((stuckOracle exampleStuckVars.calls (exampleStateAt [1] []) [1]).repositionedInPlace = true ∧
      20 ≤ exampleStuckVars.repos ∧
      interpolateBody stuckOracle [[0], [1]] 1 exampleStuckVars =
        .aborted exampleStuckVars.states) ∨
    ∃ v1, interpolateBody stuckOracle [[0], [1]] 1 exampleStuckVars = .next v1 ∧
      v1.cit = exampleStuckVars.cit ∧ v1.currentVal = exampleStuckVars.currentVal ∧
      v1.calls = exampleStuckVars.calls + 1 ∧
      v1.states = exampleStuckVars.states ++
        [(exampleStuckVars.currentVal - 1,
          reportState (stuckOracle exampleStuckVars.calls (exampleStateAt [1] []) [1]))] ∧
      v1.nbRecontacts = exampleStuckVars.nbRecontacts + 1 ∧ v1.allowFailure = false :=
  interpolate_retry_without_failure stuckOracle [[0], [1]] 1 0 (exampleStateAt [0] []) 2
    exampleStuckVars (-1, exampleStateAt [1] []) [1] (by decide!) rfl rfl rfl rfl

/-- Counterexample to C25: on `stuckOracle` the third turn starts with
`allowFailure` false, its report has `multipleBreaks` set, and the retry of the
same configuration starts with `allowFailure` false too. -/
theorem interpolate_retry_without_failure_counterexample :
    (interpolateVarsAfter stuckOracle [[0], [1]] 1 2
        (interpolateInit (exampleStateAt [0] []) 0)).map
      (fun v => (v.cit, v.calls, v.allowFailure)) = some (1, 2, false) ∧
    (stuckOracle 2 (exampleStateAt [1] []) [1]).multipleBreaks = true ∧
    (interpolateVarsAfter stuckOracle [[0], [1]] 1 3
        (interpolateInit (exampleStateAt [0] []) 0)).map
      (fun v => (v.cit, v.calls, v.allowFailure)) = some (1, 3, false) :=
  ⟨by decide!, rfl, by decide!⟩

/-! ## A run of `Interpolate` that never ends -/

/-- Turns of the loop add up. -/
theorem interpolateVarsAfter_add (cc : ComputeContactsOracle) (configs : List Config)
    (timeStep : ℚ) :
    ∀ (a b : Nat) (v v1 : InterpolateVars),
      interpolateVarsAfter cc configs timeStep a v = some v1 →
      interpolateVarsAfter cc configs timeStep (a + b) v =
        interpolateVarsAfter cc configs timeStep b v1 := by
  intro a
  induction a with
  | zero =>
    intro b v v1 h
    simp only [interpolateVarsAfter, Option.some.injEq] at h
    rw [Nat.zero_add, h]
  | succ a ih =>
    intro b v v1 h
    rw [Nat.add_right_comm]
    simp only [interpolateVarsAfter] at h ⊢
    split at h
    · exact absurd h (by simp)
    · rename_i hcit
      rw [if_neg hcit]
      split at h
      · rename_i v2 hb
        exact ih b v2 v1 h
      · exact absurd h (by simp)

/-- While the loop is running, the turns it made only use up the fuel. -/
theorem interpolateLoop_of_running (cc : ComputeContactsOracle) (configs : List Config)
    (timeStep : ℚ) :
    ∀ (n k : Nat) (v v1 : InterpolateVars),
      interpolateVarsAfter cc configs timeStep n v = some v1 →
      interpolateLoop cc configs timeStep (n + k) v = interpolateLoop cc configs timeStep k v1 := by
  intro n
  induction n with
  | zero =>
    intro k v v1 h
    simp only [interpolateVarsAfter, Option.some.injEq] at h
    rw [Nat.zero_add, h]
  | succ n ih =>
    intro k v v1 h
    rw [Nat.add_right_comm]
    simp only [interpolateVarsAfter] at h
    simp only [interpolateLoop]
    split at h
    · exact absurd h (by simp)
    · rename_i hcit
      rw [if_neg hcit]
      split at h
      · rename_i v2 hb
        rw [hb]
        exact ih k v2 v1 h
      · exact absurd h (by simp)

/-- On `stuckOracle`, a turn that starts without `allowFailure` after two calls
steps back and leaves the loop in the same situation. -/
theorem stuckOracle_turn (v : InterpolateVars) (hcit : v.cit = 1) (haf : v.allowFailure = false)
    (hrec : 2 ≤ v.nbRecontacts) (hcalls : 2 ≤ v.calls) (hst : v.states ≠ []) :
    ∃ v1, interpolateBody stuckOracle [[0], [1]] 1 v = .next v1 ∧ v1.cit = 1 ∧
      v1.allowFailure = false ∧ 2 ≤ v1.nbRecontacts ∧ v1.calls = v.calls + 1 ∧
      v1.states ≠ [] := by
  obtain ⟨previous, hp⟩ : ∃ previous, v.states.getLast? = some previous := by
    cases hl : v.states.getLast? with
    | none => exact absurd (List.getLast?_eq_none_iff.1 hl) hst
    | some p => exact ⟨p, rfl⟩
  have hc : ([[0], [1]] : List Config).get? v.cit = some [1] := by rw [hcit]; rfl
  have hmb : decide (2 ≤ v.calls) = true := by simpa using hcalls
  have hrp : decide (v.calls < 2) = false := by simpa using hcalls
  unfold interpolateBody
  simp only [hp, hc, haf, stuckOracle, hmb, hrp, Bool.false_and, Bool.false_eq_true, if_false,
    Bool.not_false, Bool.and_true, Bool.true_and, Bool.not_true, Bool.or_false, if_true,
    Bool.and_false]
  refine ⟨_, rfl, by simp only; omega, ?_, by simp only; omega, rfl, by simp⟩
  simp only [decide_eq_false_iff_not]
  omega

/-- Claim C30, at the failing input: on the configurations `[0]`, `[1]` and
`stuckOracle` the loop of `Interpolate` never ends. After any number `n` of
turns it is still running and has called `ComputeContacts` `n` times, so no
amount of fuel lets the loop, or `Interpolate`, return. -/
theorem interpolateLoop_never_ends (n : Nat) :
    (∃ v, interpolateVarsAfter stuckOracle [[0], [1]] 1 n
        (interpolateInit (exampleStateAt [0] []) 0) = some v ∧ v.calls = n ∧
        v.cit ≠ ([[0], [1]] : List Config).length) ∧
    interpolateLoop stuckOracle [[0], [1]] 1 n (interpolateInit (exampleStateAt [0] []) 0) =
      none ∧
    Interpolate stateFilterOps stuckOracle (exampleStateAt [0] []) (exampleStateAt [9] []) 1
      [[0], [1]] 1 0 true n = none := by
  have hrun : ∀ (k : Nat) (v : InterpolateVars), v.cit = 1 → v.allowFailure = false →
      2 ≤ v.nbRecontacts → 2 ≤ v.calls → v.states ≠ [] →
      ∃ v1, interpolateVarsAfter stuckOracle [[0], [1]] 1 k v = some v1 ∧
        v1.calls = v.calls + k ∧ v1.cit = 1 := by
    intro k
    induction k with
    | zero => intro v h1 _ _ _ _; exact ⟨v, rfl, rfl, h1⟩
    | succ k ih =>
      intro v h1 h2 h3 h4 h5
      obtain ⟨v1, hb, a1, a2, a3, a4, a5⟩ := stuckOracle_turn v h1 h2 h3 h4 h5
      obtain ⟨v2, hv2, hc2, hcit2⟩ := ih v1 a1 a2 a3 (by omega) a5
      refine ⟨v2, ?_, by omega, hcit2⟩
      simp only [interpolateVarsAfter, h1, hb]
      exact hv2
  have h2 : interpolateVarsAfter stuckOracle [[0], [1]] 1 2
      (interpolateInit (exampleStateAt [0] []) 0) = some exampleStuckVars := by decide!
  have hall : ∃ v, interpolateVarsAfter stuckOracle [[0], [1]] 1 n
      (interpolateInit (exampleStateAt [0] []) 0) = some v ∧ v.calls = n ∧
      v.cit ≠ ([[0], [1]] : List Config).length := by
    match n with
    | 0 => exact ⟨_, rfl, rfl, by decide⟩
    | 1 =>
      have h1 : (interpolateVarsAfter stuckOracle [[0], [1]] 1 1
          (interpolateInit (exampleStateAt [0] []) 0)).map (fun v => (v.calls, v.cit)) =
          some (1, 1) := by decide!
      cases hv : interpolateVarsAfter stuckOracle [[0], [1]] 1 1
          (interpolateInit (exampleStateAt [0] []) 0) with
      | none =>
        rw [hv] at h1
        exact absurd h1 (by simp)
      | some v =>
        rw [hv] at h1
        simp only [Option.map_some', Option.some.injEq, Prod.mk.injEq] at h1
        exact ⟨v, rfl, h1.1, by rw [h1.2]; decide⟩
    | k + 2 =>
      obtain ⟨v1, hv1, hc1, hcit1⟩ := hrun k exampleStuckVars rfl rfl (by decide) (by decide)
        (by decide)
      refine ⟨v1, ?_, ?_, ?_⟩
      · rw [Nat.add_comm k 2, interpolateVarsAfter_add _ _ _ 2 k _ _ h2]
        exact hv1
      · rw [hc1]
        show 2 + k = k + 2
        omega
      · rw [hcit1]
        decide
  have ⟨v, hv, _, _⟩ := hall
  have hloop : interpolateLoop stuckOracle [[0], [1]] 1 n
      (interpolateInit (exampleStateAt [0] []) 0) = none := by
    have := interpolateLoop_of_running stuckOracle [[0], [1]] 1 n 0 _ v hv
    rw [Nat.add_zero] at this
    rw [this]
    rfl
  refine ⟨hall, hloop, ?_⟩
  unfold Interpolate
  rw [hloop]

/-! ## Theorems on the frames of `Interpolate` -/

/-- The frames of the loop of `Interpolate`: each is the start frame or the
state of a report of `ComputeContacts` on one of the configurations. -/
theorem interpolateLoop_frames (cc : ComputeContactsOracle) (configs : List Config)
    (timeStep initValue : ℚ) (start : State) (fuel : Nat) (b : Bool) (states : T_StateFrame)
    (h : interpolateLoop cc configs timeStep fuel (interpolateInit start initValue) =
      some (b, states)) :
    ∀ x ∈ states, x = (initValue, start) ∨
      ∃ k previous configuration, configuration ∈ configs ∧
        x.2 = reportState (cc k previous configuration) := by
  obtain ⟨v1, hP, hv⟩ := interpolateLoop_invariant cc configs timeStep
    (fun v => ∀ x ∈ v.states, x = (initValue, start) ∨
      ∃ k previous configuration, configuration ∈ configs ∧
        x.2 = reportState (cc k previous configuration))
    (by
      intro v v1 hP hb
      obtain ⟨previous, configuration, _, hc, hs, _, _⟩ :=
        interpolateBody_next cc configs timeStep v v1 hb
      intro x hx
      rw [hs, List.mem_append] at hx
      rcases hx with hx | hx
      · apply hP
        split at hx
        · exact (List.dropLast_sublist _).subset hx
        · exact hx
      · right
        rw [List.mem_singleton] at hx
        refine ⟨v.calls, previous.2, configuration, List.get?_mem hc, ?_⟩
        rw [hx]
        rfl)
    fuel (interpolateInit start initValue) b states
    (by
      intro x hx
      left
      simpa [interpolateInit] using hx) h
  rw [← hv]
  exact hP

/-- Claim C29 (amended): every frame of the sequence `Interpolate` returns is the
given start frame, the given end frame, or the state of a report of
`ComputeContacts` on one of the configurations, whether or not that report has
`success` set: a turn of the loop that does not return early appends the state
of its report in every case. -/
theorem Interpolate_frames_from_reports (ops : FilterOps State) (cc : ComputeContactsOracle)
    (start end_ : State) (pathEnd : ℚ) (configs : List Config) (timeStep initValue : ℚ)
    (filterStates : Bool) (fuel : Nat) (R : T_StateFrame)
    (h : Interpolate ops cc start end_ pathEnd configs timeStep initValue filterStates fuel =
      some R) :
    (∀ x ∈ R, x = (initValue, start) ∨ x = (pathEnd, end_) ∨
      ∃ k previous configuration, configuration ∈ configs ∧
        x.2 = reportState (cc k previous configuration)) ∧
    (∀ v v1 previous configuration, interpolateBody cc configs timeStep v = .next v1 →
      v.states.getLast? = some previous → configs.get? v.cit = some configuration →
      v1.states.getLast? =
        some (v1.currentVal - timeStep, reportState (cc v.calls previous.2 configuration))) := by
  constructor
  · unfold Interpolate at h
    split at h
    · simp at h
    · rename_i states hl
      have hf := interpolateLoop_frames cc configs timeStep initValue start fuel true states hl
      obtain ⟨hsub, _⟩ := FilterStates_spec ops fuel _ R filterStates h
      intro x hx
      rcases List.mem_append.1 (hsub.subset hx) with hx | hx
      · rcases hf x hx with h1 | h1
        · exact Or.inl h1
        · exact Or.inr (Or.inr h1)
      · exact Or.inr (Or.inl (List.mem_singleton.1 hx))
    · rename_i states hl
      have hf := interpolateLoop_frames cc configs timeStep initValue start fuel false states hl
      obtain ⟨hsub, _⟩ := FilterStates_spec ops fuel _ R filterStates h
      intro x hx
      rcases hf x (hsub.subset hx) with h1 | h1
      · exact Or.inl h1
      · exact Or.inr (Or.inr h1)
  · intro v v1 previous configuration hb hp hc
    obtain ⟨p2, c2, hp2, hc2, hs, _, _⟩ := interpolateBody_next cc configs timeStep v v1 hb
    rw [hp] at hp2
    rw [hc] at hc2
    simp only [Option.some.injEq] at hp2 hc2
    subst hp2 hc2
    rw [hs, List.getLast?_append]
    rfl

/-- Witness of C29 (amended) on the third frame of the run `exampleRun`. -/
theorem Interpolate_frames_from_reports_witness :
    ((1 : ℚ), exampleStateAt [2] []) = (0, exampleStateAt [0] []) ∨
      ((1 : ℚ), exampleStateAt [2] []) = (3, exampleStateAt [9] []) ∨
      ∃ k previous configuration, configuration ∈ [[0], [1], [2]] ∧
        ((1 : ℚ), exampleStateAt [2] []).2 =
          reportState (alternatingOracle k previous configuration) :=
  (Interpolate_frames_from_reports stateFilterOps alternatingOracle (exampleStateAt [0] [])
    (exampleStateAt [9] []) 3 [[0], [1], [2]] 1 0 false 10 exampleRun (by decide!)).1
    (1, exampleStateAt [2] []) (by decide!)

/-- Counterexample to C29: the first call of `failAroundOracle` fails and its
result is appended all the same; the run goes to its end and `Interpolate`
returns the frame. -/
theorem Interpolate_frames_from_reports_counterexample :
    (failAroundOracle 0 (exampleStateAt [0] []) [1]).success = false ∧
    interpolateLoop failAroundOracle [[0], [1], [2], [3]] 1 20
        (interpolateInit (exampleStateAt [0] ["a"]) 0) =
      some (true, [(0, exampleStateAt [0] ["a"]),
        (1, reportState (failAroundOracle 0 (exampleStateAt [0] ["a"]) [1])),
        (2, reportState (failAroundOracle 1 (exampleStateAt [1] []) [3]))]) ∧
    (∃ R, Interpolate stateFilterOps failAroundOracle (exampleStateAt [0] ["a"])
        (exampleStateAt [9] []) 3 [[0], [1], [2], [3]] 1 0 false 20 = some R ∧
      (1, reportState (failAroundOracle 0 (exampleStateAt [0] ["a"]) [1])) ∈ R) :=
  ⟨rfl, by decide!, ⟨[(0, exampleStateAt [0] ["a"]), (1, exampleStateAt [1] []),
      (3, exampleStateAt [9] [])], by decide!, by decide!⟩⟩

/-! ## Theorems on the sweep of `setCollisionFree` -/

/-- The report the loop of `setCollisionFree` ends with: the one it starts
from, set to success at the last of the tested configurations the validator
accepts, if there is one. -/
theorem setCollisionFreeLoop_last (load : Sample → Config → Config)
    (validation : Config → Bool) :
    ∀ (samples : List Sample) (res : ProjectionReport) (configuration : Config),
      (setCollisionFreeLoop load validation samples (res, configuration)).1 =
        match ((testedConfigurations load samples configuration).filter validation).getLast? with
        | some q => { res with result := { res.result with configuration := q }, success := true }
        | none => res := by
  intro samples
  induction samples with
  | nil => intro res configuration; rfl
  | cons sample rest ih =>
    intro res configuration
    rw [setCollisionFreeLoop, testedConfigurations, List.filter_cons]
    simp only
    rw [ih]
    cases hv : validation configuration with
    | false =>
      simp only [Bool.false_eq_true, if_false]
    | true =>
      simp only [if_true]
      cases hf : (testedConfigurations load rest (load sample configuration)).filter validation with
      | nil => rfl
      | cons a t =>
        rw [List.getLast?_cons_cons]
        cases hl : (a :: t).getLast? with
        | none => exact absurd hl (by simp)
        | some q => rfl

/-- Claim C26 (amended): `setCollisionFree` tests the current configuration and
then the configuration each sample loads, in order and without the last sample,
which is loaded and never tested; it goes through all of them and returns
success with the last configuration the validator accepts, not the first, and
no success with the state unchanged when it accepts none. -/
theorem setCollisionFree_last_tested (fb : FullBody) (validation : Config → Bool)
    (limbName : String) (currentState : State) :
    setCollisionFree fb validation limbName currentState =
      match ((testedConfigurations fb.load (fb.samples limbName)
          currentState.configuration).filter validation).getLast? with
      | some q =>
        { success := true, status := NO_CONTACT, result := { currentState with configuration := q } }
      | none => { success := false, status := NO_CONTACT, result := currentState } := by
  unfold setCollisionFree
  rw [setCollisionFreeLoop_last]
  cases ((testedConfigurations fb.load (fb.samples limbName)
    currentState.configuration).filter validation).getLast? with
  | none => rfl
  | some q => rfl

/-- Counterexample to C26: with the samples `1`, `2`, `3`, each loading the
configuration of its number, and a validator that rejects the current
configuration only, `setCollisionFree` returns the configuration of the second
sample, not of the first; with a validator that accepts the configuration of the third sample only
it returns no success. -/
theorem setCollisionFree_last_tested_counterexample :
    testedConfigurations sweepRobot.load (sweepRobot.samples "a") [0] = [[0], [1], [2]] ∧
    setCollisionFree sweepRobot (fun q => q != [0]) "a" (exampleStateAt [0] []) =
      { success := true, status := NO_CONTACT, result := exampleStateAt [2] [] } ∧
    setCollisionFree sweepRobot (fun q => q == [3]) "a" (exampleStateAt [0] []) =
      { success := false, status := NO_CONTACT, result := exampleStateAt [0] [] } :=
  ⟨by decide!, by decide!, by decide!⟩

/-! ## Theorems on the status of `generate_contact` -/

/-- The loop of `findValidCandidate` sets `unstableContact` only when
`checkStabilityGenerate` is true. -/
theorem findValidCandidateLoop_unstable (h : ContactGenHelper) (limbId : String)
    (current : State) :
    ∀ (l : List OctreeReport) (s s1 : CandidateSearch),
      findValidCandidateLoop h limbId current l s = Except.ok s1 → s1.unstableContact = true →
      s.unstableContact = true ∨ h.checkStabilityGenerate = true := by
  intro l
  induction l with
  | nil =>
    intro s s1 hl hu
    simp only [findValidCandidateLoop, pure, Except.pure, Except.ok.injEq] at hl
    subst hl
    exact Or.inl hu
  | cons bestReport rest ih =>
    intro s s1 hl hu
    cases hc : h.checkStabilityGenerate with
    | true => exact Or.inr rfl
    | false =>
      left
      rw [findValidCandidateLoop] at hl
      simp only [hc, Bool.not_false, Bool.true_or, if_true] at hl
      split at hl
      · simp only [pure, Except.pure, Except.ok.injEq] at hl
        subst hl
        exact hu
      · split at hl
        · rw [except_bind_eq_ok] at hl
          obtain ⟨normal, _, hl⟩ := hl
          rcases ih _ _ hl hu with h1 | h1
          · exact h1
          · rw [hc] at h1
            exact absurd h1 (by decide)
        · rcases ih _ _ hl hu with h1 | h1
          · exact h1
          · rw [hc] at h1
            exact absurd h1 (by decide)

/-- Claim C27: a report that `generate_contact` returns has `success` set
exactly when its status is `STABLE_CONTACT`; a report with the status
`UNSTABLE_CONTACT` has no success, since the unstable fallback is only recorded
when `checkStabilityGenerate` is true. -/
theorem generate_contact_success_iff_stable (h : ContactGenHelper) (limbName : String)
    (rep : ProjectionReport) (hg : generate_contact h limbName = Except.ok rep) :
    (rep.success = true ↔ rep.status = STABLE_CONTACT) ∧
    (rep.status = UNSTABLE_CONTACT → rep.success = false ∧ h.checkStabilityGenerate = true) := by
  obtain ⟨result, found_sample, unstableContact, hf, hrep⟩ := generate_contact_ok h limbName rep hg
  obtain ⟨finalSet, s, _, hl, hfs, hu, _⟩ :=
    findValidCandidate_ok h limbName result found_sample unstableContact hf
  have hcheck : unstableContact = true → h.checkStabilityGenerate = true := by
    intro hu1
    rw [hu] at hu1
    rcases findValidCandidateLoop_unstable h limbName _ finalSet _ s hl hu1 with h1 | h1
    · exact absurd h1 (by simp)
    · exact h1
  rw [hrep]
  cases found_sample with
  | true => simp
  | false =>
    cases unstableContact with
    | true => simp [hcheck rfl]
    | false => simp

/-- Witness of C27: with the threshold 100 no candidate of limb `b` is stable
enough, the better one is kept as the unstable fallback, and the report has the
status `UNSTABLE_CONTACT` and no success. -/
theorem generate_contact_success_iff_stable_witness :
    ∃ rep, generate_contact (exampleHelper [] 100 1 false true true) "b" = Except.ok rep ∧
      rep.status = UNSTABLE_CONTACT ∧
      (rep.success = true ↔ rep.status = STABLE_CONTACT) ∧
      (rep.status = UNSTABLE_CONTACT →
        rep.success = false ∧
          (exampleHelper [] 100 1 false true true).checkStabilityGenerate = true) :=
  ⟨{ success := false, status := UNSTABLE_CONTACT,
      result := { exampleStateAt [20] [] with
        contacts := [("b", true)], contactPositions := [("b", (20, 0, 0))],
        contactNormals := [("b", (0, 0, 1))],
        contactRotation := [("b", ((1, 0, 0), (0, 1, 0), (0, 0, 1)))],
        contactOrder := ["b"], stable := false } },
    rfl, rfl,
    generate_contact_success_iff_stable (exampleHelper [] 100 1 false true true) "b" _ rfl⟩

/-! ## Lemmas on the plans of `gen_contacts` -/

/-- The loop of `gen_contacts` stops at once on a report with `success_` set. -/
theorem gen_contacts_loop_done (h : ContactGenHelper) (candidates : List ContactState)
    (rep : ProjectionReport) (hrep : rep.success = true) :
    gen_contacts_loop candidates h rep = Except.ok (rep, h) := by
  cases candidates with
  | nil => rfl
  | cons c rest =>
    rw [gen_contacts_loop]
    simp only [hrep, if_true]
    rfl

/-- A plan whose limbs all fail leaves the helper as it is, and ends with the
report of its last limb. -/
theorem gen_contacts_plan_fails (h : ContactGenHelper) :
    ∀ (plan : List String) (rep0 : ProjectionReport), (∀ l ∈ plan, limbFails h l) →
      ∃ rep, gen_contacts_plan h.checkStabilityGenerate plan h rep0 = Except.ok (rep, h) ∧
        (plan = [] → rep = rep0) ∧
        (plan ≠ [] → rep.success = false ∧ ∃ l ∈ plan, generate_contact h l = Except.ok rep) := by
  intro plan
  induction plan with
  | nil =>
    intro rep0 _
    exact ⟨rep0, rfl, fun _ => rfl, fun hne => absurd rfl hne⟩
  | cons l rest ih =>
    intro rep0 hall
    obtain ⟨r, hr, hrs⟩ := hall l (List.mem_cons_self _ _)
    obtain ⟨rep, hrep, h1, h2⟩ := ih r (fun x hx => hall x (List.mem_cons_of_mem _ hx))
    have hh : (if rest.isEmpty = true then
        { h with checkStabilityGenerate := h.checkStabilityGenerate } else h) = h := by
      split <;> rfl
    refine ⟨rep, ?_, fun hne => absurd hne (List.cons_ne_nil _ _), fun _ => ?_⟩
    · rw [gen_contacts_plan]
      simp only [hh, hr, hrs, bind, Except.bind, Bool.false_eq_true, if_false]
      exact hrep
    · by_cases hrest : rest = []
      · rw [h1 hrest]
        exact ⟨hrs, l, List.mem_cons_self _ _, hr⟩
      · obtain ⟨a, x, hx, b⟩ := h2 hrest
        exact ⟨a, x, List.mem_cons_of_mem _ hx, b⟩

/-- Plans whose limbs all fail leave the helper as it is: the loop of
`gen_contacts` returns at once for an empty plan on a stable working state, or
ends with a report without success. -/
theorem gen_contacts_loop_fails (h : ContactGenHelper) :
    ∀ (candidates : List ContactState) (rep0 : ProjectionReport), rep0.success = false →
      (∀ c ∈ candidates, ∀ l ∈ c.2, limbFails h l) →
      ∃ rep, gen_contacts_loop candidates h rep0 = Except.ok (rep, h) ∧
        (rep = stableReport h ∨
          (rep.success = false ∧ (rep = rep0 ∨ ∃ l, generate_contact h l = Except.ok rep))) := by
  intro candidates
  induction candidates with
  | nil =>
    intro rep0 h0 _
    exact ⟨rep0, rfl, Or.inr ⟨h0, Or.inl rfl⟩⟩
  | cons c rest ih =>
    intro rep0 h0 hall
    rw [gen_contacts_loop]
    simp only [h0, Bool.false_eq_true, if_false]
    split
    · exact ⟨stableReport h, rfl, Or.inl rfl⟩
    · obtain ⟨r, hr, h1, h2⟩ := gen_contacts_plan_fails h c.2 rep0
        (hall c (List.mem_cons_self _ _))
      have hrs : r.success = false := by
        by_cases hc : c.2 = []
        · rw [h1 hc]; exact h0
        · exact (h2 hc).1
      obtain ⟨rep, hrep, hcase⟩ := ih r hrs (fun x hx => hall x (List.mem_cons_of_mem _ hx))
      refine ⟨rep, ?_, ?_⟩
      · simp only [hr, bind, Except.bind]
        exact hrep
      · rcases hcase with hc1 | ⟨hc1, hc2⟩
        · exact Or.inl hc1
        · refine Or.inr ⟨hc1, ?_⟩
          rcases hc2 with hc2 | hc2
          · by_cases hc : c.2 = []
            · exact Or.inl (hc2.trans (h1 hc))
            · obtain ⟨_, l, _, hl⟩ := h2 hc
              exact Or.inr ⟨l, hc2 ▸ hl⟩
          · exact Or.inr hc2

/-- The loop of `gen_contacts` on plans of one limb followed by plans made of
limbs that failed before or are among these limbs: either the plan of the first
limb that does not fail is accepted, or every limb fails and the helper stays as
it is. -/
theorem gen_contacts_loop_singles (h : ContactGenHelper) (s : State) :
    ∀ (singles F : List String) (rest : List ContactState) (rep0 : ProjectionReport),
      rep0.success = false → (∀ l ∈ F, limbFails h l) →
      (∀ c ∈ rest, ∀ l ∈ c.2, l ∈ F ∨ l ∈ singles) →
      ∀ rep h1,
        gen_contacts_loop (singles.map (fun l => (s, [l])) ++ rest) h rep0 =
          Except.ok (rep, h1) →
        (∃ pre l post, singles = pre ++ l :: post ∧ (∀ x ∈ pre, limbFails h x) ∧
          generate_contact h l = Except.ok rep ∧ rep.success = true ∧
          h1 = { h with workingState := rep.result }) ∨
        ((∀ x ∈ singles, limbFails h x) ∧ h1 = h ∧
          (rep = stableReport h ∨
            (rep.success = false ∧
              (rep = rep0 ∨ ∃ l, generate_contact h l = Except.ok rep)))) := by
  intro singles
  induction singles with
  | nil =>
    intro F rest rep0 h0 hF hrest rep h1 hl
    right
    obtain ⟨r, hr, hcase⟩ := gen_contacts_loop_fails h rest rep0 h0 (by
      intro c hc l hlc
      rcases hrest c hc l hlc with h2 | h2
      · exact hF l h2
      · exact absurd h2 (List.not_mem_nil l))
    simp only [List.map_nil, List.nil_append] at hl
    rw [hr] at hl
    simp only [Except.ok.injEq, Prod.mk.injEq] at hl
    obtain ⟨e1, e2⟩ := hl
    subst e1 e2
    exact ⟨fun x hx => absurd hx (List.not_mem_nil x), rfl, hcase⟩
  | cons l singles ih =>
    intro F rest rep0 h0 hF hrest rep h1 hl
    simp only [List.map_cons, List.cons_append] at hl
    rw [gen_contacts_loop] at hl
    simp only [h0, Bool.false_eq_true, if_false, List.isEmpty_cons, Bool.false_and] at hl
    rw [except_bind_eq_ok] at hl
    obtain ⟨⟨r, h2⟩, hp, hl⟩ := hl
    rw [gen_contacts_plan, except_bind_eq_ok] at hp
    obtain ⟨r1, hg, hp⟩ := hp
    have hh : (if ([] : List String).isEmpty = true then
        { h with checkStabilityGenerate := h.checkStabilityGenerate } else h) = h := rfl
    rw [hh] at hg
    simp only [gen_contacts_plan, pure, Except.pure, Except.ok.injEq, Prod.mk.injEq] at hp
    obtain ⟨e1, e2⟩ := hp
    subst e1
    cases hrs : r1.success with
    | true =>
      left
      rw [gen_contacts_loop_done _ _ _ hrs] at hl
      simp only [Except.ok.injEq, Prod.mk.injEq] at hl
      obtain ⟨e3, e4⟩ := hl
      subst e3 e4
      rw [hrs] at e2
      refine ⟨[], l, singles, rfl, fun x hx => absurd hx (List.not_mem_nil x), hg, hrs, ?_⟩
      rw [← e2]
      rfl
    | false =>
      rw [hrs] at e2
      simp only [Bool.false_eq_true, if_false, hh] at e2
      subst e2
      have hlf : limbFails h l := ⟨r1, hg, hrs⟩
      rcases ih (l :: F) rest r1 hrs (by
          intro x hx
          rcases List.mem_cons.1 hx with hx | hx
          · rw [hx]; exact hlf
          · exact hF x hx) (by
          intro c hc x hxc
          rcases hrest c hc x hxc with h3 | h3
          · exact Or.inl (List.mem_cons_of_mem _ h3)
          · rcases List.mem_cons.1 h3 with h3 | h3
            · exact Or.inl (h3 ▸ List.mem_cons_self _ _)
            · exact Or.inr h3) rep h1 hl with
        ⟨pre, l2, post, hs, hpre, hg2, hs2, hh1⟩ | ⟨hall, hh1, hcase⟩
      · left
        refine ⟨l :: pre, l2, post, by rw [hs]; rfl, ?_, hg2, hs2, hh1⟩
        intro x hx
        rcases List.mem_cons.1 hx with hx | hx
        · rw [hx]; exact hlf
        · exact hpre x hx
      · right
        refine ⟨?_, hh1, ?_⟩
        · intro x hx
          rcases List.mem_cons.1 hx with hx | hx
          · rw [hx]; exact hlf
          · exact hall x hx
        · rcases hcase with hc1 | ⟨hc1, hc2⟩
          · exact Or.inl hc1
          · refine Or.inr ⟨hc1, Or.inr ?_⟩
            rcases hc2 with hc2 | hc2
            · exact ⟨l, hc2 ▸ hg⟩
            · exact hc2

/-- The plans `stringCombinatorialRec` returns start with the plans it is given,
and the plans it adds are made of candidates. -/
theorem stringCombinatorialRec_prefix (candidates : List String) :
    ∀ (depth : Nat) (res : List (List String)), (∀ p ∈ res, ∀ l ∈ p, l ∈ candidates) →
      ∃ more, stringCombinatorialRec candidates depth res = res ++ more ∧
        ∀ p ∈ more, ∀ l ∈ p, l ∈ candidates := by
  intro depth
  induction depth with
  | zero =>
    intro res _
    exact ⟨[], by simp [stringCombinatorialRec], fun p hp => absurd hp (List.not_mem_nil p)⟩
  | succ d ih =>
    intro res hres
    simp only [stringCombinatorialRec]
    rw [stringCombinatorial_outer candidates res [], List.nil_append]
    have hnew : ∀ p ∈ res.flatMap (fun contacts =>
        (candidates.filter (fun c => !contacts.contains c)).map (fun c => contacts ++ [c])),
        ∀ l ∈ p, l ∈ candidates := by
      intro p hp l hl
      simp only [List.mem_flatMap, List.mem_map, List.mem_filter] at hp
      obtain ⟨q, hq, c, ⟨hc, _⟩, rfl⟩ := hp
      rcases List.mem_append.1 hl with hl | hl
      · exact hres q hq l hl
      · rw [List.mem_singleton.1 hl]; exact hc
    obtain ⟨more, hm, hmore⟩ := ih _ hnew
    refine ⟨_, rfl, ?_⟩
    intro p hp
    rw [hm, List.mem_append] at hp
    rcases hp with hp | hp
    · exact hnew p hp
    · exact hmore p hp

/-- The order of the plans of `stringCombinatorial`: the empty plan, then, when
a creation is allowed, the plans of one candidate in the order of the
candidates, then plans made of candidates. -/
theorem stringCombinatorial_shape (candidates : List String) (d : Nat) :
    ∃ rest, stringCombinatorial candidates d =
        [] :: ((if d = 0 then [] else candidates).map (fun c => [c]) ++ rest) ∧
      ∀ p ∈ rest, ∀ l ∈ p, l ∈ (if d = 0 then [] else candidates) := by
  cases d with
  | zero => exact ⟨[], rfl, fun p hp => absurd hp (List.not_mem_nil p)⟩
  | succ d =>
    unfold stringCombinatorial
    simp only [stringCombinatorialRec]
    rw [stringCombinatorial_outer candidates [[]] [], List.nil_append]
    have hone : [([] : List String)].flatMap (fun contacts =>
        (candidates.filter (fun c => !contacts.contains c)).map (fun c => contacts ++ [c])) =
        candidates.map (fun c => [c]) := by
      simp
    rw [hone]
    obtain ⟨more, hm, hmore⟩ := stringCombinatorialRec_prefix candidates d
      (candidates.map (fun c => [c])) (by
        intro p hp l hl
        rw [List.mem_map] at hp
        obtain ⟨c, hc, rfl⟩ := hp
        rw [List.mem_singleton.1 hl]; exact hc)
    refine ⟨more, ?_, ?_⟩
    · rw [hm, if_neg (Nat.succ_ne_zero d)]
      rfl
    · rw [if_neg (Nat.succ_ne_zero d)]
      exact hmore

/-- The queue of plans of `gen_contacts`: empty when a required limb is out of
contact, and otherwise the empty plan, the plans of one free limb, then plans
made of these limbs, all on the working state. -/
theorem keptPlans_shape (h : ContactGenHelper) :
    keptPlans h = [] ∨
      ∃ rest, keptPlans h =
          (h.workingState, []) ::
            ((singlePlanLimbs h).map (fun l => (h.workingState, [l])) ++ rest) ∧
        ∀ c ∈ rest, ∀ l ∈ c.2, l ∈ singlePlanLimbs h := by
  obtain ⟨rest, hs, hrest⟩ := stringCombinatorial_shape
    (freeEffectors h.workingState (extractEffectorsName h.fullBody)) h.maxContactCreations
  have hplans : gen_contacts_combinatorial h =
      (h.workingState, []) ::
        ((singlePlanLimbs h).map (fun l => (h.workingState, [l])) ++
          rest.map (fun p => (h.workingState, p))) := by
    unfold gen_contacts_combinatorial gen_contacts_combinatorial_of singlePlanLimbs
    simp only [hs, List.map_cons, List.map_append, List.map_map]
    rfl
  have hconst : ∀ c ∈ gen_contacts_combinatorial h,
      reqLimValid h c = reqLimValid h (h.workingState, []) := by
    intro c hc
    rw [hplans] at hc
    simp only [List.mem_cons, List.mem_append, List.mem_map] at hc
    rcases hc with hc | ⟨l, _, hc⟩ | ⟨p, _, hc⟩
    · rw [hc]
    · rw [← hc]; rfl
    · rw [← hc]; rfl
  unfold keptPlans
  cases hv : reqLimValid h (h.workingState, []) with
  | false =>
    left
    rw [List.filter_eq_nil_iff]
    intro c hc
    rw [hconst c hc, hv]
    exact Bool.false_ne_true
  | true =>
    right
    refine ⟨rest.map (fun p => (h.workingState, p)), ?_, ?_⟩
    · rw [List.filter_eq_self.2 (fun c hc => by rw [hconst c hc, hv]), hplans]
    · intro c hc l hl
      rw [List.mem_map] at hc
      obtain ⟨p, hp, rfl⟩ := hc
      have := hrest p hp l hl
      unfold singlePlanLimbs
      exact this

/-- What `gen_contacts` returns, by cases: no plan is kept; or the empty plan is
reached on a stable working state; or the plan of one free limb is accepted,
after the free limbs before it failed; or every free limb fails, as a plan of
its own and in the plans of several limbs, and the helper is unchanged. -/
theorem gen_contacts_cases (h : ContactGenHelper) (rep : ProjectionReport)
    (h1 : ContactGenHelper) (hg : gen_contacts h = Except.ok (rep, h1)) :
    (rep = ProjectionReport.default ∧ h1 = h) ∨
    (rep = stableReport h ∧ h1 = h) ∨
    (∃ pre l post, singlePlanLimbs h = pre ++ l :: post ∧ (∀ x ∈ pre, limbFails h x) ∧
      generate_contact h l = Except.ok rep ∧ rep.success = true ∧
      h1 = { h with workingState := rep.result }) ∨
    ((∀ x ∈ singlePlanLimbs h, limbFails h x) ∧ h1 = h ∧ rep.success = false ∧
      (rep = ProjectionReport.default ∨ ∃ l, generate_contact h l = Except.ok rep)) := by
  have hgk : gen_contacts h = gen_contacts_loop (keptPlans h) h ProjectionReport.default := rfl
  rw [hgk] at hg
  rcases keptPlans_shape h with hk | ⟨rest, hk, hrest⟩
  · left
    rw [hk] at hg
    simp only [gen_contacts_loop, pure, Except.pure, Except.ok.injEq, Prod.mk.injEq] at hg
    exact ⟨hg.1.symm, hg.2.symm⟩
  · rw [hk, gen_contacts_loop] at hg
    have hd : ProjectionReport.default.success = false := rfl
    simp only [hd, Bool.false_eq_true, if_false, List.isEmpty_nil, Bool.true_and] at hg
    split at hg
    · simp only [pure, Except.pure, Except.ok.injEq, Prod.mk.injEq] at hg
      exact Or.inr (Or.inl ⟨hg.1.symm, hg.2.symm⟩)
    · simp only [gen_contacts_plan, pure, Except.pure, bind, Except.bind] at hg
      rcases gen_contacts_loop_singles h h.workingState (singlePlanLimbs h) [] rest
          ProjectionReport.default rfl (fun l hl => absurd hl (List.not_mem_nil l))
          (fun c hc l hl => Or.inr (hrest c hc l hl)) rep h1 hg with
        hacc | ⟨hall, hh1, hcase⟩
      · exact Or.inr (Or.inr (Or.inl hacc))
      · rcases hcase with hc1 | ⟨hc1, hc2⟩
        · exact Or.inr (Or.inl ⟨hc1, hh1⟩)
        · exact Or.inr (Or.inr (Or.inr ⟨hall, hh1, hc1, hc2⟩))

/-- The state `findValidCandidate` returns holds the limb in contact, at the
end of `contactOrder`, when a candidate was kept, and the contacts of the
working state otherwise. -/
theorem findValidCandidate_added (h : ContactGenHelper) (limbId : String)
    (result : State) (found_sample unstableContact : Bool)
    (hf : findValidCandidate h limbId false false =
      Except.ok (result, found_sample, unstableContact)) :
    ((found_sample = true ∨ unstableContact = true) →
      result.contacts = mapSet limbId true h.workingState.contacts ∧
        result.contactOrder = h.workingState.contactOrder ++ [limbId]) ∧
    (found_sample = false → unstableContact = false → SameContacts result h.workingState) := by
  unfold findValidCandidate at hf
  rw [except_bind_eq_ok] at hf
  obtain ⟨finalSet, _, hf⟩ := hf
  rw [except_bind_eq_ok] at hf
  obtain ⟨s, _, hf⟩ := hf
  simp only [pure, Except.pure, Except.ok.injEq, Prod.mk.injEq] at hf
  obtain ⟨hr, hfs, hu⟩ := hf
  rw [← hr, ← hfs, ← hu]
  cases hfd : s.found_sample <;> cases hud : s.unstableContact <;>
    simp [SameContacts]

/-- The contacts of the state of a report of `generate_contact`: a report with
success has the status `STABLE_CONTACT` and holds the limb in contact, at the
end of `contactOrder`; any report holds the contacts of the working state, or
these and the limb. -/
theorem generate_contact_contacts (h : ContactGenHelper) (limbName : String)
    (rep : ProjectionReport) (hg : generate_contact h limbName = Except.ok rep) :
    (rep.success = true →
      rep.status = STABLE_CONTACT ∧
        rep.result.contacts = mapSet limbName true h.workingState.contacts ∧
        rep.result.contactOrder = h.workingState.contactOrder ++ [limbName]) ∧
    (SameContacts rep.result h.workingState ∨
      (rep.result.contacts = mapSet limbName true h.workingState.contacts ∧
        rep.result.contactOrder = h.workingState.contactOrder ++ [limbName])) := by
  obtain ⟨result, found_sample, unstableContact, hf, hrep⟩ := generate_contact_ok h limbName rep hg
  obtain ⟨hadd, hsame⟩ := findValidCandidate_added h limbName result found_sample unstableContact hf
  obtain ⟨finalSet, s, _, hl, hfs, hu, _⟩ :=
    findValidCandidate_ok h limbName result found_sample unstableContact hf
  have hcheck : unstableContact = true → h.checkStabilityGenerate = true := by
    intro hu1
    rw [hu] at hu1
    rcases findValidCandidateLoop_unstable h limbName _ finalSet _ s hl hu1 with h1 | h1
    · exact absurd h1 (by simp)
    · exact h1
  rw [hrep]
  cases found_sample with
  | true =>
    simp only [if_true]
    exact ⟨fun _ => ⟨trivial, hadd (Or.inl rfl)⟩, Or.inr (hadd (Or.inl rfl))⟩
  | false =>
    cases unstableContact with
    | true =>
      simp only [Bool.false_eq_true, if_false, if_true, hcheck rfl, Bool.not_true]
      exact ⟨fun hs => absurd hs (by decide), Or.inr (hadd (Or.inr rfl))⟩
    | false =>
      simp only [Bool.false_eq_true, if_false]
      exact ⟨fun hs => absurd hs (by decide),
        Or.inl ((setCollisionFree_same _ _ _ _).trans (hsame rfl rfl))⟩

/-! ## Theorems on the plans of `gen_contacts` -/

/-- Claim C21: when `gen_contacts` returns success, either it reached the empty
plan on a stable working state, or the plan it accepted is the plan of one free
limb: the plans before it are the empty plan and the plans of the free limbs
before it, which all failed; `generate_contact` gave the returned report for
that limb, with the status `STABLE_CONTACT`, and the limb is in contact in the
returned state. A plan of several limbs comes after the plans of each of its
limbs and is never the accepted one. -/
theorem gen_contacts_accepted_plan (h : ContactGenHelper) (rep : ProjectionReport)
    (h1 : ContactGenHelper) (hg : gen_contacts h = Except.ok (rep, h1))
    (hs : rep.success = true) :
    (rep = stableReport h ∧ h1 = h) ∨
    ∃ (pre : List String) (l : String) (post : List ContactState),
      keptPlans h = (h.workingState, []) ::
        (pre.map (fun x => (h.workingState, [x])) ++ (h.workingState, [l]) :: post) ∧
      (∀ x ∈ pre, limbFails h x) ∧
      generate_contact h l = Except.ok rep ∧ rep.status = STABLE_CONTACT ∧
      l ∈ activeContacts rep.result ∧ l ∈ rep.result.contactOrder ∧
      h1.workingState = rep.result := by
  rcases gen_contacts_cases h rep h1 hg with
    ⟨hd, _⟩ | hst | ⟨pre, l, post, hsing, hpre, hgl, _, hh1⟩ | ⟨_, _, hf, _⟩
  · rw [hd] at hs
    exact absurd hs (by decide)
  · exact Or.inl hst
  · right
    obtain ⟨hstatus, hcontacts, horder⟩ := (generate_contact_contacts h l rep hgl).1 hs
    have hk : ∃ rest, keptPlans h =
        (h.workingState, []) ::
          ((singlePlanLimbs h).map (fun l => (h.workingState, [l])) ++ rest) := by
      rcases keptPlans_shape h with hk | ⟨rest, hk, _⟩
      · exfalso
        have hgk : gen_contacts h = gen_contacts_loop (keptPlans h) h ProjectionReport.default :=
          rfl
        rw [hgk, hk] at hg
        simp only [gen_contacts_loop, pure, Except.pure, Except.ok.injEq, Prod.mk.injEq] at hg
        rw [← hg.1] at hs
        exact absurd hs (by decide)
      · exact ⟨rest, hk⟩
    obtain ⟨rest, hk⟩ := hk
    refine ⟨pre, l, post.map (fun x => (h.workingState, [x])) ++ rest, ?_, hpre, hgl, hstatus,
      ?_, ?_, ?_⟩
    · rw [hk, hsing]
      simp only [List.map_append, List.map_cons, List.append_assoc, List.cons_append]
    · rw [mem_activeContacts, hcontacts, mapSet_true_mem]
      exact Or.inl rfl
    · rw [horder]
      exact List.mem_append_right _ (List.mem_singleton.2 rfl)
    · rw [hh1]
  · rw [hf] at hs
    exact absurd hs (by decide)

/-- Witness of C21: on `exampleRobot` with no contact and two creations allowed,
the plan of limb `a` fails and the plan of limb `b` is accepted. -/
theorem gen_contacts_accepted_plan_witness :
    (exampleAcceptedReport = stableReport (examplePlansHelper 15) ∧
      ({ examplePlansHelper 15 with workingState := exampleAcceptedReport.result } :
        ContactGenHelper) = examplePlansHelper 15) ∨
    ∃ (pre : List String) (l : String) (post : List ContactState),
      keptPlans (examplePlansHelper 15) = ((examplePlansHelper 15).workingState, []) ::
        (pre.map (fun x => ((examplePlansHelper 15).workingState, [x])) ++
          ((examplePlansHelper 15).workingState, [l]) :: post) ∧
      (∀ x ∈ pre, limbFails (examplePlansHelper 15) x) ∧
      generate_contact (examplePlansHelper 15) l = Except.ok exampleAcceptedReport ∧
      exampleAcceptedReport.status = STABLE_CONTACT ∧
      l ∈ activeContacts exampleAcceptedReport.result ∧
      l ∈ exampleAcceptedReport.result.contactOrder ∧
      ({ examplePlansHelper 15 with workingState := exampleAcceptedReport.result } :
        ContactGenHelper).workingState = exampleAcceptedReport.result :=
  gen_contacts_accepted_plan (examplePlansHelper 15) exampleAcceptedReport
    { examplePlansHelper 15 with workingState := exampleAcceptedReport.result } rfl rfl

/-- Claim C28: the state `gen_contacts` returns holds the contacts of the
working state it was called with, or these and one limb more, at the end of
`contactOrder`, whatever `maxContactCreations` is; the working state it leaves
is the one it was called with or the returned state; and when every free limb
fails as a plan of its own, no plan of several limbs succeeds. -/
theorem gen_contacts_one_contact_more (h : ContactGenHelper) (rep : ProjectionReport)
    (h1 : ContactGenHelper) (hg : gen_contacts h = Except.ok (rep, h1)) :
    (rep = ProjectionReport.default ∨ SameContacts rep.result h.workingState ∨
      ∃ l, rep.result.contacts = mapSet l true h.workingState.contacts ∧
        rep.result.contactOrder = h.workingState.contactOrder ++ [l]) ∧
    rep.result.contactOrder.length ≤ h.workingState.contactOrder.length + 1 ∧
    (h1.workingState = h.workingState ∨ h1.workingState = rep.result) ∧
    ((∀ x ∈ singlePlanLimbs h, limbFails h x) → rep.success = true → rep = stableReport h) := by
  have hshape : rep = ProjectionReport.default ∨ SameContacts rep.result h.workingState ∨
      ∃ l, rep.result.contacts = mapSet l true h.workingState.contacts ∧
        rep.result.contactOrder = h.workingState.contactOrder ++ [l] := by
    have hof : ∀ l, generate_contact h l = Except.ok rep →
        SameContacts rep.result h.workingState ∨
        ∃ l, rep.result.contacts = mapSet l true h.workingState.contacts ∧
          rep.result.contactOrder = h.workingState.contactOrder ++ [l] := by
      intro l hgl
      rcases (generate_contact_contacts h l rep hgl).2 with h2 | h2
      · exact Or.inl h2
      · exact Or.inr ⟨l, h2⟩
    rcases gen_contacts_cases h rep h1 hg with
      ⟨hd, _⟩ | ⟨hst, _⟩ | ⟨_, l, _, _, _, hgl, _, _⟩ | ⟨_, _, _, hd | ⟨l, hgl⟩⟩
    · exact Or.inl hd
    · right; left
      rw [hst]
      exact SameContacts.refl _
    · exact Or.inr (hof l hgl)
    · exact Or.inl hd
    · exact Or.inr (hof l hgl)
  refine ⟨hshape, ?_, ?_, ?_⟩
  · rcases hshape with hd | hsame | ⟨l, _, ho⟩
    · rw [hd]
      exact Nat.zero_le _
    · rw [hsame.1]
      exact Nat.le_succ _
    · rw [ho, List.length_append]
      exact le_refl _
  · rcases gen_contacts_cases h rep h1 hg with
      ⟨_, hh⟩ | ⟨_, hh⟩ | ⟨_, _, _, _, _, _, _, hh⟩ | ⟨_, hh, _⟩
    · exact Or.inl (by rw [hh])
    · exact Or.inl (by rw [hh])
    · exact Or.inr (by rw [hh])
    · exact Or.inl (by rw [hh])
  · intro hall hs
    rcases gen_contacts_cases h rep h1 hg with
      ⟨hd, _⟩ | ⟨hst, _⟩ | ⟨pre, l, post, hsing, _, hgl, _, _⟩ | ⟨_, _, hf, _⟩
    · rw [hd] at hs
      exact absurd hs (by decide)
    · exact hst
    · exfalso
      have hmem : l ∈ singlePlanLimbs h := by
        rw [hsing]
        exact List.mem_append_right _ (List.mem_cons_self _ _)
      obtain ⟨r, hr, hrs⟩ := hall l hmem
      rw [hgl] at hr
      simp only [Except.ok.injEq] at hr
      rw [hr, hrs] at hs
      exact absurd hs (by decide)
    · rw [hf] at hs
      exact absurd hs (by decide)

/-- Witness of C28: on `exampleRobot` with no contact and two creations allowed,
`gen_contacts` returns a state with the contact of limb `b` alone. -/
theorem gen_contacts_one_contact_more_witness :
    exampleAcceptedReport.result.contactOrder.length ≤
        (examplePlansHelper 15).workingState.contactOrder.length + 1 ∧
      exampleAcceptedReport.result.contactOrder = ["b"] :=
  ⟨(gen_contacts_one_contact_more (examplePlansHelper 15) exampleAcceptedReport
    { examplePlansHelper 15 with workingState := exampleAcceptedReport.result } rfl).2.1, rfl⟩

/-! ## Lemmas and theorems on `repositionContacts` -/

/-- The loop over a group leaves the stack of popped contacts as it is; at its
end a result that is stable is the state of a report of `generate_contact` for
`nContactName` with the status `STABLE_CONTACT`, and when `notFound` is still
set the result is not stable. -/
theorem repositionGroupLoop_spec (previous : State) (hprev : previous.stable = false) :
    ∀ (group : List String) (v v1 : RepositionVars),
      repositionGroupLoop previous group v = Except.ok v1 →
      (v.result.stable = true → ∃ hlp r, generate_contact hlp v.nContactName = Except.ok r ∧
        r.status = STABLE_CONTACT ∧ r.result = v.result) →
      (v.notFound = true → v.result.stable = false) →
      v1.poppedContacts = v.poppedContacts ∧
      (v1.result.stable = true → ∃ hlp r, generate_contact hlp v1.nContactName = Except.ok r ∧
        r.status = STABLE_CONTACT ∧ r.result = v1.result) ∧
      (v1.notFound = true → v1.result.stable = false) := by
  intro group
  induction group with
  | nil =>
    intro v v1 hl hJ hK
    simp only [repositionGroupLoop, pure, Except.pure, Except.ok.injEq] at hl
    subst hl
    exact ⟨rfl, hJ, hK⟩
  | cons cit rest ih =>
    intro v v1 hl hJ hK
    rw [repositionGroupLoop] at hl
    split at hl
    · simp only [pure, Except.pure, Except.ok.injEq] at hl
      subst hl
      exact ⟨rfl, hJ, hK⟩
    · rw [except_bind_eq_ok] at hl
      obtain ⟨rep, hg, hl⟩ := hl
      split at hl
      · rename_i hst
        obtain ⟨a, b, c⟩ := ih _ v1 hl
          (fun _ => ⟨_, rep, hg, hst, rfl⟩) (fun hnf => absurd hnf (by simp))
        exact ⟨a, b, c⟩
      · obtain ⟨a, b, c⟩ := ih _ v1 hl
          (fun hs => absurd hs (by simp [hprev])) (fun _ => hprev)
        exact ⟨a, b, c⟩

/-- The first loop of `repositionContacts`: the contacts it visits and what is
left of `oldOrder` make up the order it started from; the stack holds the
visited contacts whose replacement failed, the last one on top; the loop leaves
contacts unvisited only when the result is stable. -/
theorem repositionLoop_spec (previous : State) (savedConfig : Config)
    (hprev : previous.stable = false) :
    ∀ (order : List String) (v : RepositionVars) (left : List String) (v1 : RepositionVars),
      repositionLoop previous savedConfig order v = Except.ok (left, v1) →
      (v.result.stable = true → ∃ hlp r, generate_contact hlp v.nContactName = Except.ok r ∧
        r.status = STABLE_CONTACT ∧ r.result = v.result) →
      ∃ trace, repositionTrace previous savedConfig order v = Except.ok trace ∧
        order = trace.map Prod.fst ++ left ∧
        v1.poppedContacts = failedContacts trace ++ v.poppedContacts ∧
        (left ≠ [] → v1.result.stable = true) ∧
        (v1.result.stable = true → ∃ hlp r, generate_contact hlp v1.nContactName = Except.ok r ∧
          r.status = STABLE_CONTACT ∧ r.result = v1.result) := by
  intro order
  induction order with
  | nil =>
    intro v left v1 hl hJ
    simp only [repositionLoop, pure, Except.pure, Except.ok.injEq, Prod.mk.injEq] at hl
    obtain ⟨e1, e2⟩ := hl
    subst e1 e2
    exact ⟨[], rfl, rfl, rfl, fun hne => absurd rfl hne, hJ⟩
  | cons name rest ih =>
    intro v left v1 hl hJ
    rw [repositionLoop] at hl
    rw [repositionTrace]
    cases hst : v.result.stable with
    | true =>
      simp only [hst, if_true, pure, Except.pure, Except.ok.injEq, Prod.mk.injEq] at hl
      obtain ⟨e1, e2⟩ := hl
      subst e1 e2
      simp only [if_true]
      exact ⟨[], rfl, rfl, rfl, fun _ => hst, hJ⟩
    | false =>
      simp only [hst, Bool.false_eq_true, if_false] at hl ⊢
      rw [except_bind_eq_ok] at hl
      obtain ⟨v2, hgl, hl⟩ := hl
      obtain ⟨hpop, hJ2, hK2⟩ := repositionGroupLoop_spec previous hprev _ _ v2 hgl
        (fun hs => absurd hs (by simp [hst])) (fun _ => hst)
      simp only at hpop
      cases hnf : v2.notFound with
      | true =>
        simp only [hnf, if_true] at hl
        obtain ⟨trace, ht, ho, hp, hleft, hJ3⟩ := ih _ left v1 hl
          (fun hs => absurd hs (by simp [hK2 hnf]))
        refine ⟨(name, true) :: trace, ?_, ?_, ?_, hleft, hJ3⟩
        · simp only [hgl, bind, Except.bind, hnf, if_true, ht, pure, Except.pure]
        · rw [ho]; rfl
        · rw [hp]
          simp only [failedContacts, List.filter_cons, if_true, List.map_cons, List.reverse_cons,
            List.append_assoc, List.singleton_append, hpop]
      | false =>
        simp only [hnf, Bool.false_eq_true, if_false] at hl
        obtain ⟨trace, ht, ho, hp, hleft, hJ3⟩ := ih _ left v1 hl hJ2
        refine ⟨(name, false) :: trace, ?_, ?_, ?_, hleft, hJ3⟩
        · simp only [hgl, bind, Except.bind, hnf, Bool.false_eq_true, if_false, ht, pure,
            Except.pure]
        · rw [ho]; rfl
        · rw [hp, hpop]
          simp only [failedContacts, List.filter_cons, Bool.false_eq_true, if_false]

/-- Claim C22: the `contactOrder` of the state `repositionContacts` returns is
made of the visited contacts whose replacement failed, the last failed first,
then the contacts not visited, in their order, then the newly created contact
when the state is stable and nothing otherwise; the visited and the unvisited
contacts make up the `contactOrder` of the working state; and the report has
the status `STABLE_CONTACT` and success exactly when the state is stable. -/
theorem repositionContacts_order (h : ContactGenHelper) (rep : ProjectionReport)
    (h1 : ContactGenHelper) (hr : repositionContacts h = Except.ok (rep, h1)) :
    ∃ trace left nContact,
      repositionTrace { h.workingState with stable := false } h.previousState.configuration
        h.workingState.contactOrder (repositionInit h) = Except.ok trace ∧
      h.workingState.contactOrder = trace.map Prod.fst ++ left ∧
      rep.result.contactOrder =
        failedContacts trace ++ left ++ (if rep.result.stable then [nContact] else []) ∧
      (left ≠ [] → rep.result.stable = true) ∧
      (rep.result.stable = true → ∃ hlp r, generate_contact hlp nContact = Except.ok r ∧
        r.status = STABLE_CONTACT ∧
        rep.result = { r.result with contactOrder := rep.result.contactOrder }) ∧
      ((rep.status = STABLE_CONTACT ∧ rep.success = true) ↔ rep.result.stable = true) := by
  unfold repositionContacts at hr
  rw [except_bind_eq_ok] at hr
  obtain ⟨⟨left, v⟩, hl, hr⟩ := hr
  obtain ⟨trace, ht, ho, hp, hleft, hJ⟩ := repositionLoop_spec
    { h.workingState with stable := false } h.previousState.configuration rfl
    h.workingState.contactOrder (repositionInit h) left v hl
    (fun hs => absurd hs (by simp [repositionInit]))
  simp only [pure, Except.pure, Except.ok.injEq, Prod.mk.injEq] at hr
  obtain ⟨hrep, _⟩ := hr
  have hpop : v.poppedContacts = failedContacts trace := by
    rw [hp]
    simp [repositionInit]
  refine ⟨trace, left, v.nContactName, ht, ho, ?_, ?_, ?_, ?_⟩
  · rw [← hrep, hpop]
    cases v.result.stable <;> simp
  · intro hne
    rw [← hrep]
    exact hleft hne
  · intro hs
    rw [← hrep] at hs ⊢
    obtain ⟨hlp, r, hg, hst, hres⟩ := hJ hs
    exact ⟨hlp, r, hg, hst, by rw [hres]⟩
  · rw [← hrep]
    cases v.result.stable <;> simp [ProjectionReport.default]

/-- Witness of C22: on `exampleRobot` with the contacts `a` and `b` and the
threshold 100 no contact can be replaced; the contacts come back in the order
`b`, `a`, the last failed first, and the report has no success. -/
theorem repositionContacts_order_witness :
    ∃ trace left nContact,
      repositionTrace
        { (exampleHelper ["a", "b"] 100 1 false true false).workingState with stable := false }
        (exampleHelper ["a", "b"] 100 1 false true false).previousState.configuration
        (exampleHelper ["a", "b"] 100 1 false true false).workingState.contactOrder
        (repositionInit (exampleHelper ["a", "b"] 100 1 false true false)) = Except.ok trace ∧
      (exampleHelper ["a", "b"] 100 1 false true false).workingState.contactOrder =
        trace.map Prod.fst ++ left ∧
      (exampleStateAt [0] ["b", "a"]).contactOrder =
        failedContacts trace ++ left ++
          (if (exampleStateAt [0] ["b", "a"]).stable then [nContact] else []) :=
  have h := repositionContacts_order (exampleHelper ["a", "b"] 100 1 false true false)
    { success := false, status := NO_CONTACT,
      result := { exampleStateAt [0] ["a", "b"] with contactOrder := ["b", "a"] } }
    { exampleHelper ["a", "b"] 100 1 false true false with
      workingState :=
        ({ (exampleHelper ["a", "b"] 100 1 false true false).workingState with
          stable := false } : State).RemoveContact "b" } (by with_unfolding_all rfl)
  match h with
  | ⟨trace, left, nContact, h1, h2, h3, _⟩ => ⟨trace, left, nContact, h1, h2, h3⟩

end hpp.rbprm
